import Mathlib

/-!
# libxl event and asynchronous-operation core (tools/libxl/libxl_internal.h)

A shallow embedding of the event-source registration structs, the inline
init and query functions, the sorted tail-queue insertion and the ao
convenience blocks of `libxl_internal.h`, followed by theorems about them.

C `int` values are modelled as `Int`, `uint32_t` values as `Nat` reduced
modulo `2^32` where arithmetic happens, and pointers as addresses (`Nat`,
`0` being `NULL`).
-/

namespace Libxl

/-! ## Definitions -/

/-- A C pointer seen as an address; `0` is `NULL`. -/
abbrev Ptr := Nat

/-- The `struct timeval` of `<sys/time.h>`. -/
structure timeval where
  tv_sec : Int
  tv_usec : Int
deriving DecidableEq, Repr

/-- The `struct libxl__ev_fd`; `entry` holds the two links of `LIBXL_LIST_ENTRY`. -/
structure libxl__ev_fd where
  fd : Int
  events : Int
  func : Ptr
  entry : Ptr × Ptr
  for_app_reg : Ptr
deriving DecidableEq, Repr

/-- The `struct libxl__ev_time`; `entry` holds the two links of `LIBXL_TAILQ_ENTRY`. -/
structure libxl__ev_time where
  func : Ptr
  infinite : Int
  entry : Ptr × Ptr
  abs : timeval
  for_app_reg : Ptr
deriving DecidableEq, Repr

/-- The `struct libxl__ev_xswatch`. -/
structure libxl__ev_xswatch where
  path : Ptr
  callback : Ptr
  slotnum : Int
  counterval : Nat
deriving DecidableEq, Repr

/-- The `struct libxl__ev_child`; `entry` holds the two links of `LIBXL_LIST_ENTRY`. -/
structure libxl__ev_child where
  pid : Int
  callback : Ptr
  entry : Ptr × Ptr
deriving DecidableEq, Repr

/-- The inline `libxl__ev_fd_init`: `efd->fd = -1;`. -/
def libxl__ev_fd_init (efd : libxl__ev_fd) : libxl__ev_fd :=
  { efd with fd := -1 }

/-- The inline `libxl__ev_fd_isregistered`: `return efd->fd >= 0;`. -/
def libxl__ev_fd_isregistered (efd : libxl__ev_fd) : Int :=
  if efd.fd ≥ 0 then 1 else 0

/-- The inline `libxl__ev_time_init`: `ev->func = 0;`. -/
def libxl__ev_time_init (ev : libxl__ev_time) : libxl__ev_time :=
  { ev with func := 0 }

/-- The inline `libxl__ev_time_isregistered`: `return !!ev->func;`. -/
def libxl__ev_time_isregistered (ev : libxl__ev_time) : Int :=
  if ev.func ≠ 0 then 1 else 0

/-- The inline `libxl__ev_xswatch_init`: `xswatch_out->slotnum = -1;`. -/
def libxl__ev_xswatch_init (xswatch_out : libxl__ev_xswatch) : libxl__ev_xswatch :=
  { xswatch_out with slotnum := -1 }

/-- The inline `libxl__ev_xswatch_isregistered`: `return xw->slotnum >= 0;`. -/
def libxl__ev_xswatch_isregistered (xw : libxl__ev_xswatch) : Int :=
  if xw.slotnum ≥ 0 then 1 else 0

/-- The inline `libxl__ev_child_init`: `childw_out->pid = -1;`. -/
def libxl__ev_child_init (childw_out : libxl__ev_child) : libxl__ev_child :=
  { childw_out with pid := -1 }

/-- The inline `libxl__ev_child_inuse`: `return childw_out->pid >= 0;`. -/
def libxl__ev_child_inuse (childw_out : libxl__ev_child) : Int :=
  if childw_out.pid ≥ 0 then 1 else 0

/-! ### Sorted insertion into a tail queue

A `LIBXL_TAILQ` is modelled as the list of its elements from
`LIBXL_TAILQ_FIRST` along `LIBXL_TAILQ_NEXT`; a position in the list stands
for a pointer to that element and `none` for `NULL`. -/

/-- The search loop of `LIBXL_TAILQ_INSERT_SORTED`: starting at
`LIBXL_TAILQ_FIRST`, at position `pos`, it advances along `LIBXL_TAILQ_NEXT`
and breaks at the first `elm_search` for which `new_after_search_p` is false.
The result is the final value of `elm_search`. -/
def LIBXL_TAILQ_INSERT_SORTED.search {α : Type} (new_after_search_p : α → α → Bool)
    (elm_new : α) : List α → Nat → Option Nat
  | [], _ => none
  | elm_search :: rest, pos =>
    if !(new_after_search_p elm_new elm_search) then some pos
    else LIBXL_TAILQ_INSERT_SORTED.search new_after_search_p elm_new rest (pos + 1)

/-- The `LIBXL_TAILQ_INSERT_BEFORE` of the queue library: `elm` is linked in
front of the element at position `listelm`. -/
def LIBXL_TAILQ_INSERT_BEFORE {α : Type} (head : List α) (listelm : Nat) (elm : α) : List α :=
  head.take listelm ++ elm :: head.drop listelm

/-- The `LIBXL_TAILQ_INSERT_TAIL` of the queue library. -/
def LIBXL_TAILQ_INSERT_TAIL {α : Type} (head : List α) (elm : α) : List α :=
  head ++ [elm]

/-- The block `LIBXL_TAILQ_INSERT_SORTED(head, entry, elm_new, elm_search,
search_body, new_after_search_p)`, with `new_after_search_p elm_new elm_search`
the value of the expression of that name: after the search loop, `elm_new` is
inserted before `elm_search`, or at the tail when `elm_search` is `NULL`. -/
def LIBXL_TAILQ_INSERT_SORTED {α : Type} (head : List α) (elm_new : α)
    (new_after_search_p : α → α → Bool) : List α :=
  match LIBXL_TAILQ_INSERT_SORTED.search new_after_search_p elm_new head 0 with
  | some elm_search => LIBXL_TAILQ_INSERT_BEFORE head elm_search elm_new
  | none => LIBXL_TAILQ_INSERT_TAIL head elm_new

/-- The `timercmp(a, b, >)` of `<sys/time.h>`: seconds decide, microseconds
break a tie. -/
def timercmp_gt (a b : timeval) : Bool :=
  if a.tv_sec = b.tv_sec then decide (a.tv_usec > b.tv_usec) else decide (a.tv_sec > b.tv_sec)

/-- Modelled from the spec: the call of `LIBXL_TAILQ_INSERT_SORTED` on the
timer list is in the event core, outside the header. Its `new_after_search_p`
says that the new timer sorts after the searched one when its deadline is
later, `timercmp(&ev->abs, &evsearch->abs, >)`. -/
def etime_new_after_search_p (ev evsearch : libxl__ev_time) : Bool :=
  timercmp_gt ev.abs evsearch.abs

/-- Deadline order on timers: the deadline of `a` is not later than that of `b`. -/
def etime_le (a b : libxl__ev_time) : Prop :=
  timercmp_gt a.abs b.abs = false

instance : DecidableRel etime_le := fun a b => by unfold etime_le; infer_instance

/-- A timer list is sorted by wake time when deadlines are non-decreasing along it. -/
def etimes_sorted (l : List libxl__ev_time) : Prop :=
  l.Pairwise etime_le

instance (l : List libxl__ev_time) : Decidable (etimes_sorted l) := by
  unfold etimes_sorted; infer_instance

/-! ### The registration functions

The header only declares the register, modify and deregister functions; their
bodies live in the event core. They are modelled from their documented
contract, over the fields of `struct libxl__ctx` that hold the registrations.
A registration list holds the value of each registered struct. -/

/-- The fields of `struct libxl__ctx` that hold event-source registrations:
`efds`, `etimes`, `watch_slots` (a slot is `none` while it is on the free
list; `watch_nslots` is the length of the table), `watch_freeslots`,
`watch_counter` and `children`. -/
structure libxl__ctx where
  efds : List libxl__ev_fd
  etimes : List libxl__ev_time
  watch_slots : List (Option libxl__ev_xswatch)
  watch_freeslots : List Nat
  watch_counter : Nat
  children : List libxl__ev_child
deriving DecidableEq, Repr

/-- Modelled from the spec: the body of `libxl__ev_fd_register` is missing.
`hook_rc` is the answer of the host event-loop hook. "Returns a libxl error
code; on error return *GEN is Idle. On successful return *GEN is Active": on
failure the code is handed back and the struct is Idle; on success the struct
records descriptor, event mask and callback and joins `efds`. -/
def libxl__ev_fd_register (ctx : libxl__ctx) (ev_out : libxl__ev_fd) (func : Ptr)
    (fd : Int) (events : Int) (hook_rc : Int) : Int × libxl__ctx × libxl__ev_fd :=
  if hook_rc ≠ 0 then (hook_rc, ctx, libxl__ev_fd_init ev_out)
  else
    let ev := { ev_out with fd := fd, events := events, func := func }
    (0, { ctx with efds := ev :: ctx.efds }, ev)

/-- Modelled from the spec: the body of `libxl__ev_fd_deregister` is missing.
"On entry *GEN must be in state Active or Idle. On return it is Idle.
(Idempotent.)": an Active struct leaves `efds` and becomes Idle, an Idle one
is left as it is. -/
def libxl__ev_fd_deregister (ctx : libxl__ctx) (ev : libxl__ev_fd) :
    libxl__ctx × libxl__ev_fd :=
  if libxl__ev_fd_isregistered ev = 0 then (ctx, ev)
  else ({ ctx with efds := ctx.efds.erase ev }, libxl__ev_fd_init ev)

/-- Modelled from the spec: the body of `libxl__ev_time_register_abs` is
missing. `hook_rc` is the answer of the host event-loop hook. On failure the
struct is Idle; on success it records callback and absolute deadline, is
finite, and is placed in `etimes` with `LIBXL_TAILQ_INSERT_SORTED` ("sorted by
wake time among all active timers"). -/
def libxl__ev_time_register_abs (ctx : libxl__ctx) (ev_out : libxl__ev_time) (func : Ptr)
    (absolute : timeval) (hook_rc : Int) : Int × libxl__ctx × libxl__ev_time :=
  if hook_rc ≠ 0 then (hook_rc, ctx, libxl__ev_time_init ev_out)
  else
    let ev := { ev_out with func := func, infinite := 0, abs := absolute }
    (0, { ctx with etimes :=
            LIBXL_TAILQ_INSERT_SORTED ctx.etimes ev etime_new_after_search_p }, ev)

/-- Modelled from the spec: the conversion of a relative timeout in
milliseconds to an absolute deadline, `now` plus `milliseconds`, kept
normalised with microseconds below one million. -/
def time_rel_to_abs (now : timeval) (milliseconds : Int) : timeval :=
  let usec := now.tv_usec + (milliseconds % 1000) * 1000
  { tv_sec := now.tv_sec + milliseconds / 1000 + usec / 1000000,
    tv_usec := usec % 1000000 }

/-- Modelled from the spec: the body of `libxl__ev_time_register_rel` is
missing. The timeout is "as for poll(2)": a negative one never expires, and
such a timer is "not registered in list or with app if infinite"; otherwise
the timer is registered for the absolute deadline `now + milliseconds`. -/
def libxl__ev_time_register_rel (ctx : libxl__ctx) (ev_out : libxl__ev_time) (func : Ptr)
    (milliseconds : Int) (now : timeval) (hook_rc : Int) :
    Int × libxl__ctx × libxl__ev_time :=
  if milliseconds < 0 then (0, ctx, { ev_out with func := func, infinite := 1 })
  else libxl__ev_time_register_abs ctx ev_out func (time_rel_to_abs now milliseconds) hook_rc

/-- Modelled from the spec: the body of `libxl__ev_time_deregister` is missing.
An Active timer leaves `etimes` (where it is unless infinite) and becomes
Idle; an Idle one is left as it is. -/
def libxl__ev_time_deregister (ctx : libxl__ctx) (ev : libxl__ev_time) :
    libxl__ctx × libxl__ev_time :=
  if libxl__ev_time_isregistered ev = 0 then (ctx, ev)
  else if ev.infinite ≠ 0 then (ctx, libxl__ev_time_init ev)
  else ({ ctx with etimes := ctx.etimes.erase ev }, libxl__ev_time_init ev)

/-- Modelled from the spec: the body of `libxl__ev_time_modify_abs` is
missing. "On entry *GEN must be Active and on return, whether successful or
not, it will be Active ... on error the modification is not effective": on
success the timer moves to the place of its new deadline in `etimes`. -/
def libxl__ev_time_modify_abs (ctx : libxl__ctx) (ev : libxl__ev_time)
    (absolute : timeval) (hook_rc : Int) : Int × libxl__ctx × libxl__ev_time :=
  if hook_rc ≠ 0 then (hook_rc, ctx, ev)
  else
    let ctx1 := if ev.infinite ≠ 0 then ctx else { ctx with etimes := ctx.etimes.erase ev }
    let ev1 := { ev with infinite := 0, abs := absolute }
    (0, { ctx1 with etimes :=
            LIBXL_TAILQ_INSERT_SORTED ctx1.etimes ev1 etime_new_after_search_p }, ev1)

/-- Modelled from the spec: the body of `libxl__ev_time_modify_rel` is
missing. As `libxl__ev_time_modify_abs`, for a timeout "as for poll(2)"; a
negative one makes the timer infinite and takes it off the list. -/
def libxl__ev_time_modify_rel (ctx : libxl__ctx) (ev : libxl__ev_time)
    (milliseconds : Int) (now : timeval) (hook_rc : Int) :
    Int × libxl__ctx × libxl__ev_time :=
  if milliseconds < 0 then
    let ctx1 := if ev.infinite ≠ 0 then ctx else { ctx with etimes := ctx.etimes.erase ev }
    (0, ctx1, { ev with infinite := 1 })
  else libxl__ev_time_modify_abs ctx ev (time_rel_to_abs now milliseconds) hook_rc

/-- Modelled from the spec: the timer dispatch of the event core is missing.
"The next wake time is always the nearest deadline": the machinery looks at
the first timer of `etimes`; when its deadline is not later than `now` the
timer is taken off the list, becomes Idle and its callback is called (the
fired timer is returned), otherwise nothing happens. -/
def time_occurs (ctx : libxl__ctx) (now : timeval) : Option libxl__ev_time × libxl__ctx :=
  match ctx.etimes with
  | [] => (none, ctx)
  | etime :: rest =>
    if timercmp_gt etime.abs now then (none, ctx)
    else (some etime, { ctx with etimes := rest })

/-- Modelled from the spec: the body of `libxl__ev_xswatch_register` is
missing. `store_rc` is the error code a refusal of the configuration store is
reported as (0 when the store accepts the watch). A slot is taken from the
head of the free list (the table gets one more slot when none is free), the
watch receives the current `watch_counter` as its `counterval`, and the
counter moves on modulo `2^32`. On failure nothing is registered and the
struct is Idle. -/
def libxl__ev_xswatch_register (ctx : libxl__ctx) (xsw_out : libxl__ev_xswatch)
    (func : Ptr) (path : Ptr) (store_rc : Int) : Int × libxl__ctx × libxl__ev_xswatch :=
  if store_rc ≠ 0 then (store_rc, ctx, libxl__ev_xswatch_init xsw_out)
  else
    let (slotnum, freeslots, slots) :=
      match ctx.watch_freeslots with
      | use :: rest => (use, rest, ctx.watch_slots)
      | [] => (ctx.watch_slots.length, [], ctx.watch_slots ++ [none])
    let w : libxl__ev_xswatch :=
      { xsw_out with path := path, callback := func, slotnum := (slotnum : Int),
                     counterval := ctx.watch_counter }
    (0, { ctx with watch_slots := slots.set slotnum (some w),
                   watch_freeslots := freeslots,
                   watch_counter := (ctx.watch_counter + 1) % 2 ^ 32 }, w)

/-- Modelled from the spec: the body of `libxl__ev_xswatch_deregister` is
missing. An Active watch gives its slot back to the head of the free list and
becomes Idle; an Idle one is left as it is. -/
def libxl__ev_xswatch_deregister (ctx : libxl__ctx) (w : libxl__ev_xswatch) :
    libxl__ctx × libxl__ev_xswatch :=
  if libxl__ev_xswatch_isregistered w = 0 then (ctx, w)
  else
    ({ ctx with watch_slots := ctx.watch_slots.set w.slotnum.toNat none,
                watch_freeslots := w.slotnum.toNat :: ctx.watch_freeslots },
     libxl__ev_xswatch_init w)

/-- Modelled from the spec: the body of `libxl__watch_slot_contents` is
missing. A slot "holds either a free-list link or a live watch pointer": the
result is the live watch of slot `slotnum`, `none` (for `NULL`) when the slot
is free or outside the table. -/
def libxl__watch_slot_contents (ctx : libxl__ctx) (slotnum : Int) :
    Option libxl__ev_xswatch :=
  if slotnum < 0 then none
  else
    match ctx.watch_slots.get? slotnum.toNat with
    | some (some w) => some w
    | _ => none

/-- Modelled from the spec: the making of the watch token is in the event
core, outside the header. The token under which a watch is known to the
configuration store names its slot and its `counterval`. -/
def watch_token (w : libxl__ev_xswatch) : Int × Nat :=
  (w.slotnum, w.counterval)

/-- Modelled from the spec: the dispatch of a watch event by the event core is
missing. The event names a token `(slotnum, counterval)`; "stale notifications
for a freed slot are detectable and dropped": the event goes to the watch in
that slot when the slot is live and its `counterval` is the one of the token
(the watch whose callback is called is returned), and is dropped otherwise. -/
def watch_event_dispatch (ctx : libxl__ctx) (token : Int × Nat) :
    Option libxl__ev_xswatch :=
  match libxl__watch_slot_contents ctx token.1 with
  | none => none
  | some w => if w.counterval ≠ token.2 then none else some w

/-- Modelled from the spec: the body of `libxl__ev_child_fork` is missing.
`fork_result` is the outcome of the fork. "In the parent, returns the pid,
filling in childw_out. In the child, returns 0. If it fails, returns a libxl
error (all of which are -ve)". -/
def libxl__ev_child_fork (ctx : libxl__ctx) (childw_out : libxl__ev_child) (death : Ptr)
    (fork_result : Int) : Int × libxl__ctx × libxl__ev_child :=
  if fork_result < 0 then (fork_result, ctx, libxl__ev_child_init childw_out)
  else if fork_result = 0 then (0, ctx, childw_out)
  else
    let childw := { childw_out with pid := fork_result, callback := death }
    (fork_result, { ctx with children := childw :: ctx.children }, childw)

/-- One call into the timer part of the event core. -/
inductive etime_op where
  | register_abs (ev_out : libxl__ev_time) (func : Ptr) (absolute : timeval) (hook_rc : Int)
  | register_rel (ev_out : libxl__ev_time) (func : Ptr) (milliseconds : Int) (now : timeval)
      (hook_rc : Int)
  | modify_abs (ev : libxl__ev_time) (absolute : timeval) (hook_rc : Int)
  | modify_rel (ev : libxl__ev_time) (milliseconds : Int) (now : timeval) (hook_rc : Int)
  | deregister (ev : libxl__ev_time)
  | occurs (now : timeval)

/-- The context after one call into the timer part of the event core. -/
def etime_step (ctx : libxl__ctx) : etime_op → libxl__ctx
  | .register_abs ev_out func absolute hook_rc =>
    (libxl__ev_time_register_abs ctx ev_out func absolute hook_rc).2.1
  | .register_rel ev_out func milliseconds now hook_rc =>
    (libxl__ev_time_register_rel ctx ev_out func milliseconds now hook_rc).2.1
  | .modify_abs ev absolute hook_rc => (libxl__ev_time_modify_abs ctx ev absolute hook_rc).2.1
  | .modify_rel ev milliseconds now hook_rc =>
    (libxl__ev_time_modify_rel ctx ev milliseconds now hook_rc).2.1
  | .deregister ev => (libxl__ev_time_deregister ctx ev).1
  | .occurs now => (time_occurs ctx now).2

/-- The context after a sequence of calls into the timer part of the event core. -/
def etime_run (ctx : libxl__ctx) (ops : List etime_op) : libxl__ctx :=
  ops.foldl etime_step ctx

/-- The timer list built by registering the timers of `regs` one after the
other, each with `LIBXL_TAILQ_INSERT_SORTED`. -/
def etimes_built (regs : List libxl__ev_time) : List libxl__ev_time :=
  regs.foldl (fun l ev => LIBXL_TAILQ_INSERT_SORTED l ev etime_new_after_search_p) []

/-! ### The ao convenience blocks

`AO_CREATE`, `AO_INPROGRESS` and `AO_ABORT` are embedded as transformers of
the state of the calling thread. The recursive ctx lock is a depth counter.
The functions the blocks call but the header only declares are parameters;
every call is recorded together with the lock depth at which it is made. -/

/-- The functions called by the ao convenience blocks and by an initiator. -/
inductive ao_fn where
  | libxl__ctx_lock
  | libxl__ctx_unlock
  | libxl__ao_create
  | LIBXL_INIT_EGC
  | initiator_body
  | libxl__ao_inprogress
  | libxl__ao_abort
  | libxl__egc_cleanup
deriving DecidableEq, Repr

/-- A recorded call: the function and the depth of the ctx lock held by the
calling thread at the moment of the call. -/
structure ao_call where
  fn : ao_fn
  depth : Nat
deriving DecidableEq, Repr

/-- The state of a thread running an initiator: how often it holds the
recursive ctx lock, the rest of the program state, and the calls made so far. -/
structure ao_thread (σ : Type) where
  lock_depth : Nat
  env : σ
  calls : List ao_call

/-- The functions whose bodies are outside the header, as parameters.
`libxl__ao_create` returns the new ao (`0` for `NULL`); `libxl__ao_inprogress`
"temporarily unlocks", so it sees and returns the lock depth. -/
structure ao_callees (σ : Type) where
  libxl__ao_create : σ → Ptr × σ
  libxl__ao_inprogress : Ptr → Nat → σ → Int × Nat × σ
  libxl__ao_abort : Ptr → σ → σ
  libxl__egc_cleanup : σ → σ

/-- How a block ends: it falls through with a value, the enclosing function
returns, or an `assert` fails. -/
inductive ao_flow (σ : Type) (α : Type) where
  | next (v : α) (t : ao_thread σ)
  | returned (rc : Int) (t : ao_thread σ)
  | assert_failed (t : ao_thread σ)

/-- The thread state after a call of `fn` that leaves lock depth `depth` and
program state `env`. -/
def ao_thread.record {σ : Type} (t : ao_thread σ) (fn : ao_fn) (depth : Nat) (env : σ) :
    ao_thread σ :=
  { lock_depth := depth, env := env, calls := t.calls ++ [{ fn := fn, depth := t.lock_depth }] }

/-- The inline `libxl__ctx_lock`: `pthread_mutex_lock` on the recursive ctx
lock, which the owner may take again, followed by `assert(!r)`. -/
def libxl__ctx_lock {σ : Type} (t : ao_thread σ) : ao_thread σ :=
  t.record .libxl__ctx_lock (t.lock_depth + 1) t.env

/-- The inline `libxl__ctx_unlock`: `pthread_mutex_unlock` followed by
`assert(!r)`; unlocking a lock the thread does not hold is an error, and the
assertion fails (`none`). -/
def libxl__ctx_unlock {σ : Type} (t : ao_thread σ) : Option (ao_thread σ) :=
  if t.lock_depth = 0 then none
  else some (t.record .libxl__ctx_unlock (t.lock_depth - 1) t.env)

/-- The block `EGC_FREE`: `libxl__egc_cleanup(egc)`. -/
def EGC_FREE {σ : Type} (f : ao_callees σ) (t : ao_thread σ) : ao_thread σ :=
  t.record .libxl__egc_cleanup t.lock_depth (f.libxl__egc_cleanup t.env)

/-- The block `AO_CREATE(ctx, domid, ao_how)`: lock, `libxl__ao_create`, and
`if (!ao) { libxl__ctx_unlock(ctx); return ERROR_NOMEM; }`, then
`LIBXL_INIT_EGC`. The value is the new `ao`. -/
def AO_CREATE {σ : Type} (f : ao_callees σ) (ERROR_NOMEM : Int) (t : ao_thread σ) :
    ao_flow σ Ptr :=
  let t1 := libxl__ctx_lock t
  let (ao, env) := f.libxl__ao_create t1.env
  let t2 := t1.record .libxl__ao_create t1.lock_depth env
  if ao = 0 then
    match libxl__ctx_unlock t2 with
    | none => .assert_failed t2
    | some t3 => .returned ERROR_NOMEM t3
  else .next ao (t2.record .LIBXL_INIT_EGC t2.lock_depth t2.env)

/-- The block `AO_INPROGRESS`: `ao__rc = libxl__ao_inprogress(ao)`, then
`libxl__ctx_unlock`, then `EGC_FREE`; the value is `ao__rc`. -/
def AO_INPROGRESS {σ : Type} (f : ao_callees σ) (ao : Ptr) (t : ao_thread σ) : ao_flow σ Int :=
  let (ao__rc, depth, env) := f.libxl__ao_inprogress ao t.lock_depth t.env
  let t1 := t.record .libxl__ao_inprogress depth env
  match libxl__ctx_unlock t1 with
  | none => .assert_failed t1
  | some t2 => .next ao__rc (EGC_FREE f t2)

/-- The block `AO_ABORT(rc)`: `assert(rc)`, `libxl__ao_abort(ao)`, then
`libxl__ctx_unlock`, then `EGC_FREE`; the value is `rc`. -/
def AO_ABORT {σ : Type} (f : ao_callees σ) (ao : Ptr) (rc : Int) (t : ao_thread σ) :
    ao_flow σ Int :=
  if rc = 0 then .assert_failed t
  else
    let t1 := t.record .libxl__ao_abort t.lock_depth (f.libxl__ao_abort ao t.env)
    match libxl__ctx_unlock t1 with
    | none => .assert_failed t1
    | some t2 => .next rc (EGC_FREE f t2)

/-- An initiator as the lifecycle comment prescribes it: `AO_CREATE`, then the
body, which sees the ao and reports whether initiation succeeded, then
`return AO_INPROGRESS;` on success and `return AO_ABORT(rc);` on failure. -/
def ao_initiator {σ : Type} (f : ao_callees σ) (ERROR_NOMEM : Int)
    (body : Ptr → Nat → σ → Int × Nat × σ) (t : ao_thread σ) : ao_flow σ Int :=
  match AO_CREATE f ERROR_NOMEM t with
  | .returned rc t1 => .returned rc t1
  | .assert_failed t1 => .assert_failed t1
  | .next ao t1 =>
    let (rc, depth, env) := body ao t1.lock_depth t1.env
    let t2 := t1.record .initiator_body depth env
    match (if rc = 0 then AO_INPROGRESS f ao t2 else AO_ABORT f ao rc t2) with
    | .next v t3 => .returned v t3
    | .returned v t3 => .returned v t3
    | .assert_failed t3 => .assert_failed t3

/-- One call into the watch part of the event core. -/
inductive xswatch_op where
  | register (xsw_out : libxl__ev_xswatch) (func : Ptr) (path : Ptr) (store_rc : Int)
  | deregister (w : libxl__ev_xswatch)
deriving DecidableEq, Repr

/-- The context after one call into the watch part of the event core. -/
def xswatch_step (ctx : libxl__ctx) : xswatch_op → libxl__ctx
  | .register xsw_out func path store_rc =>
    (libxl__ev_xswatch_register ctx xsw_out func path store_rc).2.1
  | .deregister w => (libxl__ev_xswatch_deregister ctx w).1

/-- The context after a sequence of calls into the watch part of the event core. -/
def xswatch_run (ctx : libxl__ctx) (ops : List xswatch_op) : libxl__ctx :=
  ops.foldl xswatch_step ctx

/-- The number of registrations in a sequence of calls that give out a counter
value, that is, of the successful ones. -/
def xswatch_registrations : List xswatch_op → Nat
  | [] => 0
  | .register _ _ _ store_rc :: ops =>
    (if store_rc ≠ 0 then 0 else 1) + xswatch_registrations ops
  | .deregister _ :: ops => xswatch_registrations ops

/-! ### Completion of an ao

The header declares `libxl__ao_create`, `libxl__ao_complete` and
`libxl__egc_cleanup` without bodies. They are modelled from the documented
lifecycle over a machine that holds the aos (an ao is named by its position),
the entries queued on the `aos_for_callback` lists of the egcs, the depth of
the ctx lock and the completion callbacks made so far. A call that breaks a
documented calling rule has no result. -/

/-- The constant `LIBXL__AO_MAGIC`. -/
def LIBXL__AO_MAGIC : Nat := 0xA0FACE00

/-- The constant `LIBXL__AO_MAGIC_DESTROYED`. -/
def LIBXL__AO_MAGIC_DESTROYED : Nat := 0xA0DEAD00

/-- The `struct libxl__ao`, without its gc, its `how` and its list entry. -/
structure libxl__ao where
  magic : Nat
  constructing : Bool
  in_initiator : Bool
  complete : Bool
  notified : Bool
  progress_reports_outstanding : Int
  rc : Int
  poller : Ptr
  domid : Nat
deriving DecidableEq, Repr

/-- A completion callback that was made: for which ao, with which result
code, and at which depth of the ctx lock. -/
structure ao_callback where
  ao : Nat
  rc : Int
  lock_depth : Nat
deriving DecidableEq, Repr

/-- The state of the ao machinery: lock depth, the aos, the queued `(egc, ao)`
entries of all `aos_for_callback` lists in the order of queueing, and the
completion callbacks made so far. -/
structure ao_machine where
  lock_depth : Nat
  aos : List libxl__ao
  aos_for_callback : List (Nat × Nat)
  callbacks : List ao_callback
deriving DecidableEq, Repr

/-- The machinery before any ao exists, with the lock free. -/
def ao_machine_init : ao_machine :=
  { lock_depth := 0, aos := [], aos_for_callback := [], callbacks := [] }

/-- Modelled from the spec: the body of `libxl__ao_create` is missing.
"Creation allocates the structure and its pool, requires the shared lock
held": with the lock held a live ao under construction, not complete, joins
the aos. -/
def libxl__ao_create (m : ao_machine) (domid : Nat) : Option ao_machine :=
  if m.lock_depth = 0 then none
  else
    some { m with aos := m.aos ++
      [{ magic := LIBXL__AO_MAGIC, constructing := true, in_initiator := true,
         complete := false, notified := false, progress_reports_outstanding := 0,
         rc := 0, poller := 0, domid := domid }] }

/-- Modelled from the spec: the body of `libxl__ao_complete` is missing.
"Completion may be called exactly once, with the lock held ...; it records the
result code and schedules delivery through the creating egc": on a live ao
that is not yet complete, with the lock held, the ao becomes complete, keeps
`rc`, and is queued on `aos_for_callback` of `egc`. -/
def libxl__ao_complete (m : ao_machine) (egc : Nat) (ao : Nat) (rc : Int) :
    Option ao_machine :=
  if m.lock_depth = 0 then none
  else
    match m.aos[ao]? with
    | none => none
    | some a =>
      if a.magic ≠ LIBXL__AO_MAGIC ∨ a.complete = true then none
      else
        some { m with
          aos := m.aos.set ao { a with complete := true, rc := rc },
          aos_for_callback := m.aos_for_callback ++ [(egc, ao)] }

/-- Modelled from the spec: the body of `libxl__egc_cleanup` is missing. "The
ctx must be UNLOCKED"; "it delivers ... invoking each operation's completion
callback, unlocked": every ao queued on `aos_for_callback` of `egc` is taken
off the list and its callback is made with its result code, in the order of
queueing; the ao is then notified and destroyed. -/
def libxl__egc_cleanup (m : ao_machine) (egc : Nat) : Option ao_machine :=
  if m.lock_depth ≠ 0 then none
  else
    some { m with
      aos := m.aos.mapIdx (fun i a =>
        if (egc, i) ∈ m.aos_for_callback then
          { a with notified := true, magic := LIBXL__AO_MAGIC_DESTROYED }
        else a),
      aos_for_callback := m.aos_for_callback.filter (fun q => q.1 ≠ egc),
      callbacks := m.callbacks ++
        (m.aos_for_callback.filter (fun q => q.1 = egc)).map (fun q =>
          { ao := q.2, rc := ((m.aos[q.2]?).map (fun a => a.rc)).getD 0,
            lock_depth := m.lock_depth }) }

/-- One call into the ao machinery. -/
inductive ao_op where
  | ctx_lock
  | ctx_unlock
  | ao_create (domid : Nat)
  | ao_complete (egc : Nat) (ao : Nat) (rc : Int)
  | egc_cleanup (egc : Nat)
deriving DecidableEq, Repr

/-- The machinery after one call; `none` when the call breaks a calling rule. -/
def ao_step (m : ao_machine) : ao_op → Option ao_machine
  | .ctx_lock => some { m with lock_depth := m.lock_depth + 1 }
  | .ctx_unlock => if m.lock_depth = 0 then none else some { m with lock_depth := m.lock_depth - 1 }
  | .ao_create domid => libxl__ao_create m domid
  | .ao_complete egc ao rc => libxl__ao_complete m egc ao rc
  | .egc_cleanup egc => libxl__egc_cleanup m egc

/-- The machinery after a sequence of calls. -/
def ao_run (m : ao_machine) : List ao_op → Option ao_machine
  | [] => some m
  | op :: ops => (ao_step m op).bind (fun m' => ao_run m' ops)

/-- The aos whose completion callback has been made, in the order of the calls. -/
def ao_machine.called_back (m : ao_machine) : List Nat :=
  m.callbacks.map (fun c => c.ao)

/-- The aos that are queued on some `aos_for_callback` list. -/
def ao_machine.queued (m : ao_machine) : List Nat :=
  m.aos_for_callback.map (fun q => q.2)

/-- The invariant of the ao machinery: no ao is queued or called back twice,
every callback was made without the lock for a complete ao with its result
code, every queued ao is complete, and every complete ao is queued or has
been called back. -/
structure ao_inv (m : ao_machine) : Prop where
  nodup : (m.queued ++ m.called_back).Nodup
  cb : ∀ c ∈ m.callbacks, c.lock_depth = 0 ∧
    ∃ a, m.aos[c.ao]? = some a ∧ a.complete = true ∧ a.rc = c.rc
  q : ∀ q ∈ m.aos_for_callback, ∃ a, m.aos[q.2]? = some a ∧ a.complete = true
  done : ∀ i a, m.aos[i]? = some a → a.complete = true → i ∈ m.queued ∨ i ∈ m.called_back

/-! ### The device-state waiter -/

/-- The `struct libxl__ev_devstate`. -/
structure libxl__ev_devstate where
  wanted : Int
  callback : Ptr
  watch : libxl__ev_xswatch
  timeout : libxl__ev_time
deriving DecidableEq, Repr

/-- The inline `libxl__ev_devstate_init`: `libxl__ev_time_init(&ds->timeout);`
then `libxl__ev_xswatch_init(&ds->watch);`. -/
def libxl__ev_devstate_init (ds : libxl__ev_devstate) : libxl__ev_devstate :=
  let ds1 := { ds with timeout := libxl__ev_time_init ds.timeout }
  { ds1 with watch := libxl__ev_xswatch_init ds1.watch }

/-! ### Convenience blocks -/

/-- The value of a constant or expression of an unsigned integer type stored
into a `uint32_t` object: its residue modulo `2^32`. -/
def uint32_store (v : Nat) : Nat :=
  v % 2 ^ 32

/-- The conversion `(unsigned char)(c)` of an integer value, with 8-bit
characters: the residue of `c` modulo 256. -/
def unsigned_char_cast (c : Int) : Int :=
  c % 256

/-- The block `CTYPE(isfoo,c)`: `(isfoo((unsigned char)(c)))`. -/
def CTYPE (isfoo : Int → Int) (c : Int) : Int :=
  isfoo (unsigned_char_cast c)

/-- The `INT_MAX` of `<limits.h>` for a 32-bit `int`. -/
def INT_MAX : Nat := 2147483647

/-- The block `ARRAY_SIZE_OK(ptr, nmemb)`:
`((nmemb) < INT_MAX / (sizeof(*(ptr)) * 2))`, computed in `size_t`, which has
`size_bits` bits; `sizeof_elem` is `sizeof(*(ptr))`. The product wraps around
modulo `2^size_bits`; a division by zero has no result. -/
def ARRAY_SIZE_OK (size_bits : Nat) (sizeof_elem : Nat) (nmemb : Nat) : Option Bool :=
  if (sizeof_elem * 2) % 2 ^ size_bits = 0 then none
  else some (decide (nmemb < INT_MAX / ((sizeof_elem * 2) % 2 ^ size_bits)))

/-! ### The allocation blocks as replacement lists

`GCREALLOC_ARRAY` is a function-like `#define`. Its replacement list, header
lines 1854-1857, ends in `(*(var)))))`: five closing parentheses where four
close what is open, so the list closes one parenthesis more than it opens and
no use of the block, written as the call of an expression, is an expression.
The block therefore has no value to embed; it is embedded as what the
preprocessor sees, a list of tokens, together with the expansion of a use and
the nesting of the parentheses of a token list. The check it asks for,
`ARRAY_SIZE_OK`, and its sibling `GCNEW_ARRAY` are well formed. -/

/-- A preprocessing token of a replacement list, as far as the nesting of
parentheses and the substitution of arguments go: a parenthesis, a parameter
of the `#define`, or any other token. -/
inductive pp_token where
  | lparen : pp_token
  | rparen : pp_token
  | param (name : String) : pp_token
  | other (spelling : String) : pp_token
deriving DecidableEq, Repr

/-- The spelling of a token. -/
def pp_token.spelling : pp_token → String
  | .lparen => "("
  | .rparen => ")"
  | .param name => name
  | .other spelling => spelling

/-- The characters of a token list, the tokens written one after another. -/
def pp_spell (l : List pp_token) : List Char :=
  (l.map (fun t => t.spelling.toList)).flatten

/-- The characters of a piece of source text other than blanks. -/
def unblank (s : String) : List Char :=
  s.toList.filter (fun c => c != ' ')

/-- The expansion of a use of a function-like `#define`: each parameter in the
replacement list is replaced by the tokens of its argument, every other token
is kept. -/
def pp_expand (args : String → List pp_token) : List pp_token → List pp_token
  | [] => []
  | .param name :: rest => args name ++ pp_expand args rest
  | .lparen :: rest => .lparen :: pp_expand args rest
  | .rparen :: rest => .rparen :: pp_expand args rest
  | .other spelling :: rest => .other spelling :: pp_expand args rest

/-- The nesting depth of parentheses at the end of a token list that is read
from depth `d`; `none` as soon as a `)` has no `(` to close. A token list that
is an expression, or a statement, ends at the depth it is read from. -/
def paren_depth : List pp_token → Nat → Option Nat
  | [], d => some d
  | .lparen :: rest, d => paren_depth rest (d + 1)
  | .rparen :: _, 0 => none
  | .rparen :: rest, d + 1 => paren_depth rest d
  | .param _ :: rest, d => paren_depth rest d
  | .other _ :: rest, d => paren_depth rest d

/-- The replacement list of `#define ARRAY_SIZE_OK(ptr, nmemb)`, header line
1820, as source text. -/
def ARRAY_SIZE_OK.text : String :=
  "((nmemb) < INT_MAX / (sizeof(*(ptr)) * 2))"

/-- The replacement list of `#define ARRAY_SIZE_OK(ptr, nmemb)` as tokens. -/
def ARRAY_SIZE_OK.replacement : List pp_token :=
  [.lparen, .lparen, .param "nmemb", .rparen, .other "<", .other "INT_MAX", .other "/",
    .lparen, .other "sizeof", .lparen, .other "*", .lparen, .param "ptr", .rparen, .rparen,
    .other "*", .other "2", .rparen, .rparen]

/-- The replacement list of `#define GCNEW_ARRAY(var, nmemb)`, header lines
1841-1842, as source text with the two lines spliced. -/
def GCNEW_ARRAY.text : String :=
  "((var) = libxl__calloc((gc), (nmemb), sizeof(*(var))))"

/-- The replacement list of `#define GCNEW_ARRAY(var, nmemb)` as tokens. -/
def GCNEW_ARRAY.replacement : List pp_token :=
  [.lparen, .lparen, .param "var", .rparen, .other "=", .other "libxl__calloc", .lparen,
    .lparen, .other "gc", .rparen, .other ",", .lparen, .param "nmemb", .rparen, .other ",",
    .other "sizeof", .lparen, .other "*", .lparen, .param "var", .rparen, .rparen, .rparen,
    .rparen]

/-- The replacement list of `#define GCREALLOC_ARRAY(var, nmemb)`, header lines
1854-1857, as source text with the four lines spliced: the three operands of
the comma expression, the last of which ends in five closing parentheses. -/
def GCREALLOC_ARRAY.text : String :=
  "(assert(nmemb > 0), assert(ARRAY_SIZE_OK((var), (nmemb))), (var) = libxl__realloc((gc), (var), (nmemb)*sizeof(*(var)))))"

/-- The replacement list of `#define GCREALLOC_ARRAY(var, nmemb)` as tokens,
one line of the header per group: `(assert(nmemb > 0),` then
`assert(ARRAY_SIZE_OK((var), (nmemb))),` then
`(var) = libxl__realloc((gc), (var), (nmemb)*sizeof(*(var)))))`. -/
def GCREALLOC_ARRAY.replacement : List pp_token :=
  [.lparen, .other "assert", .lparen, .param "nmemb", .other ">", .other "0", .rparen,
    .other ",",
   .other "assert", .lparen, .other "ARRAY_SIZE_OK", .lparen, .lparen, .param "var", .rparen,
    .other ",", .lparen, .param "nmemb", .rparen, .rparen, .rparen, .other ",",
   .lparen, .param "var", .rparen, .other "=", .other "libxl__realloc", .lparen,
    .lparen, .other "gc", .rparen, .other ",", .lparen, .param "var", .rparen, .other ",",
    .lparen, .param "nmemb", .rparen, .other "*", .other "sizeof", .lparen, .other "*",
    .lparen, .param "var", .rparen, .rparen, .rparen, .rparen, .rparen]

/-! ### Members and their containers -/

/-- The address `&outer->member_name` of the member at byte offset
`offsetof(typeof(outer), member_name)` of the object at address `outer`. -/
def member_addr (outer : Ptr) (offset : Nat) : Ptr :=
  outer + offset

/-- The block `CONTAINER_OF(inner_ptr, outer, member_name)`:
`(void*)((char*)(inner_ptr) - offsetof(typeof(outer), member_name))`, with
`offset` the value of `offsetof`. Stepping back below address 0 is not a
pointer (`none`). The comparison in the block is a compile-time type check
and has no effect. -/
def CONTAINER_OF (inner_ptr : Ptr) (offset : Nat) : Option Ptr :=
  if offset ≤ inner_ptr then some (inner_ptr - offset) else none

/-! ### The allocation pool

The header declares `libxl__ptr_add` and `libxl__free_all` without bodies.
They are modelled over the fields of `struct libxl__gc`; the allocations
handed to `free` are returned in the order of the calls. -/

/-- The `struct libxl__gc`: `alloc_ptrs` is the array of tracked pointers,
the empty list for a `NULL` array, and a slot holding `0` is free. -/
structure libxl__gc where
  alloc_maxsize : Int
  alloc_ptrs : List Ptr
  owner : Ptr
deriving DecidableEq, Repr

/-- The block `LIBXL_INIT_GC(gc,ctx)`: `(gc).alloc_maxsize = 0;`
`(gc).alloc_ptrs = 0;` `(gc).owner = (ctx);`. -/
def LIBXL_INIT_GC (_gc : libxl__gc) (ctx : Ptr) : libxl__gc :=
  { alloc_maxsize := 0, alloc_ptrs := [], owner := ctx }

/-- The inline `libxl__gc_owner`: `return gc->owner;`. -/
def libxl__gc_owner (gc : libxl__gc) : Ptr :=
  gc.owner

/-- Modelled from the spec: the slot search of `libxl__ptr_add`, whose body is
missing: the pointer takes the first free slot of the array, and a new slot
at the end when none is free. -/
def libxl__ptr_add.slots : List Ptr → Ptr → List Ptr
  | [], ptr => [ptr]
  | slot :: rest, ptr =>
    if slot = 0 then ptr :: rest else slot :: libxl__ptr_add.slots rest ptr

/-- Modelled from the spec: the body of `libxl__ptr_add` is missing. "Register
@ptr in @gc for free on exit from outermost libxl callframe": a pointer other
than `NULL` joins the tracked allocations of the pool. -/
def libxl__ptr_add (gc : libxl__gc) (ptr : Ptr) : libxl__gc :=
  if ptr = 0 then gc
  else
    { gc with alloc_ptrs := libxl__ptr_add.slots gc.alloc_ptrs ptr,
              alloc_maxsize := ((libxl__ptr_add.slots gc.alloc_ptrs ptr).length : Int) }

/-- Modelled from the spec: the body of `libxl__free_all` is missing. "Pool
teardown releases all tracked allocations exactly once and is a no-op if
called on an already-empty pool": every tracked allocation is handed to
`free`, in array order, and the pool is left without tracked allocations. The
result is the pool and the allocations freed. -/
def libxl__free_all (gc : libxl__gc) : libxl__gc × List Ptr :=
  ({ gc with alloc_ptrs := [], alloc_maxsize := 0 }, gc.alloc_ptrs.filter (fun p => p ≠ 0))

/-- The blocks `GC_INIT(ctx)` and `GC_FREE`: a pool set up with
`LIBXL_INIT_GC` and torn down with `libxl__free_all(gc)`. -/
def GC_FREE (gc : libxl__gc) : libxl__gc × List Ptr :=
  libxl__free_all gc

/-! ### Descriptors that need care across fork

The header declares the carefd functions and the type `libxl__carefd` without
bodies. They are modelled from their comments over the process-wide guard,
the live guard objects and the descriptors handed to `close(2)`. -/

/-- Modelled from the spec: the struct `libxl__carefd` is only declared; a
guard object remembers its descriptor. -/
structure libxl__carefd where
  fd : Int
deriving DecidableEq, Repr

/-- The process state the carefd functions work on: whether the guard taken by
`libxl__carefd_begin` is held, the live guard objects, and the descriptors
handed to `close(2)` so far, in the order of the calls. -/
structure carefd_world where
  no_forking : Bool
  carefds : List libxl__carefd
  closed : List Int
deriving DecidableEq, Repr

/-- Modelled from the spec: the body of `libxl__carefd_begin` is missing. It
takes the process-wide guard; a nested call is prohibited and has no result. -/
def libxl__carefd_begin (w : carefd_world) : Option carefd_world :=
  if w.no_forking then none else some { w with no_forking := true }

/-- Modelled from the spec: the body of `libxl__carefd_unlock` is missing. It
gives the guard back; it "must be called always in pairs" with `_begin`, so
without the guard held it has no result. -/
def libxl__carefd_unlock (w : carefd_world) : Option carefd_world :=
  if w.no_forking then some { w with no_forking := false } else none

/-- Modelled from the spec: the body of `libxl__carefd_record` is missing. "fd
may be -1, in which case this returns a dummy libxl__fd_record on which it
_carefd_close is a no-op. Cannot fail": a guard object for `fd` joins the live
ones and is returned. -/
def libxl__carefd_record (w : carefd_world) (fd : Int) : carefd_world × libxl__carefd :=
  ({ w with carefds := { fd := fd } :: w.carefds }, { fd := fd })

/-- Modelled from the spec: the body of `libxl__carefd_opened` is missing.
"Combines _record and _unlock in a single call. If fd==-1, still does the
unlock, but returns 0. Cannot fail." The guard object is `none` for `NULL`. -/
def libxl__carefd_opened (w : carefd_world) (fd : Int) :
    Option (carefd_world × Option libxl__carefd) :=
  if fd = -1 then (libxl__carefd_unlock w).map (fun w1 => (w1, none))
  else
    (libxl__carefd_unlock (libxl__carefd_record w fd).1).map
      (fun w1 => (w1, some (libxl__carefd_record w fd).2))

/-- Modelled from the spec: the body of `libxl__carefd_close` is missing.
"Works just like close(2). You may pass NULL, in which case it's a successful
no-op"; on a dummy guard it is a no-op as well. Otherwise the descriptor of
the guard is handed to `close(2)`, whose result `close_result` is returned,
and the guard object is gone. -/
def libxl__carefd_close (w : carefd_world) (cf : Option libxl__carefd) (close_result : Int) :
    Int × carefd_world :=
  match cf with
  | none => (0, w)
  | some c =>
    if c.fd = -1 then (0, { w with carefds := w.carefds.erase c })
    else (close_result, { w with carefds := w.carefds.erase c, closed := w.closed ++ [c.fd] })

/-- Modelled from the spec: the body of `libxl__carefd_fd` is missing. "You
may pass NULL in which case the answer is -1"; otherwise the answer is the
descriptor of the guard. -/
def libxl__carefd_fd (cf : Option libxl__carefd) : Int :=
  match cf with
  | none => -1
  | some c => c.fd

/-! ### The datacopier

The header declares `libxl__datacopier_init`, `_kill` and `_start` without
bodies, and the handlers of the two descriptor events are in the same missing
file. They are modelled from the spec over a world that holds the context, the
copier, the bytes the read descriptor still has to deliver, the bytes written
to the write descriptor so far and the callbacks made. The optional mirror of
the copied bytes to `log` is left out. -/

/-- The `struct libxl__datacopier_buf`: `buf` holds the `used` bytes at the
start of `char buf[1000]`, so `used` is the length of the list. -/
structure libxl__datacopier_buf where
  buf : List Nat
deriving DecidableEq, Repr

/-- The `struct libxl__datacopier_state`, without the three strings kept for
error messages. -/
structure libxl__datacopier_state where
  ao : Ptr
  readfd : Int
  writefd : Int
  maxsz : Int
  log : Ptr
  callback : Ptr
  toread : libxl__ev_fd
  towrite : libxl__ev_fd
  used : Int
  bufs : List libxl__datacopier_buf
deriving DecidableEq, Repr

/-- A call of the `libxl__datacopier_callback` of a copier: its `onwrite` and
`errnoval`, and whether the copier was killed at that moment (both
registrations Idle, no buffer left). -/
structure datacopier_call where
  onwrite : Int
  errnoval : Int
  killed : Bool
deriving DecidableEq, Repr

/-- The world of one copy. -/
structure datacopier_world where
  ctx : libxl__ctx
  dc : libxl__datacopier_state
  source : List Nat
  sink : List Nat
  callbacks : List datacopier_call
deriving DecidableEq, Repr

/-- The bytes held in a queue of buffers, in order. -/
def datacopier_buffered : List libxl__datacopier_buf → List Nat
  | [] => []
  | b :: rest => b.buf ++ datacopier_buffered rest

/-- The size of a buffer, `sizeof(buf->buf)`. -/
def datacopier_bufsz : Nat := 1000

/-- The room for one read: what is left of the last buffer of the queue, or a
whole new buffer when the queue is empty or its last buffer is full. -/
def datacopier_room : List libxl__datacopier_buf → Nat
  | [] => datacopier_bufsz
  | [b] => if b.buf.length < datacopier_bufsz then datacopier_bufsz - b.buf.length
           else datacopier_bufsz
  | _ :: b :: rest => datacopier_room (b :: rest)

/-- The queue after `bytes` were read: they go to the end of the last buffer
when it has room, else into a new buffer at the tail. -/
def datacopier_store : List libxl__datacopier_buf → List Nat → List libxl__datacopier_buf
  | [], bytes => [{ buf := bytes }]
  | [b], bytes =>
    if b.buf.length < datacopier_bufsz then [{ buf := b.buf ++ bytes }]
    else [b, { buf := bytes }]
  | a :: b :: rest, bytes => a :: datacopier_store (b :: rest) bytes

/-- Modelled from the spec: the body of `libxl__datacopier_init` is missing.
Both registrations become Idle and the buffer queue is empty. -/
def libxl__datacopier_init (dc : libxl__datacopier_state) : libxl__datacopier_state :=
  { dc with toread := libxl__ev_fd_init dc.toread, towrite := libxl__ev_fd_init dc.towrite,
            bufs := [] }

/-- Modelled from the spec: the body of `libxl__datacopier_kill` is missing.
It "kills all registrations": both are deregistered, and the buffers are
given up. -/
def libxl__datacopier_kill (w : datacopier_world) : datacopier_world :=
  let r1 := libxl__ev_fd_deregister w.ctx w.dc.toread
  let r2 := libxl__ev_fd_deregister r1.1 w.dc.towrite
  { w with ctx := r2.1, dc := { w.dc with toread := r1.2, towrite := r2.2, bufs := [] } }

/-- Modelled from the spec: the report of the outcome, in the missing file.
"In all cases copier is killed before calling this callback": the copier is
killed, then the callback is called with `onwrite` and `errnoval`. -/
def datacopier_callback (w : datacopier_world) (onwrite errnoval : Int) : datacopier_world :=
  let w1 := libxl__datacopier_kill w
  { w1 with callbacks := w1.callbacks ++
      [{ onwrite := onwrite, errnoval := errnoval,
         killed := decide (libxl__ev_fd_isregistered w1.dc.toread = 0 ∧
                           libxl__ev_fd_isregistered w1.dc.towrite = 0 ∧ w1.dc.bufs = []) }] }

/-- The event mask `POLLIN` of `<poll.h>`. -/
def POLLIN : Int := 1

/-- The event mask `POLLOUT` of `<poll.h>`. -/
def POLLOUT : Int := 4

/-- Modelled from the spec: the state check after each event, in the missing
file. It "registers ... write-readiness event sources as needed" and, "on read
EOF with all buffered data flushed, reports success": with data buffered the
write registration is made if it is not there (a failure of the hook is "other
internal failure", `onwrite == -1`); with nothing buffered and the read side
at EOF the callback is called with `onwrite == 0`, `errnoval == 0`; with
nothing buffered and the read side still open the write registration is
dropped. -/
def datacopier_check_state (w : datacopier_world) (hook_rc : Int) : datacopier_world :=
  if datacopier_buffered w.dc.bufs ≠ [] then
    if libxl__ev_fd_isregistered w.dc.towrite = 0 then
      let r := libxl__ev_fd_register w.ctx w.dc.towrite 2 w.dc.writefd POLLOUT hook_rc
      if r.1 ≠ 0 then
        datacopier_callback { w with ctx := r.2.1, dc := { w.dc with towrite := r.2.2 } } (-1) 0
      else { w with ctx := r.2.1, dc := { w.dc with towrite := r.2.2 } }
    else w
  else if libxl__ev_fd_isregistered w.dc.toread = 0 then datacopier_callback w 0 0
  else
    let r := libxl__ev_fd_deregister w.ctx w.dc.towrite
    { w with ctx := r.1, dc := { w.dc with towrite := r.2 } }

/-- Modelled from the spec: the handler of read-readiness, in the missing file.
It acts only while the read registration is Active. A read error is reported
with `onwrite == 0` and its errno; at EOF the read registration is dropped;
otherwise `read(2)` delivers between one byte and `nread + 1` bytes, as far
as the source and the room in the buffers go. Bytes that would take the copy
beyond `maxsz` are not taken: "exceeding the configured maximum size" kills the
copier and is reported as "other internal failure", `onwrite == -1`. The bytes
taken are queued in buffers of fixed size and counted in `used`. -/
def datacopier_readable (w : datacopier_world) (nread : Nat) (errnoval hook_rc : Int) :
    datacopier_world :=
  if libxl__ev_fd_isregistered w.dc.toread = 0 then w
  else if errnoval ≠ 0 then datacopier_callback w 0 errnoval
  else if w.source = [] then
    let r := libxl__ev_fd_deregister w.ctx w.dc.toread
    datacopier_check_state { w with ctx := r.1, dc := { w.dc with toread := r.2 } } hook_rc
  else
    let k := min (min (nread + 1) w.source.length) (datacopier_room w.dc.bufs)
    if w.dc.maxsz < w.dc.used + (k : Int) then datacopier_callback w (-1) 0
    else
      datacopier_check_state
        { w with source := w.source.drop k,
                 dc := { w.dc with bufs := datacopier_store w.dc.bufs (w.source.take k),
                                   used := w.dc.used + (k : Int) } } hook_rc

/-- Modelled from the spec: the handler of write-readiness, in the missing
file. It acts only while the write registration is Active. A write error is
reported with `onwrite == 1` and its errno; otherwise `write(2)` takes
between one byte and `nwritten + 1` bytes from the first buffer, which leaves
the queue when it is empty. -/
def datacopier_writable (w : datacopier_world) (nwritten : Nat) (errnoval hook_rc : Int) :
    datacopier_world :=
  if libxl__ev_fd_isregistered w.dc.towrite = 0 then w
  else if errnoval ≠ 0 then datacopier_callback w 1 errnoval
  else
    match w.dc.bufs with
    | [] => datacopier_check_state w hook_rc
    | b :: rest =>
      let k := min (nwritten + 1) b.buf.length
      datacopier_check_state
        { w with sink := w.sink ++ b.buf.take k,
                 dc := { w.dc with
                   bufs := if b.buf.drop k = [] then rest else { buf := b.buf.drop k } :: rest } }
        hook_rc

/-- Modelled from the spec: the body of `libxl__datacopier_start` is missing.
The copier is initialised, nothing is counted as used, and read-readiness is
registered; when that fails the copier is killed and the error code is
returned, without a callback. -/
def libxl__datacopier_start (w : datacopier_world) (hook_rc : Int) : Int × datacopier_world :=
  let dc1 := { libxl__datacopier_init w.dc with used := 0 }
  let r := libxl__ev_fd_register w.ctx dc1.toread 1 dc1.readfd POLLIN hook_rc
  if r.1 ≠ 0 then
    (r.1, libxl__datacopier_kill { w with ctx := r.2.1, dc := { dc1 with toread := r.2.2 } })
  else (0, { w with ctx := r.2.1, dc := { dc1 with toread := r.2.2 } })

/-- An event of a copy: read-readiness or write-readiness, with what the
system call does (`n + 1` bytes at most, or the error `errnoval`) and the
answer `hook_rc` of the host event-loop hook to a registration. -/
inductive datacopier_event where
  | readable (n : Nat) (errnoval : Int) (hook_rc : Int)
  | writable (n : Nat) (errnoval : Int) (hook_rc : Int)
deriving DecidableEq, Repr

/-- The world after one event. -/
def datacopier_step (w : datacopier_world) : datacopier_event → datacopier_world
  | .readable n errnoval hook_rc => datacopier_readable w n errnoval hook_rc
  | .writable n errnoval hook_rc => datacopier_writable w n errnoval hook_rc

/-- The world after a sequence of events. -/
def datacopier_run (w : datacopier_world) (evs : List datacopier_event) : datacopier_world :=
  evs.foldl datacopier_step w

/-- The event the event loop delivers next when nothing fails: one of the
events whose registration is Active, the readable one when `prefer_read` says
so and it is Active. -/
def datacopier_next (w : datacopier_world) (prefer_read : Bool) (n : Nat) : datacopier_event :=
  if libxl__ev_fd_isregistered w.dc.toread ≠ 0 ∧
      (prefer_read = true ∨ libxl__ev_fd_isregistered w.dc.towrite = 0) then
    .readable n 0 0
  else .writable n 0 0

/-- The world after the event loop has delivered events without failure, one
for each entry of the schedule. -/
def datacopier_drive (w : datacopier_world) (sched : List (Bool × Nat)) : datacopier_world :=
  sched.foldl (fun w s => datacopier_step w (datacopier_next w s.1 s.2)) w

/-- The world in which a copy of `data` is about to start. -/
def datacopier_world_of (ctx : libxl__ctx) (dc : libxl__datacopier_state) (data : List Nat) :
    datacopier_world :=
  { ctx := ctx, dc := dc, source := data, sink := [], callbacks := [] }

/-- A copy of `data` with size limit `maxsz` that is under way: no callback
was made; the bytes written, the bytes buffered and the bytes still to be
read make up `data`; no buffer is empty; `used` counts the bytes taken from
the source and is within the limit; the write registration is Active exactly
while bytes are buffered; the read registration is Active while nothing is
buffered, and Idle only after EOF. -/
structure datacopier_running (w : datacopier_world) (data : List Nat) (maxsz : Int) :
    Prop where
  nocall : w.callbacks = []
  conserve : w.sink ++ datacopier_buffered w.dc.bufs ++ w.source = data
  nonempty : ∀ b ∈ w.dc.bufs, b.buf ≠ []
  maxsz_eq : w.dc.maxsz = maxsz
  used_eq : w.dc.used = ((w.sink.length + (datacopier_buffered w.dc.bufs).length : Nat) : Int)
  used_le : w.dc.used ≤ maxsz
  wfd : 0 ≤ w.dc.writefd
  towrite : datacopier_buffered w.dc.bufs ≠ [] ↔ libxl__ev_fd_isregistered w.dc.towrite ≠ 0
  toread : datacopier_buffered w.dc.bufs = [] → libxl__ev_fd_isregistered w.dc.toread ≠ 0
  eof : libxl__ev_fd_isregistered w.dc.toread = 0 → w.source = []

/-- A copy of `data` with size limit `maxsz` that has ended without a read or
write error: both registrations are Idle and one callback was made, with the
copier killed; either it reports EOF with all data written, all of `data` was
written and `data` is within the limit, or it reports the internal failure of a copy beyond the limit,
`data` is longer than the limit, and what was written is the start of `data`
and within the limit. -/
structure datacopier_done (w : datacopier_world) (data : List Nat) (maxsz : Int) : Prop where
  idle_r : libxl__ev_fd_isregistered w.dc.toread = 0
  idle_w : libxl__ev_fd_isregistered w.dc.towrite = 0
  outcome :
    (w.callbacks = [{ onwrite := 0, errnoval := 0, killed := true }] ∧ w.sink = data ∧
      (data.length : Int) ≤ maxsz) ∨
    (w.callbacks = [{ onwrite := -1, errnoval := 0, killed := true }] ∧
      maxsz < (data.length : Int) ∧ w.sink = data.take w.sink.length ∧
      (w.sink.length : Int) ≤ maxsz)

/-- What is left to do in a copy: twice the bytes still to be read, the bytes
buffered, and the EOF still to be seen. -/
def datacopier_todo (w : datacopier_world) : Nat :=
  2 * w.source.length + (datacopier_buffered w.dc.bufs).length +
    (if libxl__ev_fd_isregistered w.dc.toread = 0 then 0 else 1)

/-- A copy of `data` between the system call of an event handler and the state
check that follows: as `datacopier_running`, but the registrations are not yet
brought in line with the buffers. -/
structure datacopier_settling (w : datacopier_world) (data : List Nat) (maxsz : Int) :
    Prop where
  nocall : w.callbacks = []
  conserve : w.sink ++ datacopier_buffered w.dc.bufs ++ w.source = data
  nonempty : ∀ b ∈ w.dc.bufs, b.buf ≠ []
  maxsz_eq : w.dc.maxsz = maxsz
  used_eq : w.dc.used = ((w.sink.length + (datacopier_buffered w.dc.bufs).length : Nat) : Int)
  used_le : w.dc.used ≤ maxsz
  wfd : 0 ≤ w.dc.writefd
  eof : libxl__ev_fd_isregistered w.dc.toread = 0 → w.source = []

/-- An event in which neither the system call nor the hook fails. -/
def datacopier_event.no_failure : datacopier_event → Prop
  | .readable _ errnoval hook_rc => errnoval = 0 ∧ hook_rc = 0
  | .writable _ errnoval hook_rc => errnoval = 0 ∧ hook_rc = 0

/-- The inline `libxl__ev_devstate_cancel`:
`libxl__ev_time_deregister(gc,&ds->timeout);` then
`libxl__ev_xswatch_deregister(gc,&ds->watch);`. The two deregister functions,
whose bodies are outside the header, are parameters; `γ` is the state they
reach through `gc`. -/
def libxl__ev_devstate_cancel {γ : Type}
    (ev_time_deregister : γ → libxl__ev_time → γ × libxl__ev_time)
    (ev_xswatch_deregister : γ → libxl__ev_xswatch → γ × libxl__ev_xswatch)
    (gc : γ) (ds : libxl__ev_devstate) : γ × libxl__ev_devstate :=
  let r1 := ev_time_deregister gc ds.timeout
  let ds1 := { ds with timeout := r1.2 }
  let r2 := ev_xswatch_deregister r1.1 ds1.watch
  (r2.1, { ds1 with watch := r2.2 })

/-- A strict "sorts after" test on a key: the new element sorts after the
searched one when its key is greater. -/
def key_new_after_search_p {α κ : Type} [LinearOrder κ] (key : α → κ)
    (elm_new elm_search : α) : Bool :=
  decide (key elm_new > key elm_search)

/-! ### Sample values -/

/-- A context without any registration and with an empty watch table. -/
def ctx_empty : libxl__ctx :=
  { efds := [], etimes := [], watch_slots := [], watch_freeslots := [],
    watch_counter := 0, children := [] }

/-- A finite timer with callback `func` and deadline `sec` seconds, `usec` microseconds. -/
def timer_at (func : Ptr) (sec usec : Int) : libxl__ev_time :=
  { func := func, infinite := 0, entry := (0, 0), abs := { tv_sec := sec, tv_usec := usec },
    for_app_reg := 0 }

/-- An fd registration struct filled with zero bytes. -/
def ev_fd_zero : libxl__ev_fd :=
  { fd := 0, events := 0, func := 0, entry := (0, 0), for_app_reg := 0 }

/-- A timer struct filled with zero bytes. -/
def ev_time_zero : libxl__ev_time :=
  { func := 0, infinite := 0, entry := (0, 0), abs := { tv_sec := 0, tv_usec := 0 },
    for_app_reg := 0 }

/-- A watch struct filled with zero bytes. -/
def ev_xswatch_zero : libxl__ev_xswatch :=
  { path := 0, callback := 0, slotnum := 0, counterval := 0 }

/-- A child struct filled with zero bytes. -/
def ev_child_zero : libxl__ev_child :=
  { pid := 0, callback := 0, entry := (0, 0) }

/-- Sample callees over a counter as program state: `libxl__ao_create` hands
out the ao at address 64 and the other functions keep the lock depth. -/
def callees_sample : ao_callees Nat :=
  { libxl__ao_create := fun e => (64, e + 1),
    libxl__ao_inprogress := fun _ d e => (0, d, e + 1),
    libxl__ao_abort := fun _ e => e + 1,
    libxl__egc_cleanup := fun e => e + 1 }

/-- Sample callees whose `libxl__ao_create` returns `NULL`. -/
def callees_nomem : ao_callees Nat :=
  { callees_sample with libxl__ao_create := fun e => (0, e) }

/-- A thread that holds no lock and has made no call. -/
def thread_start : ao_thread Nat :=
  { lock_depth := 0, env := 0, calls := [] }

/-- A thread that holds the ctx lock once. -/
def thread_locked : ao_thread Nat :=
  { lock_depth := 1, env := 0, calls := [] }

/-- A sample life of one ao: created and completed with result 7 through egc 0
under the lock, then delivered by the cleanup of egc 0 without the lock. -/
def ao_ops_sample : List ao_op :=
  [.ctx_lock, .ao_create 5, .ao_complete 0 0 7, .ctx_unlock, .egc_cleanup 0]

/-- The machinery after `ao_ops_sample`. -/
def ao_machine_sample : ao_machine :=
  { lock_depth := 0,
    aos := [{ magic := LIBXL__AO_MAGIC_DESTROYED, constructing := true, in_initiator := true,
              complete := true, notified := true, progress_reports_outstanding := 0,
              rc := 7, poller := 0, domid := 5 }],
    aos_for_callback := [],
    callbacks := [{ ao := 0, rc := 7, lock_depth := 0 }] }

/-- A copier from descriptor 3 to descriptor 4 with size limit `maxsz`, not
yet initialised. -/
def dc_sample (maxsz : Int) : libxl__datacopier_state :=
  { ao := 64, readfd := 3, writefd := 4, maxsz := maxsz, log := 0, callback := 9,
    toread := ev_fd_zero, towrite := ev_fd_zero, used := 55, bufs := [] }

/-- A schedule of seven events with reads and writes of various sizes. -/
def sched_sample : List (Bool × Nat) :=
  [(true, 1), (false, 0), (true, 5), (true, 0), (false, 9), (false, 0), (false, 0)]

/-- A device-state waiter whose timeout and watch are both Active. -/
def ds_sample : libxl__ev_devstate :=
  { wanted := 4, callback := 9,
    watch := { path := 4, callback := 9, slotnum := 0, counterval := 0 },
    timeout := timer_at 9 5 0 }

/-- The context in which `ds_sample` waits: its timer is on the timer list and
its watch sits in slot 0. -/
def ctx_waiting : libxl__ctx :=
  { ctx_empty with
    etimes := [timer_at 9 5 0],
    watch_slots := [some { path := 4, callback := 9, slotnum := 0, counterval := 0 }],
    watch_counter := 1 }

/-- The arguments of the use `GCREALLOC_ARRAY(array, 10)`, for an `int *array`. -/
def GCREALLOC_ARRAY.args_sample (name : String) : List pp_token :=
  if name = "var" then [.other "array"]
  else if name = "nmemb" then [.other "10"]
  else []

/-! ## Theorems -/

/-- C1: for each of the four event-source kinds and for every prior content of
the struct, the query function returns 0 after the kind's init function. -/
theorem C1_init_produces_idle :
    (∀ efd : libxl__ev_fd, libxl__ev_fd_isregistered (libxl__ev_fd_init efd) = 0) ∧
    (∀ ev : libxl__ev_time, libxl__ev_time_isregistered (libxl__ev_time_init ev) = 0) ∧
    (∀ xw : libxl__ev_xswatch,
      libxl__ev_xswatch_isregistered (libxl__ev_xswatch_init xw) = 0) ∧
    (∀ cw : libxl__ev_child, libxl__ev_child_inuse (libxl__ev_child_init cw) = 0) := by
  refine ⟨?_, ?_, ?_, ?_⟩ <;> intro s <;> rfl


theorem LIBXL_TAILQ_INSERT_SORTED.search_split {α : Type} (p : α → α → Bool) (n : α) :
    ∀ (l : List α) (k : Nat),
      (∃ j, LIBXL_TAILQ_INSERT_SORTED.search p n l k = some (k + j) ∧
          l.take j = l.takeWhile (p n) ∧ l.drop j = l.dropWhile (p n) ∧
          l.dropWhile (p n) ≠ []) ∨
      (LIBXL_TAILQ_INSERT_SORTED.search p n l k = none ∧
          l.takeWhile (p n) = l ∧ l.dropWhile (p n) = [])
  | [], k => Or.inr ⟨rfl, rfl, rfl⟩
  | x :: rest, k => by
    by_cases hx : p n x = true
    · rcases LIBXL_TAILQ_INSERT_SORTED.search_split p n rest (k + 1) with
        ⟨j, hs, ht, hd, hne⟩ | ⟨hs, ht, hd⟩
      · refine Or.inl ⟨j + 1, ?_, ?_, ?_, ?_⟩
        · simp [LIBXL_TAILQ_INSERT_SORTED.search, hx, hs]; omega
        · simp [List.takeWhile_cons, hx, ht]
        · simp [List.dropWhile_cons, hx, hd]
        · simpa [List.dropWhile_cons, hx] using hne
      · refine Or.inr ⟨?_, ?_, ?_⟩
        · simp [LIBXL_TAILQ_INSERT_SORTED.search, hx, hs]
        · simp [List.takeWhile_cons, hx, ht]
        · simp [List.dropWhile_cons, hx, hd]
    · refine Or.inl ⟨0, ?_, ?_, ?_, ?_⟩
      · simp [LIBXL_TAILQ_INSERT_SORTED.search, hx]
      · simp [List.takeWhile_cons, hx]
      · simp [List.dropWhile_cons, hx]
      · simp [List.dropWhile_cons, hx]

/-- The block inserts the new element between the longest run of leading
elements it sorts after and the remainder of the list. -/
theorem LIBXL_TAILQ_INSERT_SORTED_eq {α : Type} (l : List α) (n : α) (p : α → α → Bool) :
    LIBXL_TAILQ_INSERT_SORTED l n p = l.takeWhile (p n) ++ n :: l.dropWhile (p n) := by
  unfold LIBXL_TAILQ_INSERT_SORTED
  rcases LIBXL_TAILQ_INSERT_SORTED.search_split p n l 0 with
    ⟨j, hs, ht, hd, _⟩ | ⟨hs, ht, hd⟩
  · rw [hs]
    simp only [Nat.zero_add, LIBXL_TAILQ_INSERT_BEFORE, ht, hd]
  · rw [hs]
    simp only [LIBXL_TAILQ_INSERT_TAIL, ht, hd]

/-- Sorted insertion keeps a list sorted, for any "sorts after" test whose
negation is a total preorder. -/
theorem LIBXL_TAILQ_INSERT_SORTED_pairwise {α : Type} (p : α → α → Bool)
    (hasymm : ∀ a b, p a b = true → p b a = false)
    (htrans : ∀ a b c, p a b = false → p b c = false → p a c = false)
    (l : List α) (n : α) (hl : l.Pairwise (fun a b => p a b = false)) :
    (LIBXL_TAILQ_INSERT_SORTED l n p).Pairwise (fun a b => p a b = false) := by
  rw [LIBXL_TAILQ_INSERT_SORTED_eq]
  have hsplit : l.takeWhile (p n) ++ l.dropWhile (p n) = l := List.takeWhile_append_dropWhile _ _
  rw [← hsplit] at hl
  rw [List.pairwise_append] at hl ⊢
  obtain ⟨h1, h2, h3⟩ := hl
  have hn_drop : ∀ b ∈ l.dropWhile (p n), p n b = false := by
    intro b hb
    cases hd : l.dropWhile (p n) with
    | nil => simp [hd] at hb
    | cons y ys =>
      have hy : p n y = false := by
        have := List.head_dropWhile_not (p n) l (by simp [hd])
        simpa [hd] using this
      rw [hd] at hb h2
      rcases List.mem_cons.mp hb with rfl | hb
      · exact hy
      · exact htrans _ _ _ hy (List.rel_of_pairwise_cons h2 hb)
  refine ⟨h1, List.pairwise_cons.mpr ⟨hn_drop, h2⟩, ?_⟩
  intro a ha b hb
  rcases List.mem_cons.mp hb with rfl | hb
  · exact hasymm _ _ (List.mem_takeWhile_imp ha)
  · exact h3 a ha b hb


theorem timercmp_gt_irrefl (a : timeval) : timercmp_gt a a = false := by
  simp [timercmp_gt]

theorem timercmp_gt_asymm (a b : timeval) (h : timercmp_gt a b = true) :
    timercmp_gt b a = false := by
  unfold timercmp_gt at h ⊢
  split_ifs at h ⊢ <;> simp at h ⊢ <;> omega

theorem timercmp_gt_negtrans (a b c : timeval) (hab : timercmp_gt a b = false)
    (hbc : timercmp_gt b c = false) : timercmp_gt a c = false := by
  unfold timercmp_gt at hab hbc ⊢
  split_ifs at hab hbc ⊢ <;> simp at hab hbc ⊢ <;> omega

/-- Sorted insertion of a timer keeps the timer list sorted by deadline. -/
theorem etimes_sorted_insert (l : List libxl__ev_time) (ev : libxl__ev_time)
    (hl : etimes_sorted l) :
    etimes_sorted (LIBXL_TAILQ_INSERT_SORTED l ev etime_new_after_search_p) :=
  LIBXL_TAILQ_INSERT_SORTED_pairwise etime_new_after_search_p
    (fun a b h => timercmp_gt_asymm a.abs b.abs h)
    (fun a b c h1 h2 => timercmp_gt_negtrans a.abs b.abs c.abs h1 h2) l ev hl

/-- The first element of a sorted timer list carries the nearest deadline. -/
theorem etimes_sorted_head_le (l : List libxl__ev_time) (hl : etimes_sorted l) :
    ∀ first ∈ l.head?, ∀ t ∈ l, etime_le first t := by
  cases l with
  | nil => simp
  | cons x xs =>
    intro first hf t ht
    simp only [List.head?_cons, Option.mem_def, Option.some.injEq] at hf
    subst hf
    rcases List.mem_cons.mp ht with rfl | ht
    · exact timercmp_gt_irrefl _
    · exact List.rel_of_pairwise_cons hl ht

/-- A timer of the list is still in it after a sorted insertion, and so is the
new timer. -/
theorem mem_LIBXL_TAILQ_INSERT_SORTED {α : Type} (l : List α) (n x : α) (p : α → α → Bool) :
    x ∈ LIBXL_TAILQ_INSERT_SORTED l n p ↔ x = n ∨ x ∈ l := by
  rw [LIBXL_TAILQ_INSERT_SORTED_eq]
  have hsplit : l.takeWhile (p n) ++ l.dropWhile (p n) = l := List.takeWhile_append_dropWhile _ _
  conv_rhs => rw [← hsplit]
  simp only [List.mem_append, List.mem_cons]
  tauto

/-- Sorted insertion keeps every element of the list, once each and in the
order it had, and adds the new element once: the list is a sublist of the
result and the result is a permutation of the new element put in front. -/
theorem LIBXL_TAILQ_INSERT_SORTED_keeps {α : Type} (l : List α) (n : α) (p : α → α → Bool) :
    List.Sublist l (LIBXL_TAILQ_INSERT_SORTED l n p) ∧
    List.Perm (LIBXL_TAILQ_INSERT_SORTED l n p) (n :: l) := by
  rw [LIBXL_TAILQ_INSERT_SORTED_eq]
  have hsplit : l.takeWhile (p n) ++ l.dropWhile (p n) = l := List.takeWhile_append_dropWhile _ _
  constructor
  · have hsub : List.Sublist (l.takeWhile (p n) ++ l.dropWhile (p n))
        (l.takeWhile (p n) ++ n :: l.dropWhile (p n)) :=
      List.Sublist.append (List.Sublist.refl _) (List.sublist_cons_self _ _)
    rw [hsplit] at hsub
    exact hsub
  · have hperm : List.Perm (l.takeWhile (p n) ++ n :: l.dropWhile (p n))
        (n :: (l.takeWhile (p n) ++ l.dropWhile (p n))) := List.perm_middle
    rw [hsplit] at hperm
    exact hperm

/-- The deadline order spelled out: `a` is not later than `b` when its seconds
are fewer, or the seconds agree and its microseconds are not more. -/
theorem etime_le_iff (a b : libxl__ev_time) :
    etime_le a b ↔ a.abs.tv_sec < b.abs.tv_sec ∨
      (a.abs.tv_sec = b.abs.tv_sec ∧ a.abs.tv_usec ≤ b.abs.tv_usec) := by
  unfold etime_le timercmp_gt
  split_ifs with h
  · simp only [decide_eq_false_iff_not, not_lt, gt_iff_lt]
    constructor
    · intro hu
      exact Or.inr ⟨h, hu⟩
    · rintro (hlt | ⟨_, hu⟩)
      · omega
      · exact hu
  · simp only [decide_eq_false_iff_not, not_lt, gt_iff_lt]
    constructor
    · intro hle
      exact Or.inl (lt_of_le_of_ne hle h)
    · rintro (hlt | ⟨heq, _⟩)
      · exact le_of_lt hlt
      · exact absurd heq h

/-- C3: for every timer list sorted by deadline and every new timer, the list
that `LIBXL_TAILQ_INSERT_SORTED` yields with the test "the deadline of the new
timer is later than that of the searched one" is again sorted by deadline; it
keeps every timer of the list, once each and in the order they had, and adds
the new timer once (the list is a sublist of it, it is a permutation of the new
timer put in front of the list, its members are the new timer and the timers of
the list, and it is one longer); so its first element exists, is the new timer
or a timer of the list, and carries the nearest deadline: not later than that
of the new timer nor than that of any timer of the list. The order is the
comparison of seconds, then of microseconds. -/
theorem C3_insert_sorted_keeps_etimes_sorted (head : List libxl__ev_time)
    (ev : libxl__ev_time) (hsorted : etimes_sorted head) :
    etimes_sorted (LIBXL_TAILQ_INSERT_SORTED head ev etime_new_after_search_p) ∧
    List.Sublist head (LIBXL_TAILQ_INSERT_SORTED head ev etime_new_after_search_p) ∧
    List.Perm (LIBXL_TAILQ_INSERT_SORTED head ev etime_new_after_search_p) (ev :: head) ∧
    (∀ t, t ∈ LIBXL_TAILQ_INSERT_SORTED head ev etime_new_after_search_p ↔
      t = ev ∨ t ∈ head) ∧
    (LIBXL_TAILQ_INSERT_SORTED head ev etime_new_after_search_p).length = head.length + 1 ∧
    (∃ first,
      (LIBXL_TAILQ_INSERT_SORTED head ev etime_new_after_search_p).head? = some first ∧
      (first = ev ∨ first ∈ head) ∧
      etime_le first ev ∧
      (∀ t ∈ head, etime_le first t) ∧
      ∀ t ∈ LIBXL_TAILQ_INSERT_SORTED head ev etime_new_after_search_p, etime_le first t) ∧
    (∀ a b : libxl__ev_time, etime_le a b ↔ a.abs.tv_sec < b.abs.tv_sec ∨
      (a.abs.tv_sec = b.abs.tv_sec ∧ a.abs.tv_usec ≤ b.abs.tv_usec)) := by
  have hs := etimes_sorted_insert head ev hsorted
  have hkeep := LIBXL_TAILQ_INSERT_SORTED_keeps head ev etime_new_after_search_p
  have hmemiff : ∀ t, t ∈ LIBXL_TAILQ_INSERT_SORTED head ev etime_new_after_search_p ↔
      t = ev ∨ t ∈ head := fun t => mem_LIBXL_TAILQ_INSERT_SORTED head ev t _
  have hmem : ev ∈ LIBXL_TAILQ_INSERT_SORTED head ev etime_new_after_search_p :=
    (hmemiff ev).mpr (Or.inl rfl)
  have hlen : (LIBXL_TAILQ_INSERT_SORTED head ev etime_new_after_search_p).length =
      head.length + 1 := by
    rw [hkeep.2.length_eq, List.length_cons]
  refine ⟨hs, hkeep.1, hkeep.2, hmemiff, hlen, ?_, etime_le_iff⟩
  cases hres : LIBXL_TAILQ_INSERT_SORTED head ev etime_new_after_search_p with
  | nil => rw [hres] at hmem; cases hmem
  | cons x xs =>
    rw [hres] at hs hmemiff
    have hall : ∀ t ∈ x :: xs, etime_le x t := etimes_sorted_head_le (x :: xs) hs x rfl
    refine ⟨x, rfl, (hmemiff x).mp (List.mem_cons_self x xs), ?_, ?_, hall⟩
    · exact hall ev ((hmemiff ev).mpr (Or.inl rfl))
    · intro t ht
      exact hall t ((hmemiff t).mpr (Or.inr ht))

/-- Witness of C3: the timer due at 2s goes between those due at 1s and 3s,
both of which are kept, and the one due at 1s stays first. -/
theorem C3_insert_sorted_keeps_etimes_sorted_witness :
    etimes_sorted [timer_at 7 1 0, timer_at 8 3 0] ∧
    LIBXL_TAILQ_INSERT_SORTED [timer_at 7 1 0, timer_at 8 3 0] (timer_at 9 2 0)
      etime_new_after_search_p = [timer_at 7 1 0, timer_at 9 2 0, timer_at 8 3 0] ∧
    etimes_sorted (LIBXL_TAILQ_INSERT_SORTED [timer_at 7 1 0, timer_at 8 3 0]
      (timer_at 9 2 0) etime_new_after_search_p) ∧
    List.Sublist [timer_at 7 1 0, timer_at 8 3 0]
      (LIBXL_TAILQ_INSERT_SORTED [timer_at 7 1 0, timer_at 8 3 0]
        (timer_at 9 2 0) etime_new_after_search_p) ∧
    List.Perm (LIBXL_TAILQ_INSERT_SORTED [timer_at 7 1 0, timer_at 8 3 0]
        (timer_at 9 2 0) etime_new_after_search_p)
      (timer_at 9 2 0 :: [timer_at 7 1 0, timer_at 8 3 0]) ∧
    (∀ t, t ∈ LIBXL_TAILQ_INSERT_SORTED [timer_at 7 1 0, timer_at 8 3 0]
        (timer_at 9 2 0) etime_new_after_search_p ↔
      t = timer_at 9 2 0 ∨ t ∈ [timer_at 7 1 0, timer_at 8 3 0]) ∧
    (LIBXL_TAILQ_INSERT_SORTED [timer_at 7 1 0, timer_at 8 3 0]
      (timer_at 9 2 0) etime_new_after_search_p).length = 2 + 1 ∧
    (∃ first,
      (LIBXL_TAILQ_INSERT_SORTED [timer_at 7 1 0, timer_at 8 3 0]
        (timer_at 9 2 0) etime_new_after_search_p).head? = some first ∧
      (first = timer_at 9 2 0 ∨ first ∈ [timer_at 7 1 0, timer_at 8 3 0]) ∧
      etime_le first (timer_at 9 2 0) ∧
      (∀ t ∈ [timer_at 7 1 0, timer_at 8 3 0], etime_le first t) ∧
      ∀ t ∈ LIBXL_TAILQ_INSERT_SORTED [timer_at 7 1 0, timer_at 8 3 0]
        (timer_at 9 2 0) etime_new_after_search_p, etime_le first t) :=
  have h := C3_insert_sorted_keeps_etimes_sorted [timer_at 7 1 0, timer_at 8 3 0]
    (timer_at 9 2 0) (by decide)
  ⟨by decide, by decide, h.1, h.2.1, h.2.2.1, h.2.2.2.1, h.2.2.2.2.1, h.2.2.2.2.2.1⟩

theorem libxl__ev_fd_deregister_idle (ctx : libxl__ctx) (ev : libxl__ev_fd) :
    libxl__ev_fd_isregistered (libxl__ev_fd_deregister ctx ev).2 = 0 := by
  unfold libxl__ev_fd_deregister
  split_ifs with h
  · exact h
  · rfl

theorem libxl__ev_time_deregister_idle (ctx : libxl__ctx) (ev : libxl__ev_time) :
    libxl__ev_time_isregistered (libxl__ev_time_deregister ctx ev).2 = 0 := by
  unfold libxl__ev_time_deregister
  split_ifs with h h2
  · exact h
  · rfl
  · rfl

theorem libxl__ev_xswatch_deregister_idle (ctx : libxl__ctx) (w : libxl__ev_xswatch) :
    libxl__ev_xswatch_isregistered (libxl__ev_xswatch_deregister ctx w).2 = 0 := by
  unfold libxl__ev_xswatch_deregister
  split_ifs with h
  · exact h
  · rfl

theorem libxl__ev_fd_deregister_of_idle (ctx : libxl__ctx) (ev : libxl__ev_fd)
    (h : libxl__ev_fd_isregistered ev = 0) : libxl__ev_fd_deregister ctx ev = (ctx, ev) := by
  simp [libxl__ev_fd_deregister, h]

theorem libxl__ev_time_deregister_of_idle (ctx : libxl__ctx) (ev : libxl__ev_time)
    (h : libxl__ev_time_isregistered ev = 0) : libxl__ev_time_deregister ctx ev = (ctx, ev) := by
  simp [libxl__ev_time_deregister, h]

theorem libxl__ev_xswatch_deregister_of_idle (ctx : libxl__ctx) (w : libxl__ev_xswatch)
    (h : libxl__ev_xswatch_isregistered w = 0) :
    libxl__ev_xswatch_deregister ctx w = (ctx, w) := by
  simp [libxl__ev_xswatch_deregister, h]

/-- C2: for the kinds fd, time and xswatch a second deregister changes neither
the context nor the struct, and the query function returns 0 after any
deregister; for every kind the query function returns 1 right after a
successful register (return value 0; for a child, the pid returned in the
parent) of a descriptor (`0 ≤ fd`) or of a callback (`func ≠ 0`). The child
kind has no deregister. -/
theorem C2_deregister_idempotent_register_active :
    (∀ (ctx : libxl__ctx) (ev : libxl__ev_fd),
      libxl__ev_fd_deregister (libxl__ev_fd_deregister ctx ev).1
          (libxl__ev_fd_deregister ctx ev).2 = libxl__ev_fd_deregister ctx ev ∧
      libxl__ev_fd_isregistered (libxl__ev_fd_deregister ctx ev).2 = 0) ∧
    (∀ (ctx : libxl__ctx) (ev : libxl__ev_time),
      libxl__ev_time_deregister (libxl__ev_time_deregister ctx ev).1
          (libxl__ev_time_deregister ctx ev).2 = libxl__ev_time_deregister ctx ev ∧
      libxl__ev_time_isregistered (libxl__ev_time_deregister ctx ev).2 = 0) ∧
    (∀ (ctx : libxl__ctx) (w : libxl__ev_xswatch),
      libxl__ev_xswatch_deregister (libxl__ev_xswatch_deregister ctx w).1
          (libxl__ev_xswatch_deregister ctx w).2 = libxl__ev_xswatch_deregister ctx w ∧
      libxl__ev_xswatch_isregistered (libxl__ev_xswatch_deregister ctx w).2 = 0) ∧
    (∀ (ctx : libxl__ctx) (ev_out : libxl__ev_fd) (func : Ptr) (fd events hook_rc : Int),
      0 ≤ fd → (libxl__ev_fd_register ctx ev_out func fd events hook_rc).1 = 0 →
      libxl__ev_fd_isregistered
        (libxl__ev_fd_register ctx ev_out func fd events hook_rc).2.2 = 1) ∧
    (∀ (ctx : libxl__ctx) (ev_out : libxl__ev_time) (func : Ptr) (absolute : timeval)
        (hook_rc : Int),
      func ≠ 0 → (libxl__ev_time_register_abs ctx ev_out func absolute hook_rc).1 = 0 →
      libxl__ev_time_isregistered
        (libxl__ev_time_register_abs ctx ev_out func absolute hook_rc).2.2 = 1) ∧
    (∀ (ctx : libxl__ctx) (ev_out : libxl__ev_time) (func : Ptr) (milliseconds : Int)
        (now : timeval) (hook_rc : Int),
      func ≠ 0 →
      (libxl__ev_time_register_rel ctx ev_out func milliseconds now hook_rc).1 = 0 →
      libxl__ev_time_isregistered
        (libxl__ev_time_register_rel ctx ev_out func milliseconds now hook_rc).2.2 = 1) ∧
    (∀ (ctx : libxl__ctx) (xsw_out : libxl__ev_xswatch) (func path : Ptr) (store_rc : Int),
      (libxl__ev_xswatch_register ctx xsw_out func path store_rc).1 = 0 →
      libxl__ev_xswatch_isregistered
        (libxl__ev_xswatch_register ctx xsw_out func path store_rc).2.2 = 1) ∧
    (∀ (ctx : libxl__ctx) (childw_out : libxl__ev_child) (death : Ptr) (fork_result : Int),
      0 < (libxl__ev_child_fork ctx childw_out death fork_result).1 →
      libxl__ev_child_inuse (libxl__ev_child_fork ctx childw_out death fork_result).2.2 = 1) := by
  refine ⟨?_, ?_, ?_, ?_, ?_, ?_, ?_, ?_⟩
  · intro ctx ev
    exact ⟨libxl__ev_fd_deregister_of_idle _ _ (libxl__ev_fd_deregister_idle ctx ev),
      libxl__ev_fd_deregister_idle ctx ev⟩
  · intro ctx ev
    exact ⟨libxl__ev_time_deregister_of_idle _ _ (libxl__ev_time_deregister_idle ctx ev),
      libxl__ev_time_deregister_idle ctx ev⟩
  · intro ctx w
    exact ⟨libxl__ev_xswatch_deregister_of_idle _ _ (libxl__ev_xswatch_deregister_idle ctx w),
      libxl__ev_xswatch_deregister_idle ctx w⟩
  · intro ctx ev_out func fd events hook_rc hfd hrc
    unfold libxl__ev_fd_register at hrc ⊢
    split_ifs at hrc ⊢ with h
    · exact absurd hrc h
    · simp [libxl__ev_fd_isregistered, hfd]
  · intro ctx ev_out func absolute hook_rc hfunc hrc
    unfold libxl__ev_time_register_abs at hrc ⊢
    split_ifs at hrc ⊢ with h
    · exact absurd hrc h
    · simp [libxl__ev_time_isregistered, hfunc]
  · intro ctx ev_out func milliseconds now hook_rc hfunc hrc
    unfold libxl__ev_time_register_rel libxl__ev_time_register_abs at hrc ⊢
    split_ifs at hrc ⊢ with h1 h2
    · simp [libxl__ev_time_isregistered, hfunc]
    · exact absurd hrc h2
    · simp [libxl__ev_time_isregistered, hfunc]
  · intro ctx xsw_out func path store_rc hrc
    unfold libxl__ev_xswatch_register at hrc ⊢
    split_ifs at hrc ⊢ with h
    · exact absurd hrc h
    · cases hfree : ctx.watch_freeslots <;> simp [libxl__ev_xswatch_isregistered]
  · intro ctx childw_out death fork_result hpid
    unfold libxl__ev_child_fork at hpid ⊢
    split_ifs at hpid ⊢ with h1 h2
    · simp at hpid; omega
    · simp at hpid
    · simp at hpid
      simp [libxl__ev_child_inuse]; omega

/-- Witness of C2: descriptor 3, a timer with callback 9 and a watch are
registered successfully on the empty context. -/
theorem C2_deregister_idempotent_register_active_witness :
    libxl__ev_fd_isregistered (libxl__ev_fd_register ctx_empty ev_fd_zero 9 3 1 0).2.2 = 1 ∧
    libxl__ev_time_isregistered
      (libxl__ev_time_register_abs ctx_empty ev_time_zero 9 ⟨5, 0⟩ 0).2.2 = 1 ∧
    libxl__ev_time_isregistered
      (libxl__ev_time_register_rel ctx_empty ev_time_zero 9 1500 ⟨5, 0⟩ 0).2.2 = 1 ∧
    libxl__ev_xswatch_isregistered
      (libxl__ev_xswatch_register ctx_empty ev_xswatch_zero 9 4 0).2.2 = 1 ∧
    libxl__ev_child_inuse (libxl__ev_child_fork ctx_empty ev_child_zero 9 1234).2.2 = 1 :=
  ⟨C2_deregister_idempotent_register_active.2.2.2.1 ctx_empty ev_fd_zero 9 3 1 0
      (by decide) (by decide),
   C2_deregister_idempotent_register_active.2.2.2.2.1 ctx_empty ev_time_zero 9 ⟨5, 0⟩ 0
      (by decide) (by decide),
   C2_deregister_idempotent_register_active.2.2.2.2.2.1 ctx_empty ev_time_zero 9 1500 ⟨5, 0⟩ 0
      (by decide) (by decide),
   C2_deregister_idempotent_register_active.2.2.2.2.2.2.1 ctx_empty ev_xswatch_zero 9 4 0
      (by decide),
   C2_deregister_idempotent_register_active.2.2.2.2.2.2.2 ctx_empty ev_child_zero 9 1234
      (by decide)⟩


theorem etimes_sorted_erase (l : List libxl__ev_time) (ev : libxl__ev_time)
    (hl : etimes_sorted l) : etimes_sorted (l.erase ev) :=
  List.Pairwise.sublist (List.erase_sublist ev l) hl

/-- Every call into the timer part of the event core keeps `etimes` sorted. -/
theorem etime_step_sorted (ctx : libxl__ctx) (op : etime_op)
    (h : etimes_sorted ctx.etimes) : etimes_sorted (etime_step ctx op).etimes := by
  cases op with
  | register_abs ev_out func absolute hook_rc =>
    simp only [etime_step, libxl__ev_time_register_abs]
    split_ifs
    · exact h
    · exact etimes_sorted_insert _ _ h
  | register_rel ev_out func milliseconds now hook_rc =>
    simp only [etime_step, libxl__ev_time_register_rel, libxl__ev_time_register_abs]
    split_ifs
    · exact h
    · exact h
    · exact etimes_sorted_insert _ _ h
  | modify_abs ev absolute hook_rc =>
    simp only [etime_step, libxl__ev_time_modify_abs]
    split_ifs
    · exact h
    · exact etimes_sorted_insert _ _ h
    · exact etimes_sorted_insert _ _ (etimes_sorted_erase _ _ h)
  | modify_rel ev milliseconds now hook_rc =>
    simp only [etime_step, libxl__ev_time_modify_rel, libxl__ev_time_modify_abs]
    split_ifs
    · exact h
    · exact etimes_sorted_erase _ _ h
    · exact h
    · exact etimes_sorted_insert _ _ h
    · exact etimes_sorted_insert _ _ (etimes_sorted_erase _ _ h)
  | deregister ev =>
    simp only [etime_step, libxl__ev_time_deregister]
    split_ifs
    · exact h
    · exact h
    · exact etimes_sorted_erase _ _ h
  | occurs now =>
    simp only [etime_step, time_occurs]
    cases hl : ctx.etimes with
    | nil => simpa [hl] using h
    | cons etime rest =>
      rw [hl] at h
      simp only
      split_ifs
      · simpa [hl] using h
      · exact (List.pairwise_cons.mp h).2

theorem etime_run_sorted (ops : List etime_op) :
    ∀ ctx : libxl__ctx, etimes_sorted ctx.etimes → etimes_sorted (etime_run ctx ops).etimes := by
  induction ops with
  | nil => intro ctx h; exact h
  | cons op ops ih =>
    intro ctx h
    exact ih (etime_step ctx op) (etime_step_sorted ctx op h)

/-- The timer fired by `time_occurs` on a sorted list has the nearest deadline. -/
theorem time_occurs_le (ctx : libxl__ctx) (now : timeval) (fired : libxl__ev_time)
    (h : etimes_sorted ctx.etimes) (hf : (time_occurs ctx now).1 = some fired) :
    ∀ t ∈ ctx.etimes, etime_le fired t := by
  unfold time_occurs at hf
  cases hl : ctx.etimes with
  | nil => simp [hl] at hf
  | cons etime rest =>
    rw [hl] at hf h
    simp only at hf
    split_ifs at hf
    simp only [Option.some.injEq] at hf
    subst hf
    exact etimes_sorted_head_le (etime :: rest) h etime rfl

theorem etimes_built_sorted_aux (regs : List libxl__ev_time) :
    ∀ l : List libxl__ev_time, etimes_sorted l →
      etimes_sorted
        (regs.foldl (fun l ev => LIBXL_TAILQ_INSERT_SORTED l ev etime_new_after_search_p) l) := by
  induction regs with
  | nil => intro l h; exact h
  | cons r rs ih => intro l h; exact ih _ (etimes_sorted_insert l r h)

theorem etimes_built_mem_aux (regs : List libxl__ev_time) (x : libxl__ev_time) :
    ∀ l : List libxl__ev_time,
      x ∈ regs.foldl (fun l ev => LIBXL_TAILQ_INSERT_SORTED l ev etime_new_after_search_p) l ↔
        x ∈ l ∨ x ∈ regs := by
  induction regs with
  | nil => intro l; simp
  | cons r rs ih =>
    intro l
    rw [List.foldl_cons, ih, mem_LIBXL_TAILQ_INSERT_SORTED, List.mem_cons]
    tauto

/-- In a sorted timer list a timer with a strictly earlier deadline stands
before one with a later deadline. -/
theorem etimes_sorted_sublist_pair (l : List libxl__ev_time) (t1 t2 : libxl__ev_time)
    (hl : etimes_sorted l) (h1 : t1 ∈ l) (h2 : t2 ∈ l)
    (hlt : timercmp_gt t2.abs t1.abs = true) : List.Sublist [t1, t2] l := by
  induction l with
  | nil => cases h1
  | cons x xs ih =>
    have hne : t2 ≠ t1 := by
      rintro rfl
      rw [timercmp_gt_irrefl] at hlt
      cases hlt
    obtain ⟨hx, hxs⟩ := List.pairwise_cons.mp hl
    rcases List.mem_cons.mp h1 with rfl | h1x
    · rcases List.mem_cons.mp h2 with h2x | h2x
      · exact absurd h2x hne
      · exact List.Sublist.cons₂ _ (List.singleton_sublist.mpr h2x)
    · rcases List.mem_cons.mp h2 with rfl | h2x
      · have : timercmp_gt t2.abs t1.abs = false := hx t1 h1x
        rw [this] at hlt
        cases hlt
      · exact List.Sublist.cons _ (ih hxs h1x h2x)

/-- C4: in every state the timer machinery reaches from a context with a
sorted timer list, while a timer with deadline d1 is still registered (neither
fired nor deregistered) the timer dispatch does not fire a timer with a later
deadline d2; and in the timer list built with `LIBXL_TAILQ_INSERT_SORTED`, in
whatever order the timers were registered, the d1 timer stands before the d2
timer and never behind it. -/
theorem C4_earlier_deadline_first :
    (∀ (ctx0 : libxl__ctx) (ops : List etime_op) (now : timeval) (t1 t2 : libxl__ev_time),
      etimes_sorted ctx0.etimes →
      t1 ∈ (etime_run ctx0 ops).etimes →
      timercmp_gt t2.abs t1.abs = true →
      (time_occurs (etime_run ctx0 ops) now).1 ≠ some t2) ∧
    (∀ (regs : List libxl__ev_time) (t1 t2 : libxl__ev_time),
      t1 ∈ regs → t2 ∈ regs → timercmp_gt t2.abs t1.abs = true →
      List.Sublist [t1, t2] (etimes_built regs) ∧ ¬ List.Sublist [t2, t1] (etimes_built regs)) := by
  constructor
  · intro ctx0 ops now t1 t2 hs h1 hlt hf
    have := time_occurs_le _ now t2 (etime_run_sorted ops ctx0 hs) hf t1 h1
    unfold etime_le at this
    rw [this] at hlt
    cases hlt
  · intro regs t1 t2 h1 h2 hlt
    have hs : etimes_sorted (etimes_built regs) :=
      etimes_built_sorted_aux regs [] List.Pairwise.nil
    have hm1 : t1 ∈ etimes_built regs := (etimes_built_mem_aux regs t1 []).mpr (Or.inr h1)
    have hm2 : t2 ∈ etimes_built regs := (etimes_built_mem_aux regs t2 []).mpr (Or.inr h2)
    refine ⟨etimes_sorted_sublist_pair _ t1 t2 hs hm1 hm2 hlt, ?_⟩
    intro hsub
    have := List.Pairwise.sublist hsub hs
    have h21 : etime_le t2 t1 := by simpa using this
    unfold etime_le at h21
    rw [h21] at hlt
    cases hlt


theorem AO_INPROGRESS_ok {σ : Type} (f : ao_callees σ) (ao : Ptr) (t : ao_thread σ)
    (h : 0 < (f.libxl__ao_inprogress ao t.lock_depth t.env).2.1) :
    AO_INPROGRESS f ao t =
      .next (f.libxl__ao_inprogress ao t.lock_depth t.env).1
        { lock_depth := (f.libxl__ao_inprogress ao t.lock_depth t.env).2.1 - 1,
          env := f.libxl__egc_cleanup (f.libxl__ao_inprogress ao t.lock_depth t.env).2.2,
          calls := t.calls ++
            [⟨.libxl__ao_inprogress, t.lock_depth⟩,
             ⟨.libxl__ctx_unlock, (f.libxl__ao_inprogress ao t.lock_depth t.env).2.1⟩,
             ⟨.libxl__egc_cleanup, (f.libxl__ao_inprogress ao t.lock_depth t.env).2.1 - 1⟩] } := by
  have h0 : (f.libxl__ao_inprogress ao t.lock_depth t.env).2.1 ≠ 0 := by omega
  simp [AO_INPROGRESS, libxl__ctx_unlock, EGC_FREE, ao_thread.record, h0]

theorem AO_INPROGRESS_fail {σ : Type} (f : ao_callees σ) (ao : Ptr) (t : ao_thread σ)
    (h : (f.libxl__ao_inprogress ao t.lock_depth t.env).2.1 = 0) :
    AO_INPROGRESS f ao t =
      .assert_failed (t.record .libxl__ao_inprogress 0
        (f.libxl__ao_inprogress ao t.lock_depth t.env).2.2) := by
  simp [AO_INPROGRESS, libxl__ctx_unlock, ao_thread.record, h]

theorem AO_ABORT_ok {σ : Type} (f : ao_callees σ) (ao : Ptr) (rc : Int) (t : ao_thread σ)
    (hrc : rc ≠ 0) (h : 0 < t.lock_depth) :
    AO_ABORT f ao rc t =
      .next rc
        { lock_depth := t.lock_depth - 1,
          env := f.libxl__egc_cleanup (f.libxl__ao_abort ao t.env),
          calls := t.calls ++
            [⟨.libxl__ao_abort, t.lock_depth⟩, ⟨.libxl__ctx_unlock, t.lock_depth⟩,
             ⟨.libxl__egc_cleanup, t.lock_depth - 1⟩] } := by
  have h0 : t.lock_depth ≠ 0 := by omega
  simp [AO_ABORT, libxl__ctx_unlock, EGC_FREE, ao_thread.record, hrc, h0]

theorem AO_CREATE_null {σ : Type} (f : ao_callees σ) (E : Int) (t : ao_thread σ)
    (h : (f.libxl__ao_create t.env).1 = 0) :
    AO_CREATE f E t =
      .returned E
        { lock_depth := t.lock_depth,
          env := (f.libxl__ao_create t.env).2,
          calls := t.calls ++
            [⟨.libxl__ctx_lock, t.lock_depth⟩, ⟨.libxl__ao_create, t.lock_depth + 1⟩,
             ⟨.libxl__ctx_unlock, t.lock_depth + 1⟩] } := by
  simp [AO_CREATE, libxl__ctx_lock, libxl__ctx_unlock, ao_thread.record, h]

theorem AO_CREATE_ok {σ : Type} (f : ao_callees σ) (E : Int) (t : ao_thread σ)
    (h : (f.libxl__ao_create t.env).1 ≠ 0) :
    AO_CREATE f E t =
      .next (f.libxl__ao_create t.env).1
        { lock_depth := t.lock_depth + 1,
          env := (f.libxl__ao_create t.env).2,
          calls := t.calls ++
            [⟨.libxl__ctx_lock, t.lock_depth⟩, ⟨.libxl__ao_create, t.lock_depth + 1⟩,
             ⟨.LIBXL_INIT_EGC, t.lock_depth + 1⟩] } := by
  simp [AO_CREATE, libxl__ctx_lock, ao_thread.record, h]


/-- Witness of C4: with timers due at 3s and 1s registered in this order, the
dispatch at 10s does not fire the 3s timer, and the 1s timer stands first. -/
theorem C4_earlier_deadline_first_witness :
    (time_occurs (etime_run ctx_empty
        [.register_abs ev_time_zero 8 ⟨3, 0⟩ 0, .register_abs ev_time_zero 7 ⟨1, 0⟩ 0])
        ⟨10, 0⟩).1 ≠ some (timer_at 8 3 0) ∧
    (List.Sublist [timer_at 7 1 0, timer_at 8 3 0]
        (etimes_built [timer_at 8 3 0, timer_at 7 1 0]) ∧
      ¬ List.Sublist [timer_at 8 3 0, timer_at 7 1 0]
        (etimes_built [timer_at 8 3 0, timer_at 7 1 0])) :=
  ⟨C4_earlier_deadline_first.1 ctx_empty
      [.register_abs ev_time_zero 8 ⟨3, 0⟩ 0, .register_abs ev_time_zero 7 ⟨1, 0⟩ 0]
      ⟨10, 0⟩ (timer_at 7 1 0) (timer_at 8 3 0) (by decide) (by decide) (by decide),
   C4_earlier_deadline_first.2 [timer_at 8 3 0, timer_at 7 1 0] (timer_at 7 1 0)
      (timer_at 8 3 0) (by decide) (by decide) (by decide)⟩

/-- C5: in `AO_INPROGRESS` and in `AO_ABORT` the call of `libxl__egc_cleanup`
comes right after `libxl__ctx_unlock`, one lock level below it; and an
initiator entered without the lock, whose body and whose
`libxl__ao_inprogress` leave the lock depth as they found it, returns after
calling `libxl__egc_cleanup` at lock depth 0, having released the lock that
`AO_CREATE` took. -/
theorem C5_egc_cleanup_with_lock_released {σ : Type} (f : ao_callees σ) (ERROR_NOMEM : Int)
    (body : Ptr → Nat → σ → Int × Nat × σ) (t : ao_thread σ)
    (hentry : t.lock_depth = 0)
    (hbody : ∀ ao d e, (body ao d e).2.1 = d)
    (hinp : ∀ ao d e, (f.libxl__ao_inprogress ao d e).2.1 = d)
    (hao : (f.libxl__ao_create t.env).1 ≠ 0) :
    (∀ (ao : Ptr) (s : ao_thread σ) (v : Int) (s' : ao_thread σ),
      AO_INPROGRESS f ao s = .next v s' →
      ∃ d, s'.lock_depth = d ∧ s'.calls = s.calls ++
        [⟨.libxl__ao_inprogress, s.lock_depth⟩, ⟨.libxl__ctx_unlock, d + 1⟩,
         ⟨.libxl__egc_cleanup, d⟩]) ∧
    (∀ (ao : Ptr) (rc : Int) (s : ao_thread σ) (v : Int) (s' : ao_thread σ),
      AO_ABORT f ao rc s = .next v s' →
      ∃ d, s'.lock_depth = d ∧ s'.calls = s.calls ++
        [⟨.libxl__ao_abort, d + 1⟩, ⟨.libxl__ctx_unlock, d + 1⟩,
         ⟨.libxl__egc_cleanup, d⟩]) ∧
    ∃ (rc : Int) (t' : ao_thread σ),
      ao_initiator f ERROR_NOMEM body t = .returned rc t' ∧ t'.lock_depth = 0 ∧
      ∃ last : ao_fn, (last = .libxl__ao_inprogress ∨ last = .libxl__ao_abort) ∧
        t'.calls = t.calls ++
          [⟨.libxl__ctx_lock, 0⟩, ⟨.libxl__ao_create, 1⟩, ⟨.LIBXL_INIT_EGC, 1⟩,
           ⟨.initiator_body, 1⟩, ⟨last, 1⟩, ⟨.libxl__ctx_unlock, 1⟩,
           ⟨.libxl__egc_cleanup, 0⟩] := by
  refine ⟨?_, ?_, ?_⟩
  · intro ao s v s' h
    by_cases h0 : (f.libxl__ao_inprogress ao s.lock_depth s.env).2.1 = 0
    · rw [AO_INPROGRESS_fail f ao s h0] at h
      cases h
    · rw [AO_INPROGRESS_ok f ao s (by omega)] at h
      injection h with hv hs
      subst hs
      refine ⟨(f.libxl__ao_inprogress ao s.lock_depth s.env).2.1 - 1, rfl, ?_⟩
      have : (f.libxl__ao_inprogress ao s.lock_depth s.env).2.1 - 1 + 1 =
          (f.libxl__ao_inprogress ao s.lock_depth s.env).2.1 := by omega
      simp only [this]
  · intro ao rc s v s' h
    by_cases hrc : rc = 0
    · simp [AO_ABORT, hrc] at h
    · by_cases h0 : s.lock_depth = 0
      · simp [AO_ABORT, hrc, libxl__ctx_unlock, ao_thread.record, h0] at h
      · rw [AO_ABORT_ok f ao rc s hrc (by omega)] at h
        injection h with hv hs
        subst hs
        refine ⟨s.lock_depth - 1, rfl, ?_⟩
        have : s.lock_depth - 1 + 1 = s.lock_depth := by omega
        simp only [this]
  · unfold ao_initiator
    rw [AO_CREATE_ok f ERROR_NOMEM t hao]
    simp only [hentry, Nat.zero_add]
    by_cases hrc : (body (f.libxl__ao_create t.env).1 1 (f.libxl__ao_create t.env).2).1 = 0
    · simp only [hrc, if_true]
      rw [AO_INPROGRESS_ok _ _ _ (by simp [ao_thread.record, hinp, hbody])]
      refine ⟨_, _, rfl, ?_, .libxl__ao_inprogress, Or.inl rfl, ?_⟩
      · simp [ao_thread.record, hinp, hbody]
      · simp [ao_thread.record, hinp, hbody]
    · simp only [hrc, if_false]
      rw [AO_ABORT_ok _ _ _ _ hrc (by simp [ao_thread.record, hbody])]
      refine ⟨_, _, rfl, ?_, .libxl__ao_abort, Or.inr rfl, ?_⟩
      · simp [ao_thread.record, hbody]
      · simp [ao_thread.record, hbody]


/-- Witness of C5: the sample initiator, entered without the lock, ends with
`libxl__egc_cleanup` called at lock depth 0. -/
theorem C5_egc_cleanup_with_lock_released_witness :
    thread_start.lock_depth = 0 ∧
    (callees_sample.libxl__ao_create thread_start.env).1 ≠ 0 ∧
    ∃ (rc : Int) (t' : ao_thread Nat),
      ao_initiator callees_sample (-5) (fun _ d e => (0, d, e)) thread_start = .returned rc t' ∧
      t'.lock_depth = 0 ∧
      ∃ last : ao_fn, (last = .libxl__ao_inprogress ∨ last = .libxl__ao_abort) ∧
        t'.calls = thread_start.calls ++
          [⟨.libxl__ctx_lock, 0⟩, ⟨.libxl__ao_create, 1⟩, ⟨.LIBXL_INIT_EGC, 1⟩,
           ⟨.initiator_body, 1⟩, ⟨last, 1⟩, ⟨.libxl__ctx_unlock, 1⟩,
           ⟨.libxl__egc_cleanup, 0⟩] :=
  ⟨rfl, by decide,
   (C5_egc_cleanup_with_lock_released callees_sample (-5) (fun _ d e => (0, d, e)) thread_start
      rfl (fun _ _ _ => rfl) (fun _ _ _ => rfl) (by decide)).2.2⟩

/-- C6: `AO_INPROGRESS` never has a value other than the one returned by
`libxl__ao_inprogress(ao)` and never makes the enclosing function return by
itself; when the lock is still held after `libxl__ao_inprogress`, the block
has that value, and its calls are `libxl__ao_inprogress` once, then
`libxl__ctx_unlock`, then `libxl__egc_cleanup`. -/
theorem C6_AO_INPROGRESS_returns_inprogress_value {σ : Type} (f : ao_callees σ) (ao : Ptr)
    (t : ao_thread σ) :
    (∀ (v : Int) (t' : ao_thread σ), AO_INPROGRESS f ao t = .next v t' →
      v = (f.libxl__ao_inprogress ao t.lock_depth t.env).1) ∧
    (∀ (rc : Int) (t' : ao_thread σ), AO_INPROGRESS f ao t ≠ .returned rc t') ∧
    (0 < (f.libxl__ao_inprogress ao t.lock_depth t.env).2.1 →
      ∃ t' : ao_thread σ,
        AO_INPROGRESS f ao t = .next (f.libxl__ao_inprogress ao t.lock_depth t.env).1 t' ∧
        t'.calls = t.calls ++
          [⟨.libxl__ao_inprogress, t.lock_depth⟩,
           ⟨.libxl__ctx_unlock, (f.libxl__ao_inprogress ao t.lock_depth t.env).2.1⟩,
           ⟨.libxl__egc_cleanup, (f.libxl__ao_inprogress ao t.lock_depth t.env).2.1 - 1⟩] ∧
        t'.env = f.libxl__egc_cleanup (f.libxl__ao_inprogress ao t.lock_depth t.env).2.2) := by
  by_cases h0 : (f.libxl__ao_inprogress ao t.lock_depth t.env).2.1 = 0
  · rw [AO_INPROGRESS_fail f ao t h0]
    refine ⟨?_, ?_, ?_⟩
    · intro v t' h; cases h
    · intro rc t' h; cases h
    · intro h; omega
  · rw [AO_INPROGRESS_ok f ao t (by omega)]
    refine ⟨?_, ?_, ?_⟩
    · intro v t' h
      injection h with hv _
      exact hv.symm
    · intro rc t' h; cases h
    · intro _
      exact ⟨_, rfl, rfl, rfl⟩

/-- Witness of C6: with the lock held once, the sample `AO_INPROGRESS` has the
value 0 that the sample `libxl__ao_inprogress` returns. -/
theorem C6_AO_INPROGRESS_returns_inprogress_value_witness :
    0 < (callees_sample.libxl__ao_inprogress 64 thread_locked.lock_depth thread_locked.env).2.1 ∧
    ∃ t' : ao_thread Nat,
      AO_INPROGRESS callees_sample 64 thread_locked =
        .next (callees_sample.libxl__ao_inprogress 64 thread_locked.lock_depth
          thread_locked.env).1 t' ∧
      t'.calls = thread_locked.calls ++
        [⟨.libxl__ao_inprogress, thread_locked.lock_depth⟩,
         ⟨.libxl__ctx_unlock,
          (callees_sample.libxl__ao_inprogress 64 thread_locked.lock_depth
            thread_locked.env).2.1⟩,
         ⟨.libxl__egc_cleanup,
          (callees_sample.libxl__ao_inprogress 64 thread_locked.lock_depth
            thread_locked.env).2.1 - 1⟩] ∧
      t'.env = callees_sample.libxl__egc_cleanup
        (callees_sample.libxl__ao_inprogress 64 thread_locked.lock_depth
          thread_locked.env).2.2 :=
  ⟨by decide,
   (C6_AO_INPROGRESS_returns_inprogress_value callees_sample 64 thread_locked).2.2 (by decide)⟩

/-- C7: for every `rc` other than 0, with the lock held, `AO_ABORT(rc)` calls
`libxl__ao_abort` once at the lock depth it was entered with, then
`libxl__ctx_unlock`, then `libxl__egc_cleanup`, never `libxl__ao_inprogress`,
and has the value `rc`; for `rc` equal to 0 the assertion fails with no call
made. -/
theorem C7_AO_ABORT_returns_rc {σ : Type} (f : ao_callees σ) (ao : Ptr) (t : ao_thread σ) :
    (∀ rc : Int, rc ≠ 0 → 0 < t.lock_depth →
      ∃ t' : ao_thread σ, AO_ABORT f ao rc t = .next rc t' ∧
        t'.calls = t.calls ++
          [⟨.libxl__ao_abort, t.lock_depth⟩, ⟨.libxl__ctx_unlock, t.lock_depth⟩,
           ⟨.libxl__egc_cleanup, t.lock_depth - 1⟩] ∧
        t'.lock_depth = t.lock_depth - 1 ∧
        t'.env = f.libxl__egc_cleanup (f.libxl__ao_abort ao t.env)) ∧
    (∀ (rc v : Int) (t' : ao_thread σ), AO_ABORT f ao rc t = .next v t' → v = rc ∧ rc ≠ 0) ∧
    AO_ABORT f ao 0 t = .assert_failed t := by
  refine ⟨?_, ?_, ?_⟩
  · intro rc hrc hheld
    rw [AO_ABORT_ok f ao rc t hrc hheld]
    exact ⟨_, rfl, rfl, rfl, rfl⟩
  · intro rc v t' h
    by_cases hrc : rc = 0
    · simp [AO_ABORT, hrc] at h
    · by_cases h0 : t.lock_depth = 0
      · simp [AO_ABORT, hrc, libxl__ctx_unlock, ao_thread.record, h0] at h
      · rw [AO_ABORT_ok f ao rc t hrc (by omega)] at h
        injection h with hv _
        exact ⟨hv.symm, hrc⟩
  · simp [AO_ABORT]

/-- Witness of C7: with the lock held once, the sample `AO_ABORT(-3)` has the
value -3. -/
theorem C7_AO_ABORT_returns_rc_witness :
    (-3 : Int) ≠ 0 ∧ 0 < thread_locked.lock_depth ∧
    ∃ t' : ao_thread Nat, AO_ABORT callees_sample 64 (-3) thread_locked = .next (-3) t' ∧
      t'.calls = thread_locked.calls ++
        [⟨.libxl__ao_abort, thread_locked.lock_depth⟩,
         ⟨.libxl__ctx_unlock, thread_locked.lock_depth⟩,
         ⟨.libxl__egc_cleanup, thread_locked.lock_depth - 1⟩] ∧
      t'.lock_depth = thread_locked.lock_depth - 1 ∧
      t'.env = callees_sample.libxl__egc_cleanup
        (callees_sample.libxl__ao_abort 64 thread_locked.env) :=
  ⟨by decide, by decide,
   (C7_AO_ABORT_returns_rc callees_sample 64 thread_locked).1 (-3) (by decide) (by decide)⟩

/-- C8: `AO_CREATE` calls `libxl__ao_create` with the lock taken (one level
above the depth at entry, whatever the result), and when `libxl__ao_create`
returns `NULL` the enclosing function returns `ERROR_NOMEM` with the lock
depth of entry restored, after the calls lock, `libxl__ao_create`, unlock and
nothing else: no egc is initialised and the body of the initiator is not run. -/
theorem C8_AO_CREATE_null_returns_nomem {σ : Type} (f : ao_callees σ) (ERROR_NOMEM : Int)
    (body : Ptr → Nat → σ → Int × Nat × σ) (t : ao_thread σ) :
    ((f.libxl__ao_create t.env).1 = 0 →
      ∃ t' : ao_thread σ,
        AO_CREATE f ERROR_NOMEM t = .returned ERROR_NOMEM t' ∧
        ao_initiator f ERROR_NOMEM body t = .returned ERROR_NOMEM t' ∧
        t'.lock_depth = t.lock_depth ∧
        t'.env = (f.libxl__ao_create t.env).2 ∧
        t'.calls = t.calls ++
          [⟨.libxl__ctx_lock, t.lock_depth⟩, ⟨.libxl__ao_create, t.lock_depth + 1⟩,
           ⟨.libxl__ctx_unlock, t.lock_depth + 1⟩]) ∧
    ((f.libxl__ao_create t.env).1 ≠ 0 →
      ∃ t' : ao_thread σ,
        AO_CREATE f ERROR_NOMEM t = .next (f.libxl__ao_create t.env).1 t' ∧
        t'.calls = t.calls ++
          [⟨.libxl__ctx_lock, t.lock_depth⟩, ⟨.libxl__ao_create, t.lock_depth + 1⟩,
           ⟨.LIBXL_INIT_EGC, t.lock_depth + 1⟩]) := by
  constructor
  · intro h
    refine ⟨_, AO_CREATE_null f ERROR_NOMEM t h, ?_, rfl, rfl, rfl⟩
    unfold ao_initiator
    rw [AO_CREATE_null f ERROR_NOMEM t h]
  · intro h
    exact ⟨_, AO_CREATE_ok f ERROR_NOMEM t h, rfl⟩

/-- Witness of C8: with a `libxl__ao_create` that returns `NULL`, the sample
initiator returns the error code at once. -/
theorem C8_AO_CREATE_null_returns_nomem_witness :
    (callees_nomem.libxl__ao_create thread_start.env).1 = 0 ∧
    ∃ t' : ao_thread Nat,
      AO_CREATE callees_nomem (-5) thread_start = .returned (-5) t' ∧
      ao_initiator callees_nomem (-5) (fun _ d e => (0, d, e)) thread_start =
        .returned (-5) t' ∧
      t'.lock_depth = thread_start.lock_depth ∧
      t'.env = (callees_nomem.libxl__ao_create thread_start.env).2 ∧
      t'.calls = thread_start.calls ++
        [⟨.libxl__ctx_lock, thread_start.lock_depth⟩,
         ⟨.libxl__ao_create, thread_start.lock_depth + 1⟩,
         ⟨.libxl__ctx_unlock, thread_start.lock_depth + 1⟩] :=
  ⟨by decide,
   (C8_AO_CREATE_null_returns_nomem callees_nomem (-5) (fun _ d e => (0, d, e))
      thread_start).1 (by decide)⟩


theorem ao_inv_init : ao_inv ao_machine_init where
  nodup := by simp [ao_machine_init, ao_machine.queued, ao_machine.called_back]
  cb := by simp [ao_machine_init]
  q := by simp [ao_machine_init]
  done := by simp [ao_machine_init]

theorem ao_inv_lock_depth (m : ao_machine) (d : Nat) (h : ao_inv m) :
    ao_inv { m with lock_depth := d } where
  nodup := h.nodup
  cb := h.cb
  q := h.q
  done := h.done

theorem ao_inv_create (m m' : ao_machine) (domid : Nat) (h : ao_inv m)
    (hs : libxl__ao_create m domid = some m') : ao_inv m' := by
  unfold libxl__ao_create at hs
  split_ifs at hs with hd
  simp only [Option.some.injEq] at hs
  subst hs
  have hold : ∀ (i : Nat) (a : libxl__ao), m.aos[i]? = some a →
      ∀ x : libxl__ao, (m.aos ++ [x])[i]? = some a := by
    intro i a hi x
    have hlt : i < m.aos.length := (List.getElem?_eq_some_iff.mp hi).1
    rw [List.getElem?_append_left hlt]
    exact hi
  refine ⟨h.nodup, ?_, ?_, ?_⟩
  · intro c hc
    obtain ⟨h0, a, ha, hcomp, hrc⟩ := h.cb c hc
    exact ⟨h0, a, hold _ _ ha _, hcomp, hrc⟩
  · intro q hq
    obtain ⟨a, ha, hcomp⟩ := h.q q hq
    exact ⟨a, hold _ _ ha _, hcomp⟩
  · intro i a hi hcomp
    by_cases hlt : i < m.aos.length
    · simp only [List.getElem?_append_left hlt] at hi
      exact h.done i a hi hcomp
    · exfalso
      have hge : m.aos.length ≤ i := by omega
      simp only [List.getElem?_append_right hge] at hi
      by_cases h0 : i - m.aos.length = 0
      · simp [h0] at hi
        subst hi
        simp at hcomp
      · have : 1 ≤ i - m.aos.length := by omega
        simp [List.getElem?_eq_none, this] at hi


theorem ao_inv_not_complete_fresh (m : ao_machine) (h : ao_inv m) (ao : Nat) (a : libxl__ao)
    (ha : m.aos[ao]? = some a) (hnc : a.complete ≠ true) :
    ao ∉ m.queued ∧ ao ∉ m.called_back := by
  constructor
  · intro hmem
    obtain ⟨q, hq, rfl⟩ := List.mem_map.mp hmem
    obtain ⟨a', ha', hcomp⟩ := h.q q hq
    rw [ha] at ha'
    cases ha'
    exact hnc hcomp
  · intro hmem
    obtain ⟨c, hc, rfl⟩ := List.mem_map.mp hmem
    obtain ⟨_, a', ha', hcomp, _⟩ := h.cb c hc
    rw [ha] at ha'
    cases ha'
    exact hnc hcomp

theorem ao_inv_complete (m m' : ao_machine) (egc ao : Nat) (rc : Int) (h : ao_inv m)
    (hs : libxl__ao_complete m egc ao rc = some m') : ao_inv m' := by
  unfold libxl__ao_complete at hs
  split_ifs at hs with hd
  cases ha : m.aos[ao]? with
  | none => simp [ha] at hs
  | some a =>
    simp only [ha] at hs
    split_ifs at hs with hbad
    simp only [Option.some.injEq] at hs
    subst hs
    have hnc : a.complete ≠ true := fun hc => hbad (Or.inr hc)
    obtain ⟨hnq, hncb⟩ := ao_inv_not_complete_fresh m h ao a ha hnc
    have hlt : ao < m.aos.length := (List.getElem?_eq_some_iff.mp ha).1
    have hother : ∀ (i : Nat) (x : libxl__ao), i ≠ ao → (m.aos.set ao x)[i]? = m.aos[i]? := by
      intro i x hne
      exact List.getElem?_set_ne (Ne.symm hne)
    have hself : ∀ x : libxl__ao, (m.aos.set ao x)[ao]? = some x := by
      intro x
      exact List.getElem?_set_self hlt
    refine ⟨?_, ?_, ?_, ?_⟩
    · have hnd := h.nodup
      simp only [ao_machine.queued, ao_machine.called_back, List.map_append, List.map_cons,
        List.map_nil, List.append_assoc, List.singleton_append] at hnd hnq hncb ⊢
      rw [List.nodup_append] at hnd ⊢
      obtain ⟨h1, h2, h3⟩ := hnd
      refine ⟨h1, List.nodup_cons.mpr ⟨hncb, h2⟩, ?_⟩
      intro x hx1 hx2
      rcases List.mem_cons.mp hx2 with rfl | hx2
      · exact hnq hx1
      · exact h3 hx1 hx2
    · intro c hc
      obtain ⟨h0, a', ha', hcomp, hrc⟩ := h.cb c hc
      have hne : c.ao ≠ ao := by
        intro heq
        exact hncb (List.mem_map.mpr ⟨c, hc, heq⟩)
      refine ⟨h0, a', ?_, hcomp, hrc⟩
      show (m.aos.set ao _)[c.ao]? = some a'
      rw [hother _ _ hne]
      exact ha'
    · intro q hq
      by_cases hne : q.2 = ao
      · refine ⟨{ a with complete := true, rc := rc }, ?_, rfl⟩
        show (m.aos.set ao { a with complete := true, rc := rc })[q.2]? = _
        rw [hne]
        exact hself _
      · have hq' : q ∈ m.aos_for_callback := by
          rcases List.mem_append.mp hq with hq | hq
          · exact hq
          · simp only [List.mem_singleton] at hq
            subst hq
            exact absurd rfl hne
        obtain ⟨a', ha', hcomp⟩ := h.q q hq'
        refine ⟨a', ?_, hcomp⟩
        show (m.aos.set ao _)[q.2]? = some a'
        rw [hother _ _ hne]
        exact ha'
    · intro i a' hi hcomp
      by_cases hne : i = ao
      · left
        subst hne
        simp [ao_machine.queued]
      · have hi' : m.aos[i]? = some a' := by
          rw [← hother i { a with complete := true, rc := rc } hne]
          exact hi
        rcases h.done i a' hi' hcomp with hq | hc
        · left
          simp only [ao_machine.queued, List.map_append, List.mem_append] at hq ⊢
          exact Or.inl hq
        · exact Or.inr hc


theorem aos_for_callback_split_perm (l : List (Nat × Nat)) (egc : Nat) :
    (((l.filter (fun q => q.1 = egc)).map (fun q => q.2)) ++
      ((l.filter (fun q => q.1 ≠ egc)).map (fun q => q.2))).Perm (l.map (fun q => q.2)) := by
  rw [← List.map_append]
  apply List.Perm.map
  have hfe : l.filter (fun q => decide (q.1 ≠ egc)) =
      l.filter (fun q => !(decide (q.1 = egc))) := by
    apply List.filter_congr
    intro x _
    simp
  rw [hfe]
  exact List.filter_append_perm _ l

theorem ao_inv_cleanup (m m' : ao_machine) (egc : Nat) (h : ao_inv m)
    (hs : libxl__egc_cleanup m egc = some m') : ao_inv m' := by
  unfold libxl__egc_cleanup at hs
  split_ifs at hs with hd
  simp only [Option.some.injEq] at hs
  subst hs
  have hd0 : m.lock_depth = 0 := by omega
  have hfwd : ∀ (i : Nat) (a : libxl__ao), m.aos[i]? = some a →
      ∃ a', (m.aos.mapIdx (fun i a =>
          if (egc, i) ∈ m.aos_for_callback then
            { a with notified := true, magic := LIBXL__AO_MAGIC_DESTROYED }
          else a))[i]? = some a' ∧ a'.complete = a.complete ∧ a'.rc = a.rc := by
    intro i a hi
    simp only [List.getElem?_mapIdx, hi, Option.map_some']
    split_ifs
    · exact ⟨_, rfl, rfl, rfl⟩
    · exact ⟨_, rfl, rfl, rfl⟩
  have hbwd : ∀ (i : Nat) (a' : libxl__ao), (m.aos.mapIdx (fun i a =>
          if (egc, i) ∈ m.aos_for_callback then
            { a with notified := true, magic := LIBXL__AO_MAGIC_DESTROYED }
          else a))[i]? = some a' →
      ∃ a, m.aos[i]? = some a ∧ a'.complete = a.complete := by
    intro i a' hi
    simp only [List.getElem?_mapIdx] at hi
    cases ha : m.aos[i]? with
    | none => simp [ha] at hi
    | some a =>
      simp only [ha, Option.map_some', Option.some.injEq] at hi
      subst hi
      refine ⟨a, rfl, ?_⟩
      split_ifs <;> rfl
  refine ⟨?_, ?_, ?_, ?_⟩
  · have hperm : ((m.aos_for_callback.filter (fun q => q.1 ≠ egc)).map (fun q => q.2) ++
        (m.called_back ++
          (m.aos_for_callback.filter (fun q => q.1 = egc)).map (fun q => q.2))).Perm
        (m.queued ++ m.called_back) := by
      have h1 := aos_for_callback_split_perm m.aos_for_callback egc
      have h2 : ((m.aos_for_callback.filter (fun q => q.1 ≠ egc)).map (fun q => q.2) ++
          (m.called_back ++
            (m.aos_for_callback.filter (fun q => q.1 = egc)).map (fun q => q.2))).Perm
          (((m.aos_for_callback.filter (fun q => q.1 = egc)).map (fun q => q.2) ++
            (m.aos_for_callback.filter (fun q => q.1 ≠ egc)).map (fun q => q.2)) ++
              m.called_back) := by
        rw [← List.append_assoc]
        refine List.Perm.trans List.perm_append_comm ?_
        rw [← List.append_assoc]
      exact h2.trans (h1.append_right _)
    have hnd := hperm.nodup_iff.mpr h.nodup
    simpa [ao_machine.queued, ao_machine.called_back, List.map_append, List.map_map,
      Function.comp_def] using hnd
  · intro c hc
    rcases List.mem_append.mp hc with hc | hc
    · obtain ⟨h0, a, ha, hcomp, hrc⟩ := h.cb c hc
      obtain ⟨a', ha', hc', hr'⟩ := hfwd _ _ ha
      exact ⟨h0, a', ha', hc'.trans hcomp, hr'.trans hrc⟩
    · obtain ⟨q, hq, rfl⟩ := List.mem_map.mp hc
      have hq' : q ∈ m.aos_for_callback := (List.mem_filter.mp hq).1
      obtain ⟨a, ha, hcomp⟩ := h.q q hq'
      obtain ⟨a', ha', hc', hr'⟩ := hfwd _ _ ha
      refine ⟨hd0, a', ha', hc'.trans hcomp, ?_⟩
      simp [ha, hr']
  · intro q hq
    have hq' : q ∈ m.aos_for_callback := (List.mem_filter.mp hq).1
    obtain ⟨a, ha, hcomp⟩ := h.q q hq'
    obtain ⟨a', ha', hc', _⟩ := hfwd _ _ ha
    exact ⟨a', ha', hc'.trans hcomp⟩
  · intro i a' hi hcomp
    obtain ⟨a, ha, hca⟩ := hbwd i a' hi
    rcases h.done i a ha (hca ▸ hcomp) with hmem | hc
    · obtain ⟨q, hq, rfl⟩ := List.mem_map.mp hmem
      by_cases he : q.1 = egc
      · right
        simp only [ao_machine.called_back, List.map_append, List.map_map, List.mem_append,
          List.mem_map, Function.comp_def]
        exact Or.inr ⟨q, List.mem_filter.mpr ⟨hq, by simpa using he⟩, rfl⟩
      · left
        exact List.mem_map.mpr ⟨q, List.mem_filter.mpr ⟨hq, by simpa using he⟩, rfl⟩
    · right
      simp only [ao_machine.called_back, List.map_append, List.mem_append] at hc ⊢
      exact Or.inl hc

theorem ao_inv_step (m m' : ao_machine) (op : ao_op) (h : ao_inv m)
    (hs : ao_step m op = some m') : ao_inv m' := by
  cases op with
  | ctx_lock =>
    simp only [ao_step, Option.some.injEq] at hs
    subst hs
    exact ao_inv_lock_depth m _ h
  | ctx_unlock =>
    simp only [ao_step] at hs
    split_ifs at hs
    simp only [Option.some.injEq] at hs
    subst hs
    exact ao_inv_lock_depth m _ h
  | ao_create domid => exact ao_inv_create m m' domid h hs
  | ao_complete egc ao rc => exact ao_inv_complete m m' egc ao rc h hs
  | egc_cleanup egc => exact ao_inv_cleanup m m' egc h hs

theorem ao_inv_run (ops : List ao_op) :
    ∀ m m' : ao_machine, ao_inv m → ao_run m ops = some m' → ao_inv m' := by
  induction ops with
  | nil =>
    intro m m' h hs
    simp only [ao_run, Option.some.injEq] at hs
    subst hs
    exact h
  | cons op ops ih =>
    intro m m' h hs
    simp only [ao_run] at hs
    cases hstep : ao_step m op with
    | none => simp [hstep] at hs
    | some m1 =>
      simp only [hstep, Option.some_bind] at hs
      exact ih m1 m' (ao_inv_step m m1 op h hstep) hs


/-- C9: in every state the ao machinery reaches from its initial state by
calls that keep the calling rules, no ao has had its completion callback more
than once; every callback was made without the ctx lock, for an ao that
`libxl__ao_complete` had completed, with the result code recorded there; no ao
is queued for callback more than once, counting those already delivered; only
`libxl__ao_complete` adds to the queue and every queued ao is complete; every
complete ao is queued or called back; and the cleanup of an egc makes the
callback of each ao queued on it exactly once. -/
theorem C9_completion_callback_exactly_once (ops : List ao_op) (m : ao_machine)
    (hrun : ao_run ao_machine_init ops = some m) :
    (∀ ao : Nat, m.called_back.count ao ≤ 1) ∧
    (∀ c ∈ m.callbacks, c.lock_depth = 0 ∧
      ∃ a, m.aos[c.ao]? = some a ∧ a.complete = true ∧ a.rc = c.rc) ∧
    (∀ ao : Nat, m.queued.count ao + m.called_back.count ao ≤ 1) ∧
    (∀ q ∈ m.aos_for_callback, ∃ a, m.aos[q.2]? = some a ∧ a.complete = true) ∧
    (∀ (op : ao_op) (m' : ao_machine), ao_step m op = some m' →
      (∀ egc ao rc, op ≠ .ao_complete egc ao rc) → ∀ x ∈ m'.queued, x ∈ m.queued) ∧
    (∀ (i : Nat) (a : libxl__ao), m.aos[i]? = some a → a.complete = true →
      i ∈ m.queued ∨ i ∈ m.called_back) ∧
    (∀ (egc : Nat) (m' : ao_machine), libxl__egc_cleanup m egc = some m' →
      ∀ q ∈ m.aos_for_callback, q.1 = egc →
        m'.called_back.count q.2 = 1 ∧ q.2 ∉ m'.queued) := by
  have hinv : ao_inv m := ao_inv_run ops ao_machine_init m ao_inv_init hrun
  have hcount : ∀ (k : ao_machine), ao_inv k →
      ∀ ao : Nat, k.queued.count ao + k.called_back.count ao ≤ 1 := by
    intro k hk ao
    have := List.nodup_iff_count_le_one.mp hk.nodup ao
    rwa [List.count_append] at this
  refine ⟨?_, hinv.cb, hcount m hinv, hinv.q, ?_, hinv.done, ?_⟩
  · intro ao
    have := hcount m hinv ao
    omega
  · intro op m' hs hop x hx
    cases op with
    | ctx_lock =>
      simp only [ao_step, Option.some.injEq] at hs
      subst hs
      exact hx
    | ctx_unlock =>
      simp only [ao_step] at hs
      split_ifs at hs
      simp only [Option.some.injEq] at hs
      subst hs
      exact hx
    | ao_create domid =>
      simp only [ao_step, libxl__ao_create] at hs
      split_ifs at hs
      simp only [Option.some.injEq] at hs
      subst hs
      exact hx
    | ao_complete egc ao rc => exact absurd rfl (hop egc ao rc)
    | egc_cleanup egc =>
      simp only [ao_step, libxl__egc_cleanup] at hs
      split_ifs at hs
      simp only [Option.some.injEq] at hs
      subst hs
      obtain ⟨q, hq, rfl⟩ := List.mem_map.mp hx
      exact List.mem_map.mpr ⟨q, (List.mem_filter.mp hq).1, rfl⟩
  · intro egc m' hs q hq he
    have hinv' : ao_inv m' := ao_inv_cleanup m m' egc hinv hs
    have hmem : q.2 ∈ m'.called_back := by
      unfold libxl__egc_cleanup at hs
      split_ifs at hs
      simp only [Option.some.injEq] at hs
      subst hs
      simp only [ao_machine.called_back, List.map_append, List.map_map, List.mem_append,
        List.mem_map, Function.comp_def]
      exact Or.inr ⟨q, List.mem_filter.mpr ⟨hq, by simpa using he⟩, rfl⟩
    have h1 : 1 ≤ m'.called_back.count q.2 := List.count_pos_iff.mpr hmem
    have h2 := hcount m' hinv' q.2
    refine ⟨by omega, ?_⟩
    intro hqd
    have h3 : 1 ≤ m'.queued.count q.2 := List.count_pos_iff.mpr hqd
    omega

/-- Witness of C9: the sample ao is called back once, with its result code 7,
without the lock. -/
theorem C9_completion_callback_exactly_once_witness :
    ao_run ao_machine_init ao_ops_sample = some ao_machine_sample ∧
    (∀ ao : Nat, ao_machine_sample.called_back.count ao ≤ 1) ∧
    (∀ c ∈ ao_machine_sample.callbacks, c.lock_depth = 0 ∧
      ∃ a, ao_machine_sample.aos[c.ao]? = some a ∧ a.complete = true ∧ a.rc = c.rc) :=
  ⟨by decide,
   (C9_completion_callback_exactly_once ao_ops_sample ao_machine_sample (by decide)).1,
   (C9_completion_callback_exactly_once ao_ops_sample ao_machine_sample (by decide)).2.1⟩


theorem two_pow_32 : (2 : Nat) ^ 32 = 4294967296 := by norm_num

theorem xswatch_step_counter (ctx : libxl__ctx) (op : xswatch_op) :
    (xswatch_step ctx op).watch_counter =
      if xswatch_registrations [op] = 0 then ctx.watch_counter
      else (ctx.watch_counter + 1) % 2 ^ 32 := by
  cases op with
  | register xsw_out func path store_rc =>
    simp only [xswatch_step, libxl__ev_xswatch_register, xswatch_registrations]
    by_cases h : store_rc = 0
    · simp [h]
    · simp [h]
  | deregister w =>
    simp only [xswatch_step, libxl__ev_xswatch_deregister, xswatch_registrations]
    split_ifs <;> simp

theorem xswatch_registrations_cons (op : xswatch_op) (ops : List xswatch_op) :
    xswatch_registrations (op :: ops) =
      xswatch_registrations [op] + xswatch_registrations ops := by
  cases op <;> simp [xswatch_registrations]

theorem xswatch_registrations_single_le (op : xswatch_op) :
    xswatch_registrations [op] ≤ 1 := by
  cases op with
  | register _ _ _ store_rc =>
    simp only [xswatch_registrations]
    split_ifs <;> simp
  | deregister _ => simp [xswatch_registrations]

/-- The watch counter after a run is the counter before it plus the number of
registrations, modulo `2^32`. -/
theorem xswatch_run_counter (ops : List xswatch_op) :
    ∀ ctx : libxl__ctx, ctx.watch_counter < 2 ^ 32 →
      (xswatch_run ctx ops).watch_counter =
        (ctx.watch_counter + xswatch_registrations ops) % 2 ^ 32 := by
  induction ops with
  | nil =>
    intro ctx h
    simp only [xswatch_run, List.foldl_nil, xswatch_registrations, Nat.add_zero]
    exact (Nat.mod_eq_of_lt h).symm
  | cons op ops ih =>
    intro ctx h
    have hstep := xswatch_step_counter ctx op
    have hle := xswatch_registrations_single_le op
    have hlt : (xswatch_step ctx op).watch_counter < 2 ^ 32 := by
      rw [hstep]
      split_ifs
      · exact h
      · exact Nat.mod_lt _ (by norm_num)
    have := ih (xswatch_step ctx op) hlt
    have hcons := xswatch_registrations_cons op ops
    simp only [xswatch_run, List.foldl_cons] at this ⊢
    rw [this, hcons]
    rw [two_pow_32] at *
    by_cases h0 : xswatch_registrations [op] = 0
    · rw [hstep, if_pos h0, h0, Nat.zero_add]
    · have h1 : xswatch_registrations [op] = 1 := by omega
      rw [hstep, if_neg h0, h1]
      omega


/-- A successful registration writes the new watch, which carries the current
counter value, into one slot of the table or of the table extended by a free
slot, and moves the counter on. -/
theorem libxl__ev_xswatch_register_ok (ctx : libxl__ctx) (xsw_out : libxl__ev_xswatch)
    (func path : Ptr) :
    ∃ (n : Nat) (slots0 : List (Option libxl__ev_xswatch)) (fs : List Nat),
      (slots0 = ctx.watch_slots ∨ slots0 = ctx.watch_slots ++ [none]) ∧
      libxl__ev_xswatch_register ctx xsw_out func path 0 =
        (0,
         { ctx with
           watch_slots := slots0.set n
             (some { xsw_out with path := path, callback := func, slotnum := (n : Int),
                                  counterval := ctx.watch_counter }),
           watch_freeslots := fs,
           watch_counter := (ctx.watch_counter + 1) % 2 ^ 32 },
         { xsw_out with path := path, callback := func, slotnum := (n : Int),
                        counterval := ctx.watch_counter }) := by
  unfold libxl__ev_xswatch_register
  cases hfree : ctx.watch_freeslots with
  | nil => exact ⟨ctx.watch_slots.length, ctx.watch_slots ++ [none], [], Or.inr rfl, by simp⟩
  | cons use rest => exact ⟨use, ctx.watch_slots, rest, Or.inl rfl, by simp⟩

theorem watch_slots_extend_live (slots slots0 : List (Option libxl__ev_xswatch)) (s : Nat)
    (w : libxl__ev_xswatch) (h0 : slots0 = slots ∨ slots0 = slots ++ [none])
    (h : slots0[s]? = some (some w)) : slots[s]? = some (some w) := by
  rcases h0 with rfl | rfl
  · exact h
  · rw [List.getElem?_append] at h
    split_ifs at h with hlt
    · exact h
    · exfalso
      by_cases hz : s - slots.length = 0
      · simp [hz] at h
      · have : 1 ≤ s - slots.length := by omega
        simp [List.getElem?_eq_none, this] at h

/-- One call into the watch part keeps the fact that slot `s` is free or holds
a watch registered after the counter value `c` was given out. -/
theorem xswatch_step_slot (s c k : Nat) (ctx : libxl__ctx) (op : xswatch_op)
    (hc : ctx.watch_counter = (c + 1 + k) % 2 ^ 32)
    (hs : ∀ w, ctx.watch_slots[s]? = some (some w) →
      ∃ j, 1 ≤ j ∧ j ≤ k ∧ w.counterval = (c + j) % 2 ^ 32) :
    (xswatch_step ctx op).watch_counter =
        (c + 1 + (k + xswatch_registrations [op])) % 2 ^ 32 ∧
    ∀ w, (xswatch_step ctx op).watch_slots[s]? = some (some w) →
      ∃ j, 1 ≤ j ∧ j ≤ k + xswatch_registrations [op] ∧ w.counterval = (c + j) % 2 ^ 32 := by
  cases op with
  | register xsw_out func path store_rc =>
    by_cases hrc : store_rc = 0
    · subst hrc
      obtain ⟨n, slots0, fs, h0, hreg⟩ := libxl__ev_xswatch_register_ok ctx xsw_out func path
      simp only [xswatch_step, hreg, xswatch_registrations]
      constructor
      · rw [hc, two_pow_32]
        simp
        omega
      · intro w hw
        by_cases hn : n = s
        · subst hn
          by_cases hlt : n < slots0.length
          · rw [List.getElem?_set_self hlt] at hw
            simp only [Option.some.injEq] at hw
            subst hw
            refine ⟨k + 1, by omega, by simp, ?_⟩
            simp only [hc]
            congr 1
            omega
          · rw [List.getElem?_eq_none (by simp; omega)] at hw
            cases hw
        · rw [List.getElem?_set_ne hn] at hw
          obtain ⟨j, h1, h2, h3⟩ := hs w (watch_slots_extend_live _ _ s w h0 hw)
          exact ⟨j, h1, by omega, h3⟩
    · have hfail : libxl__ev_xswatch_register ctx xsw_out func path store_rc =
          (store_rc, ctx, libxl__ev_xswatch_init xsw_out) := by
        simp [libxl__ev_xswatch_register, hrc]
      simp only [xswatch_step, hfail, xswatch_registrations]
      simp only [ne_eq, hrc, not_false_eq_true, if_true, Nat.add_zero]
      exact ⟨hc, hs⟩
  | deregister w0 =>
    simp only [xswatch_step, libxl__ev_xswatch_deregister, xswatch_registrations, Nat.add_zero]
    split_ifs with hidle
    · exact ⟨hc, hs⟩
    · refine ⟨hc, ?_⟩
      intro w hw
      by_cases hn : w0.slotnum.toNat = s
      · exfalso
        subst hn
        by_cases hlt : w0.slotnum.toNat < ctx.watch_slots.length
        · simp only [List.getElem?_set_self hlt] at hw
          cases hw
        · rw [List.getElem?_eq_none (by simp; omega)] at hw
          cases hw
      · simp only [List.getElem?_set_ne hn] at hw
        exact hs w hw

theorem xswatch_run_slot (s c : Nat) (ops : List xswatch_op) :
    ∀ (k : Nat) (ctx : libxl__ctx),
      ctx.watch_counter = (c + 1 + k) % 2 ^ 32 →
      (∀ w, ctx.watch_slots[s]? = some (some w) →
        ∃ j, 1 ≤ j ∧ j ≤ k ∧ w.counterval = (c + j) % 2 ^ 32) →
      ∀ w, (xswatch_run ctx ops).watch_slots[s]? = some (some w) →
        ∃ j, 1 ≤ j ∧ j ≤ k + xswatch_registrations ops ∧
          w.counterval = (c + j) % 2 ^ 32 := by
  induction ops with
  | nil =>
    intro k ctx _ hs w hw
    simpa [xswatch_run, xswatch_registrations] using hs w hw
  | cons op ops ih =>
    intro k ctx hc hs w hw
    obtain ⟨hc', hs'⟩ := xswatch_step_slot s c k ctx op hc hs
    have := ih (k + xswatch_registrations [op]) (xswatch_step ctx op) hc' hs' w
      (by simpa [xswatch_run] using hw)
    rw [xswatch_registrations_cons]
    obtain ⟨j, h1, h2, h3⟩ := this
    exact ⟨j, h1, by omega, h3⟩


/-- An event that names a slot whose live watch, if any, carries another
counter value than the event is dropped. -/
theorem watch_event_dispatch_stale (ctx : libxl__ctx) (n c : Nat)
    (h : ∀ w, ctx.watch_slots[n]? = some (some w) → w.counterval ≠ c) :
    watch_event_dispatch ctx ((n : Int), c) = none := by
  unfold watch_event_dispatch libxl__watch_slot_contents
  have hneg : ¬ ((n : Int) < 0) := by omega
  simp only [hneg, if_false, Int.toNat_ofNat, List.get?_eq_getElem?]
  cases hslot : ctx.watch_slots[n]? with
  | none => rfl
  | some o =>
    cases o with
    | none => rfl
    | some w =>
      have := h w hslot
      simp [this]

/-- A successful registration, seen from outside: the watch carries the slot
number and the current counter value, sits in its slot if the table has it,
and the counter has moved on. -/
theorem libxl__ev_xswatch_register_ok_abs (ctx : libxl__ctx) (xsw_out : libxl__ev_xswatch)
    (func path : Ptr) :
    ∃ (n : Nat) (ctx1 : libxl__ctx) (w : libxl__ev_xswatch),
      libxl__ev_xswatch_register ctx xsw_out func path 0 = (0, ctx1, w) ∧
      w.slotnum = (n : Int) ∧ w.counterval = ctx.watch_counter ∧
      ctx1.watch_counter = (ctx.watch_counter + 1) % 2 ^ 32 := by
  obtain ⟨n, slots0, fs, _, hreg⟩ := libxl__ev_xswatch_register_ok ctx xsw_out func path
  exact ⟨n, _, _, hreg, rfl, rfl, rfl⟩

theorem libxl__ev_xswatch_deregister_slot (ctx : libxl__ctx) (w : libxl__ev_xswatch) (n : Nat)
    (hn : w.slotnum = (n : Int)) :
    (libxl__ev_xswatch_deregister ctx w).1.watch_counter = ctx.watch_counter ∧
    ∀ w', (libxl__ev_xswatch_deregister ctx w).1.watch_slots[n]? ≠ some (some w') := by
  have hreg : libxl__ev_xswatch_isregistered w ≠ 0 := by
    simp [libxl__ev_xswatch_isregistered, hn]
  simp only [libxl__ev_xswatch_deregister, hreg, if_false, hn, Int.toNat_ofNat]
  refine ⟨trivial, ?_⟩
  intro w' hw'
  by_cases hlt : n < ctx.watch_slots.length
  · simp only [List.getElem?_set_self hlt] at hw'
    cases hw'
  · rw [List.getElem?_eq_none (by simp; omega)] at hw'
    cases hw'

/-- C10: let a watch be registered and then deregistered. Whatever calls into
the watch part follow, as long as they hold fewer than `2^32` registrations,
an event that carries the token of the old watch is delivered to no watch, also
when a new watch sits in the same slot. A watch registered after it, at most
`2^32 - 1` registrations later, has another token, and the watch registered
exactly `2^32` registrations later is the first to repeat its counter value. -/
theorem C10_watch_counter_disambiguates_slot_reuse (ctx : libxl__ctx)
    (xsw_out : libxl__ev_xswatch) (func path : Ptr) (ops : List xswatch_op) :
    (xswatch_registrations ops < 2 ^ 32 →
      watch_event_dispatch
        (xswatch_run
          (libxl__ev_xswatch_deregister
            (libxl__ev_xswatch_register ctx xsw_out func path 0).2.1
            (libxl__ev_xswatch_register ctx xsw_out func path 0).2.2).1 ops)
        (watch_token (libxl__ev_xswatch_register ctx xsw_out func path 0).2.2) = none) ∧
    (∀ (xsw2 : libxl__ev_xswatch) (func2 path2 : Ptr),
      xswatch_registrations ops + 1 < 2 ^ 32 →
      watch_token (libxl__ev_xswatch_register
          (xswatch_run (libxl__ev_xswatch_register ctx xsw_out func path 0).2.1 ops)
          xsw2 func2 path2 0).2.2 ≠
        watch_token (libxl__ev_xswatch_register ctx xsw_out func path 0).2.2) ∧
    (∀ (xsw2 : libxl__ev_xswatch) (func2 path2 : Ptr),
      ctx.watch_counter < 2 ^ 32 →
      xswatch_registrations ops + 1 = 2 ^ 32 →
      (libxl__ev_xswatch_register
          (xswatch_run (libxl__ev_xswatch_register ctx xsw_out func path 0).2.1 ops)
          xsw2 func2 path2 0).2.2.counterval =
        (libxl__ev_xswatch_register ctx xsw_out func path 0).2.2.counterval) := by
  obtain ⟨n, ctx1, w0, hreg, hslot, hcv, hctr1⟩ :=
    libxl__ev_xswatch_register_ok_abs ctx xsw_out func path
  rw [hreg]
  simp only
  have hlt1 : ctx1.watch_counter < 2 ^ 32 := by
    rw [hctr1]
    exact Nat.mod_lt _ (by norm_num)
  refine ⟨?_, ?_, ?_⟩
  · intro hn
    obtain ⟨hdc, hds⟩ := libxl__ev_xswatch_deregister_slot ctx1 w0 n hslot
    have htok : watch_token w0 = ((n : Int), ctx.watch_counter) := by
      simp [watch_token, hslot, hcv]
    rw [htok]
    apply watch_event_dispatch_stale
    intro w hw
    obtain ⟨j, h1, h2, h3⟩ := xswatch_run_slot n ctx.watch_counter ops 0 _
      (by rw [hdc, hctr1]) (fun w' hw' => absurd hw' (hds w')) w hw
    rw [h3]
    rw [two_pow_32] at *
    omega
  · intro xsw2 func2 path2 hn
    obtain ⟨n2, ctx2, w2, hreg2, _, hcv2, _⟩ :=
      libxl__ev_xswatch_register_ok_abs (xswatch_run ctx1 ops) xsw2 func2 path2
    rw [hreg2]
    simp only [watch_token, ne_eq, Prod.mk.injEq, not_and]
    intro _
    rw [hcv2, hcv, xswatch_run_counter ops _ hlt1, hctr1]
    rw [two_pow_32] at *
    omega
  · intro xsw2 func2 path2 hctr hn
    obtain ⟨n2, ctx2, w2, hreg2, _, hcv2, _⟩ :=
      libxl__ev_xswatch_register_ok_abs (xswatch_run ctx1 ops) xsw2 func2 path2
    rw [hreg2]
    simp only
    rw [hcv2, hcv, xswatch_run_counter ops _ hlt1, hctr1]
    rw [two_pow_32] at *
    omega


/-- Witness of C10: on the empty context a watch is registered and
deregistered, and a new watch is registered, which takes the same slot 0; an
event with the token of the old watch is dropped. -/
theorem C10_watch_counter_disambiguates_slot_reuse_witness :
    xswatch_registrations [.register ev_xswatch_zero 9 5 0] < 2 ^ 32 ∧
    (libxl__ev_xswatch_register ctx_empty ev_xswatch_zero 9 4 0).2.2.slotnum = 0 ∧
    libxl__watch_slot_contents
        (xswatch_run
          (libxl__ev_xswatch_deregister
            (libxl__ev_xswatch_register ctx_empty ev_xswatch_zero 9 4 0).2.1
            (libxl__ev_xswatch_register ctx_empty ev_xswatch_zero 9 4 0).2.2).1
          [.register ev_xswatch_zero 9 5 0]) 0 =
      some { path := 5, callback := 9, slotnum := 0, counterval := 1 } ∧
    watch_event_dispatch
        (xswatch_run
          (libxl__ev_xswatch_deregister
            (libxl__ev_xswatch_register ctx_empty ev_xswatch_zero 9 4 0).2.1
            (libxl__ev_xswatch_register ctx_empty ev_xswatch_zero 9 4 0).2.2).1
          [.register ev_xswatch_zero 9 5 0])
        (watch_token (libxl__ev_xswatch_register ctx_empty ev_xswatch_zero 9 4 0).2.2) = none :=
  ⟨by decide, by decide, by decide,
   (C10_watch_counter_disambiguates_slot_reuse ctx_empty ev_xswatch_zero 9 4
      [.register ev_xswatch_zero 9 5 0]).1 (by decide)⟩

/-- C14: each init function is idempotent: for every starting struct value,
applying it twice gives the same struct, field for field, as applying it
once; this holds for the four event-source kinds and for
`libxl__ev_devstate_init`. -/
theorem C14_init_idempotent :
    (∀ efd : libxl__ev_fd,
      libxl__ev_fd_init (libxl__ev_fd_init efd) = libxl__ev_fd_init efd) ∧
    (∀ ev : libxl__ev_time,
      libxl__ev_time_init (libxl__ev_time_init ev) = libxl__ev_time_init ev) ∧
    (∀ xw : libxl__ev_xswatch,
      libxl__ev_xswatch_init (libxl__ev_xswatch_init xw) = libxl__ev_xswatch_init xw) ∧
    (∀ cw : libxl__ev_child,
      libxl__ev_child_init (libxl__ev_child_init cw) = libxl__ev_child_init cw) ∧
    (∀ ds : libxl__ev_devstate,
      libxl__ev_devstate_init (libxl__ev_devstate_init ds) = libxl__ev_devstate_init ds) := by
  refine ⟨?_, ?_, ?_, ?_, ?_⟩ <;> intro s <;> rfl

/-- C17: the structs of the kinds fd, xswatch and child filled with zero bytes
are reported as registered or in use, and so is every struct whose marker
field (`fd`, `slotnum`, `pid`) is 0, while the same struct after `_init` is
not; zero-filling does not stand in for `_init`. -/
theorem C17_all_bits_zero_is_not_idle :
    libxl__ev_fd_isregistered ev_fd_zero = 1 ∧
    libxl__ev_xswatch_isregistered ev_xswatch_zero = 1 ∧
    libxl__ev_child_inuse ev_child_zero = 1 ∧
    (∀ efd : libxl__ev_fd, libxl__ev_fd_isregistered { efd with fd := 0 } = 1) ∧
    (∀ xw : libxl__ev_xswatch, libxl__ev_xswatch_isregistered { xw with slotnum := 0 } = 1) ∧
    (∀ cw : libxl__ev_child, libxl__ev_child_inuse { cw with pid := 0 } = 1) ∧
    libxl__ev_fd_init ev_fd_zero ≠ ev_fd_zero ∧
    libxl__ev_xswatch_init ev_xswatch_zero ≠ ev_xswatch_zero ∧
    libxl__ev_child_init ev_child_zero ≠ ev_child_zero := by
  refine ⟨rfl, rfl, rfl, fun _ => rfl, fun _ => rfl, fun _ => rfl, ?_, ?_, ?_⟩ <;> decide

/-- C18: `LIBXL__AO_MAGIC` and `LIBXL__AO_MAGIC_DESTROYED` are `0xA0FACE00`
and `0xA0DEAD00`; both are stored in the `uint32_t` field `magic` without
truncation, and the stored values of a live ao, of a destroyed ao and of
zero-filled memory are pairwise distinct. -/
theorem C18_magic_tags_distinct :
    LIBXL__AO_MAGIC = 0xA0FACE00 ∧ LIBXL__AO_MAGIC_DESTROYED = 0xA0DEAD00 ∧
    uint32_store LIBXL__AO_MAGIC = LIBXL__AO_MAGIC ∧
    uint32_store LIBXL__AO_MAGIC_DESTROYED = LIBXL__AO_MAGIC_DESTROYED ∧
    LIBXL__AO_MAGIC < 2 ^ 32 ∧ LIBXL__AO_MAGIC_DESTROYED < 2 ^ 32 ∧
    uint32_store LIBXL__AO_MAGIC ≠ uint32_store LIBXL__AO_MAGIC_DESTROYED ∧
    uint32_store LIBXL__AO_MAGIC ≠ uint32_store 0 ∧
    uint32_store LIBXL__AO_MAGIC_DESTROYED ≠ uint32_store 0 := by
  unfold uint32_store LIBXL__AO_MAGIC LIBXL__AO_MAGIC_DESTROYED
  refine ⟨rfl, rfl, ?_, ?_, ?_, ?_, ?_, ?_, ?_⟩ <;> norm_num

/-- C19: for every value `c` the argument that `CTYPE(isfoo, c)` passes to
`isfoo` is `c` reduced modulo 256; it lies in 0..255, so it is not negative
and is no negative `EOF`; for `c` in 0..127 it is `c` itself and for a
negative `signed char` value it is `c + 256`. -/
theorem C19_CTYPE_argument_is_unsigned_char (isfoo : Int → Int) (c : Int) :
    CTYPE isfoo c = isfoo (c % 256) ∧
    0 ≤ unsigned_char_cast c ∧ unsigned_char_cast c ≤ 255 ∧
    (∀ eof : Int, eof < 0 → unsigned_char_cast c ≠ eof) ∧
    (0 ≤ c → c ≤ 127 → unsigned_char_cast c = c ∧ CTYPE isfoo c = isfoo c) ∧
    (-128 ≤ c → c < 0 → unsigned_char_cast c = c + 256) := by
  unfold CTYPE unsigned_char_cast
  refine ⟨rfl, by omega, by omega, ?_, ?_, ?_⟩
  · intro eof h
    omega
  · intro h0 h1
    have : c % 256 = c := by omega
    exact ⟨this, by rw [this]⟩
  · intro h0 h1
    omega

/-- Witness of C19: for the characters 65 and -1 the argument is 65 and 255. -/
theorem C19_CTYPE_argument_is_unsigned_char_witness :
    (unsigned_char_cast 65 = 65 ∧ CTYPE (fun x => x + 1) 65 = (fun x => x + 1) 65) ∧
    unsigned_char_cast (-1) = -1 + 256 :=
  ⟨(C19_CTYPE_argument_is_unsigned_char (fun x => x + 1) 65).2.2.2.2.1 (by decide) (by decide),
   (C19_CTYPE_argument_is_unsigned_char (fun x => x + 1) (-1)).2.2.2.2.2 (by decide)
     (by decide)⟩

/-- C20: for every prior content, after `libxl__ev_devstate_init` the embedded
timeout and the embedded watch are both reported as not registered, and the
struct differs from the prior one in `timeout.func` and `watch.slotnum` only. -/
theorem C20_devstate_init_idle_and_frame (ds : libxl__ev_devstate) :
    libxl__ev_time_isregistered (libxl__ev_devstate_init ds).timeout = 0 ∧
    libxl__ev_xswatch_isregistered (libxl__ev_devstate_init ds).watch = 0 ∧
    libxl__ev_devstate_init ds =
      { ds with timeout := { ds.timeout with func := 0 },
                watch := { ds.watch with slotnum := -1 } } ∧
    (libxl__ev_devstate_init ds).wanted = ds.wanted ∧
    (libxl__ev_devstate_init ds).callback = ds.callback ∧
    (libxl__ev_devstate_init ds).watch.path = ds.watch.path ∧
    (libxl__ev_devstate_init ds).watch.callback = ds.watch.callback ∧
    (libxl__ev_devstate_init ds).watch.counterval = ds.watch.counterval ∧
    (libxl__ev_devstate_init ds).timeout.infinite = ds.timeout.infinite ∧
    (libxl__ev_devstate_init ds).timeout.entry = ds.timeout.entry ∧
    (libxl__ev_devstate_init ds).timeout.abs = ds.timeout.abs ∧
    (libxl__ev_devstate_init ds).timeout.for_app_reg = ds.timeout.for_app_reg := by
  refine ⟨rfl, rfl, rfl, rfl, rfl, rfl, rfl, rfl, rfl, rfl, rfl, rfl⟩

/-- For an element size whose double fits `size_t`, `ARRAY_SIZE_OK` is the
exact comparison of `nmemb` with `INT_MAX / (2 * sizeof)`. -/
theorem ARRAY_SIZE_OK_exact (size_bits s n : Nat) (hs : 1 ≤ s)
    (hobj : s < 2 ^ (size_bits - 1)) :
    ARRAY_SIZE_OK size_bits s n = some (decide (n < INT_MAX / (2 * s))) := by
  have hpow : 2 ^ (size_bits - 1) * 2 ≤ 2 ^ size_bits := by
    cases size_bits with
    | zero => simp at hobj; omega
    | succ k => simp [Nat.pow_succ]
  have hlt : s * 2 < 2 ^ size_bits := by omega
  unfold ARRAY_SIZE_OK
  rw [Nat.mod_eq_of_lt hlt]
  have hne : s * 2 ≠ 0 := by omega
  simp [hne, Nat.mul_comm]

/-- A count below `INT_MAX / (2 * s)` gives a product `n * s` of at most
`(INT_MAX - 2 * s) / 2`. -/
theorem array_size_bound (s n : Nat) (hs : 1 ≤ s) (h : n < INT_MAX / (2 * s)) :
    2 * (n * s) + 2 * s ≤ INT_MAX := by
  have h1 : n + 1 ≤ INT_MAX / (2 * s) := h
  have h2 : (n + 1) * (2 * s) ≤ INT_MAX := (Nat.le_div_iff_mul_le (by omega)).mp h1
  calc 2 * (n * s) + 2 * s = (n + 1) * (2 * s) := by ring
    _ ≤ INT_MAX := h2

/-- Reading two token lists one after the other is reading the second from the
depth the first ends at. -/
theorem paren_depth_append (a b : List pp_token) :
    ∀ d, paren_depth (a ++ b) d = (paren_depth a d).bind (paren_depth b) := by
  induction a with
  | nil => intro d; rfl
  | cons t rest ih =>
    intro d
    rw [List.cons_append]
    cases t with
    | lparen => simp only [paren_depth]; exact ih _
    | rparen =>
      cases d with
      | zero => simp only [paren_depth, Option.none_bind]
      | succ k => simp only [paren_depth]; exact ih _
    | param name => simp only [paren_depth]; exact ih _
    | other s => simp only [paren_depth]; exact ih _

/-- A token list read from one level deeper ends one level deeper. -/
theorem paren_depth_succ (l : List pp_token) :
    ∀ d e, paren_depth l d = some e → paren_depth l (d + 1) = some (e + 1) := by
  induction l with
  | nil => intro d e h; simp only [paren_depth, Option.some.injEq] at h ⊢; omega
  | cons t rest ih =>
    intro d e h
    cases t with
    | lparen => simp only [paren_depth] at h ⊢; exact ih _ _ h
    | rparen =>
      cases d with
      | zero => simp only [paren_depth] at h; cases h
      | succ k => simp only [paren_depth] at h ⊢; exact ih _ _ h
    | param name => simp only [paren_depth] at h ⊢; exact ih _ _ h
    | other s => simp only [paren_depth] at h ⊢; exact ih _ _ h

/-- Arguments with matched parentheses leave the nesting of a replacement list
as it is. -/
theorem paren_depth_pp_expand (args : String → List pp_token)
    (hargs : ∀ name e, paren_depth (args name) e = some e) (l : List pp_token) :
    ∀ d, paren_depth (pp_expand args l) d = paren_depth l d := by
  induction l with
  | nil => intro d; rfl
  | cons t rest ih =>
    intro d
    cases t with
    | lparen => simp only [pp_expand, paren_depth, ih]
    | rparen =>
      cases d with
      | zero => simp only [pp_expand, paren_depth]
      | succ k => simp only [pp_expand, paren_depth, ih]
    | param name =>
      simp only [pp_expand, paren_depth, paren_depth_append, hargs, Option.some_bind, ih]
    | other s => simp only [pp_expand, paren_depth, ih]

/-- The replacement list of `GCREALLOC_ARRAY` ends one level above where it is
read from, and closes a parenthesis it has not opened when read from depth 0. -/
theorem GCREALLOC_ARRAY_replacement_depth (d : Nat) :
    paren_depth GCREALLOC_ARRAY.replacement d = (match d with | 0 => none | k + 1 => some k) := by
  cases d with
  | zero => rfl
  | succ k => simp [GCREALLOC_ARRAY.replacement, paren_depth]

/-- The replacement list of `GCNEW_ARRAY` ends at the depth it is read from. -/
theorem GCNEW_ARRAY_replacement_depth (d : Nat) :
    paren_depth GCNEW_ARRAY.replacement d = some d := by
  simp [GCNEW_ARRAY.replacement, paren_depth]

/-- The replacement list of `ARRAY_SIZE_OK` ends at the depth it is read from. -/
theorem ARRAY_SIZE_OK_replacement_depth (d : Nat) :
    paren_depth ARRAY_SIZE_OK.replacement d = some d := by
  simp [ARRAY_SIZE_OK.replacement, paren_depth]

/-- The check `ARRAY_SIZE_OK` is sound: for a `size_t` of at least 32 bits and
an element size whose double fits it, a count that passes has a byte count
`nmemb * sizeof` that does not wrap around in `size_t` and is below
`INT_MAX / 2`. -/
theorem ARRAY_SIZE_OK_product_exact (size_bits s n : Nat) (hbits : 32 ≤ size_bits)
    (hs : 1 ≤ s) (hobj : s < 2 ^ (size_bits - 1))
    (hok : ARRAY_SIZE_OK size_bits s n = some true) :
    n < INT_MAX / (2 * s) ∧ (n * s) % 2 ^ size_bits = n * s ∧ n * s < INT_MAX / 2 := by
  rw [ARRAY_SIZE_OK_exact size_bits s n hs hobj] at hok
  have hlt : n < INT_MAX / (2 * s) := by simpa using hok
  have h31 : 2 ^ 32 ≤ 2 ^ size_bits := Nat.pow_le_pow_right (by norm_num) hbits
  have hb := array_size_bound s n hs hlt
  have hsmall : n * s < 2 ^ size_bits := by
    unfold INT_MAX at hb
    rw [two_pow_32] at h31
    omega
  refine ⟨hlt, Nat.mod_eq_of_lt hsmall, ?_⟩
  unfold INT_MAX at hb ⊢
  omega

/-- C15: `GCREALLOC_ARRAY` does not check anything, because it cannot be used.
Its replacement list (header lines 1854-1857, token for token the source text)
has 13 opening and 14 closing parentheses: read from depth 0 it closes a
parenthesis that nothing has opened, and the same list without its last `)` is
matched. At the use `GCREALLOC_ARRAY(array, 10)` with 4-byte elements and a
64-bit `size_t` both assertions of the block would pass (`10 > 0`, and
`ARRAY_SIZE_OK` holds), yet the statement `GCREALLOC_ARRAY(array, 10);` expands
to tokens whose parentheses do not match, so nothing is handed to
`libxl__realloc`. The same holds at every use: whatever the arguments (their
parentheses are matched, as those of arguments are) and whatever stands before
and after the use, if the text is matched with an expression in the place of
the use, it is not matched with the expansion there. The sibling `GCNEW_ARRAY`
and the check `ARRAY_SIZE_OK` do not have the defect: with them the text stays
matched. -/
theorem C15_GCREALLOC_ARRAY_surplus_paren :
    pp_spell GCREALLOC_ARRAY.replacement = unblank GCREALLOC_ARRAY.text ∧
    GCREALLOC_ARRAY.replacement.count .lparen = 13 ∧
    GCREALLOC_ARRAY.replacement.count .rparen = 14 ∧
    paren_depth GCREALLOC_ARRAY.replacement 0 = none ∧
    GCREALLOC_ARRAY.replacement.getLast? = some .rparen ∧
    paren_depth GCREALLOC_ARRAY.replacement.dropLast 0 = some 0 ∧
    (decide (10 > 0) = true ∧ ARRAY_SIZE_OK 64 4 10 = some true) ∧
    paren_depth
      (pp_expand GCREALLOC_ARRAY.args_sample GCREALLOC_ARRAY.replacement ++ [.other ";"]) 0 =
      none ∧
    (∀ (args : String → List pp_token) (pre suf : List pp_token) (d : Nat),
      (∀ name e, paren_depth (args name) e = some e) →
      paren_depth pre 0 = some d → paren_depth suf d = some 0 →
      paren_depth (pre ++ pp_expand args GCREALLOC_ARRAY.replacement ++ suf) 0 ≠ some 0) ∧
    (pp_spell GCNEW_ARRAY.replacement = unblank GCNEW_ARRAY.text ∧
      pp_spell ARRAY_SIZE_OK.replacement = unblank ARRAY_SIZE_OK.text ∧
      ∀ (args : String → List pp_token) (pre suf : List pp_token) (d : Nat),
        (∀ name e, paren_depth (args name) e = some e) →
        paren_depth pre 0 = some d → paren_depth suf d = some 0 →
        paren_depth (pre ++ pp_expand args GCNEW_ARRAY.replacement ++ suf) 0 = some 0 ∧
        paren_depth (pre ++ pp_expand args ARRAY_SIZE_OK.replacement ++ suf) 0 = some 0) := by
  refine ⟨by decide, by decide, by decide, by decide, by decide, by decide,
    ⟨by decide, by decide⟩, by decide, ?_, by decide, by decide, ?_⟩
  · intro args pre suf d hargs hpre hsuf
    rw [paren_depth_append, paren_depth_append, hpre, Option.some_bind,
      paren_depth_pp_expand args hargs, GCREALLOC_ARRAY_replacement_depth]
    cases d with
    | zero => simp
    | succ k =>
      simp only [Option.some_bind]
      intro hk
      have h1 := paren_depth_succ suf k 0 hk
      rw [hsuf] at h1
      simp at h1
  · intro args pre suf d hargs hpre hsuf
    constructor
    · rw [paren_depth_append, paren_depth_append, hpre, Option.some_bind,
        paren_depth_pp_expand args hargs, GCNEW_ARRAY_replacement_depth, Option.some_bind, hsuf]
    · rw [paren_depth_append, paren_depth_append, hpre, Option.some_bind,
        paren_depth_pp_expand args hargs, ARRAY_SIZE_OK_replacement_depth, Option.some_bind,
        hsuf]

/-- C16: `CONTAINER_OF` applied to the address of the member at byte offset
`k` of the object at address `a` yields `a`; and whenever `CONTAINER_OF`
yields a container, the address of that member of the container is the
pointer that was passed in. -/
theorem C16_CONTAINER_OF_inverts_member_addr :
    (∀ (a : Ptr) (k : Nat), CONTAINER_OF (member_addr a k) k = some a) ∧
    (∀ (inner_ptr : Ptr) (k : Nat) (c : Ptr),
      CONTAINER_OF inner_ptr k = some c → member_addr c k = inner_ptr) := by
  constructor
  · intro a k
    simp [CONTAINER_OF, member_addr]
  · intro p k c h
    unfold CONTAINER_OF at h
    by_cases hle : k ≤ p
    · rw [if_pos hle] at h
      simp only [Option.some.injEq] at h
      rw [← h]
      exact Nat.sub_add_cancel hle
    · rw [if_neg hle] at h
      cases h

/-- Witness of C16: the member at offset 24 of the object at address 4096. -/
theorem C16_CONTAINER_OF_inverts_member_addr_witness :
    CONTAINER_OF 4120 24 = some 4096 ∧ member_addr 4096 24 = 4120 :=
  ⟨by decide, C16_CONTAINER_OF_inverts_member_addr.2 4120 24 4096 (by decide)⟩

theorem libxl__ptr_add.slots_perm (slots : List Ptr) (ptr : Ptr) :
    ((libxl__ptr_add.slots slots ptr).filter (fun p => p ≠ 0)).Perm
      ((ptr :: slots).filter (fun p => p ≠ 0)) := by
  induction slots with
  | nil => exact List.Perm.refl _
  | cons slot rest ih =>
    unfold libxl__ptr_add.slots
    by_cases h0 : slot = 0
    · subst h0
      simp only [if_true]
      by_cases hp : ptr = 0
      · simp [hp]
      · simp [hp]
    · simp only [h0, if_false]
      by_cases hp : ptr = 0
      · subst hp
        have ih' := ih
        simp only [ne_eq, not_true_eq_false, decide_False, Bool.false_eq_true,
          not_false_eq_true, List.filter_cons_of_neg] at ih'
        simpa [h0] using ih'
      · have ih' := ih
        simp only [ne_eq, hp, not_false_eq_true, decide_True, List.filter_cons_of_pos] at ih'
        simp only [ne_eq, h0, not_false_eq_true, decide_True, List.filter_cons_of_pos, hp]
        exact (List.Perm.cons slot ih').trans (List.Perm.swap ptr slot _)

/-- The allocations freed by the teardown of a pool after one more
registration are those freed without it and the registered pointer, unless it
is `NULL`. -/
theorem libxl__free_all_ptr_add (gc : libxl__gc) (ptr : Ptr) :
    (libxl__free_all (libxl__ptr_add gc ptr)).2.Perm
      ([ptr].filter (fun p => p ≠ 0) ++ (libxl__free_all gc).2) := by
  unfold libxl__ptr_add libxl__free_all
  by_cases hp : ptr = 0
  · simp [hp]
  · simp only [hp, if_false]
    have := libxl__ptr_add.slots_perm gc.alloc_ptrs ptr
    simpa [hp] using this

theorem libxl__free_all_foldl_ptr_add (ptrs : List Ptr) :
    ∀ gc : libxl__gc,
      (libxl__free_all (ptrs.foldl libxl__ptr_add gc)).2.Perm
        ((libxl__free_all gc).2 ++ ptrs.filter (fun p => p ≠ 0)) := by
  induction ptrs with
  | nil => intro gc; simp
  | cons ptr rest ih =>
    intro gc
    rw [List.foldl_cons]
    refine (ih (libxl__ptr_add gc ptr)).trans ?_
    have h1 := libxl__free_all_ptr_add gc ptr
    have h2 : ((libxl__free_all (libxl__ptr_add gc ptr)).2 ++
        rest.filter (fun p => p ≠ 0)).Perm
        (([ptr].filter (fun p => p ≠ 0) ++ (libxl__free_all gc).2) ++
          rest.filter (fun p => p ≠ 0)) := h1.append_right _
    refine h2.trans ?_
    have h3 : ([ptr].filter (fun p => p ≠ 0) ++ (libxl__free_all gc).2).Perm
        ((libxl__free_all gc).2 ++ [ptr].filter (fun p => p ≠ 0)) := List.perm_append_comm
    refine (h3.append_right _).trans ?_
    rw [List.append_assoc]
    have h4 : [ptr].filter (fun p => p ≠ 0) ++ rest.filter (fun p => p ≠ 0) =
        (ptr :: rest).filter (fun p => p ≠ 0) := by
      rw [← List.filter_append]
      rfl
    rw [h4]

/-- C13: `libxl__free_all` hands every tracked allocation of the pool to
`free` and leaves the pool without tracked allocations: after any sequence of
`libxl__ptr_add` on a pool fresh from `LIBXL_INIT_GC`, each registered
pointer is freed exactly as often as it was registered; on a pool fresh from
`LIBXL_INIT_GC`, and when called a second time, it frees nothing and leaves
the pool as it is. -/
theorem C13_free_all_once_and_idempotent :
    (∀ (gc : libxl__gc) (ctx : Ptr) (ptrs : List Ptr) (p : Ptr), p ≠ 0 →
      (libxl__free_all (ptrs.foldl libxl__ptr_add (LIBXL_INIT_GC gc ctx))).2.count p =
        ptrs.count p) ∧
    (∀ gc : libxl__gc,
      (libxl__free_all gc).2 = gc.alloc_ptrs.filter (fun p => p ≠ 0) ∧
      (libxl__free_all gc).1.alloc_ptrs = [] ∧ (libxl__free_all gc).1.alloc_maxsize = 0 ∧
      (libxl__free_all gc).1.owner = gc.owner) ∧
    (∀ (gc : libxl__gc) (ctx : Ptr),
      libxl__free_all (LIBXL_INIT_GC gc ctx) = (LIBXL_INIT_GC gc ctx, [])) ∧
    (∀ gc : libxl__gc,
      libxl__free_all (libxl__free_all gc).1 = ((libxl__free_all gc).1, [])) := by
  refine ⟨?_, ?_, ?_, ?_⟩
  · intro gc ctx ptrs p hp
    have hperm := libxl__free_all_foldl_ptr_add ptrs (LIBXL_INIT_GC gc ctx)
    rw [hperm.count_eq]
    simp only [libxl__free_all, LIBXL_INIT_GC, List.filter_nil, List.nil_append]
    rw [List.count_filter]
    simpa using hp
  · intro gc
    exact ⟨rfl, rfl, rfl, rfl⟩
  · intro gc ctx
    rfl
  · intro gc
    rfl

/-- Witness of C13: three registrations on a fresh pool, one of them of
`NULL`; the pointer 16 is freed once. -/
theorem C13_free_all_once_and_idempotent_witness :
    (16 : Ptr) ≠ 0 ∧
    (libxl__free_all ([16, 0, 32].foldl libxl__ptr_add
        (LIBXL_INIT_GC { alloc_maxsize := 7, alloc_ptrs := [5], owner := 0 } 1))).2.count 16 =
      [16, 0, 32].count 16 ∧
    libxl__free_all ([16, 0, 32].foldl libxl__ptr_add
        (LIBXL_INIT_GC { alloc_maxsize := 7, alloc_ptrs := [5], owner := 0 } 1)) =
      ({ alloc_maxsize := 0, alloc_ptrs := [], owner := 1 }, [16, 32]) :=
  ⟨by decide,
   C13_free_all_once_and_idempotent.1 { alloc_maxsize := 7, alloc_ptrs := [5], owner := 0 } 1
     [16, 0, 32] 16 (by decide),
   by decide⟩

/-- C12: a descriptor opened between `libxl__carefd_begin` and
`libxl__carefd_opened` (or `libxl__carefd_record` and `libxl__carefd_unlock`)
is handed to `close(2)` exactly once by `libxl__carefd_close` on its guard,
which returns the result of `close(2)` and leaves the guard released and no
guard object behind; on the dummy guard recorded for descriptor -1 close is a
successful no-op; `libxl__carefd_opened` with descriptor -1 still unlocks and
returns `NULL`; `libxl__carefd_close(NULL)` is a successful no-op; and
`libxl__carefd_fd(NULL)` is -1. -/
theorem C12_carefd_close_once :
    (∀ (w : carefd_world) (fd close_result : Int), w.no_forking = false → fd ≠ -1 →
      ∃ (w1 w2 : carefd_world) (cf : libxl__carefd),
        libxl__carefd_begin w = some w1 ∧
        libxl__carefd_opened w1 fd = some (w2, some cf) ∧
        w2.no_forking = false ∧ libxl__carefd_fd (some cf) = fd ∧
        libxl__carefd_close w2 (some cf) close_result =
          (close_result, { w with closed := w.closed ++ [fd] })) ∧
    (∀ (w : carefd_world) (fd close_result : Int), w.no_forking = false → fd ≠ -1 →
      ∃ (w1 w2 : carefd_world),
        libxl__carefd_begin w = some w1 ∧
        libxl__carefd_unlock (libxl__carefd_record w1 fd).1 = some w2 ∧
        libxl__carefd_close w2 (some (libxl__carefd_record w1 fd).2) close_result =
          (close_result, { w with closed := w.closed ++ [fd] })) ∧
    (∀ (w : carefd_world) (close_result : Int),
      libxl__carefd_fd (some (libxl__carefd_record w (-1)).2) = -1 ∧
      libxl__carefd_close (libxl__carefd_record w (-1)).1
        (some (libxl__carefd_record w (-1)).2) close_result = (0, w)) ∧
    (∀ w : carefd_world, w.no_forking = true →
      libxl__carefd_opened w (-1) = some ({ w with no_forking := false }, none)) ∧
    (∀ (w : carefd_world) (close_result : Int),
      libxl__carefd_close w none close_result = (0, w)) ∧
    libxl__carefd_fd none = -1 := by
  refine ⟨?_, ?_, ?_, ?_, ?_, rfl⟩
  · intro w fd close_result hw hfd
    refine ⟨{ w with no_forking := true },
      { w with carefds := { fd := fd } :: w.carefds }, { fd := fd }, ?_, ?_, ?_, rfl, ?_⟩
    · simp [libxl__carefd_begin, hw]
    · simp [libxl__carefd_opened, hfd, libxl__carefd_unlock, libxl__carefd_record, hw]
    · exact hw
    · simp [libxl__carefd_close, hfd]
  · intro w fd close_result hw hfd
    refine ⟨{ w with no_forking := true },
      { w with carefds := { fd := fd } :: w.carefds }, ?_, ?_, ?_⟩
    · simp [libxl__carefd_begin, hw]
    · simp [libxl__carefd_unlock, libxl__carefd_record, hw]
    · simp [libxl__carefd_close, libxl__carefd_record, hfd]
  · intro w close_result
    refine ⟨rfl, ?_⟩
    simp [libxl__carefd_close, libxl__carefd_record]
  · intro w hw
    simp [libxl__carefd_opened, libxl__carefd_unlock, hw]
  · intro w close_result
    rfl

/-- Witness of C12: descriptor 7 is opened in a bracket and closed through its
guard; `close(2)` is called on 7 once. -/
theorem C12_carefd_close_once_witness :
    ∃ (w1 w2 : carefd_world) (cf : libxl__carefd),
      libxl__carefd_begin { no_forking := false, carefds := [], closed := [] } = some w1 ∧
      libxl__carefd_opened w1 7 = some (w2, some cf) ∧
      w2.no_forking = false ∧ libxl__carefd_fd (some cf) = 7 ∧
      libxl__carefd_close w2 (some cf) 0 =
        (0, { no_forking := false, carefds := [], closed := [] ++ [7] }) :=
  C12_carefd_close_once.1 { no_forking := false, carefds := [], closed := [] } 7 0 rfl
    (by decide)

theorem datacopier_buffered_store (bufs : List libxl__datacopier_buf) (bytes : List Nat) :
    datacopier_buffered (datacopier_store bufs bytes) = datacopier_buffered bufs ++ bytes := by
  induction bufs with
  | nil => simp [datacopier_store, datacopier_buffered]
  | cons a rest ih =>
    cases rest with
    | nil =>
      unfold datacopier_store
      split_ifs <;> simp [datacopier_buffered]
    | cons b rest2 =>
      unfold datacopier_store
      simp only [datacopier_buffered] at ih ⊢
      rw [ih]
      simp

theorem datacopier_store_nonempty (bufs : List libxl__datacopier_buf) (bytes : List Nat)
    (hb : bytes ≠ []) (h : ∀ b ∈ bufs, b.buf ≠ []) :
    ∀ b ∈ datacopier_store bufs bytes, b.buf ≠ [] := by
  induction bufs with
  | nil =>
    intro b hmem
    simp only [datacopier_store, List.mem_singleton] at hmem
    subst hmem
    exact hb
  | cons a rest ih =>
    cases rest with
    | nil =>
      intro b hmem
      unfold datacopier_store at hmem
      split_ifs at hmem
      · simp only [List.mem_singleton] at hmem
        subst hmem
        simp [hb]
      · simp only [List.mem_cons, List.mem_singleton, List.not_mem_nil, or_false] at hmem
        rcases hmem with rfl | rfl
        · exact h _ (List.mem_cons_self _ _)
        · exact hb
    | cons b2 rest2 =>
      intro b hmem
      unfold datacopier_store at hmem
      rcases List.mem_cons.mp hmem with rfl | hmem
      · exact h _ (List.mem_cons_self _ _)
      · exact ih (fun x hx => h x (List.mem_cons_of_mem _ hx)) b hmem

theorem datacopier_room_pos (bufs : List libxl__datacopier_buf) : 1 ≤ datacopier_room bufs := by
  induction bufs with
  | nil => simp [datacopier_room, datacopier_bufsz]
  | cons a rest ih =>
    cases rest with
    | nil =>
      unfold datacopier_room
      split_ifs with hlt
      · simp only [datacopier_bufsz] at hlt ⊢
        omega
      · simp [datacopier_bufsz]
    | cons b rest2 =>
      unfold datacopier_room
      exact ih

/-- The report of an outcome leaves the copier killed, records that, and adds
one callback. -/
theorem datacopier_callback_spec (w : datacopier_world) (onwrite errnoval : Int) :
    (datacopier_callback w onwrite errnoval).callbacks =
      w.callbacks ++ [{ onwrite := onwrite, errnoval := errnoval, killed := true }] ∧
    libxl__ev_fd_isregistered (datacopier_callback w onwrite errnoval).dc.toread = 0 ∧
    libxl__ev_fd_isregistered (datacopier_callback w onwrite errnoval).dc.towrite = 0 ∧
    (datacopier_callback w onwrite errnoval).dc.bufs = [] ∧
    (datacopier_callback w onwrite errnoval).sink = w.sink ∧
    (datacopier_callback w onwrite errnoval).source = w.source ∧
    (datacopier_callback w onwrite errnoval).dc.maxsz = w.dc.maxsz := by
  have h1 := libxl__ev_fd_deregister_idle w.ctx w.dc.toread
  have h2 := libxl__ev_fd_deregister_idle (libxl__ev_fd_deregister w.ctx w.dc.toread).1
    w.dc.towrite
  refine ⟨?_, h1, h2, rfl, rfl, rfl, rfl⟩
  simp only [datacopier_callback, libxl__datacopier_kill]
  simp [h1, h2]

/-- With bytes buffered and a valid write descriptor, the state check without
a hook failure leaves the write registration Active and nothing else changed. -/
theorem datacopier_check_state_buffered (w : datacopier_world)
    (hb : datacopier_buffered w.dc.bufs ≠ []) (hfd : 0 ≤ w.dc.writefd) :
    (datacopier_check_state w 0).callbacks = w.callbacks ∧
    (datacopier_check_state w 0).sink = w.sink ∧
    (datacopier_check_state w 0).source = w.source ∧
    (datacopier_check_state w 0).dc.bufs = w.dc.bufs ∧
    (datacopier_check_state w 0).dc.used = w.dc.used ∧
    (datacopier_check_state w 0).dc.maxsz = w.dc.maxsz ∧
    (datacopier_check_state w 0).dc.writefd = w.dc.writefd ∧
    (datacopier_check_state w 0).dc.toread = w.dc.toread ∧
    libxl__ev_fd_isregistered (datacopier_check_state w 0).dc.towrite ≠ 0 := by
  unfold datacopier_check_state
  simp only [hb, ne_eq, not_false_eq_true, if_true]
  by_cases hreg : libxl__ev_fd_isregistered w.dc.towrite = 0
  · simp only [hreg, if_true]
    simp [libxl__ev_fd_register, libxl__ev_fd_isregistered, hfd]
  · simp only [hreg, if_false]
    simp [hreg]

/-- With nothing buffered and the read side still open, the state check drops
the write registration and changes nothing else. -/
theorem datacopier_check_state_reading (w : datacopier_world) (hook_rc : Int)
    (hb : datacopier_buffered w.dc.bufs = [])
    (hr : libxl__ev_fd_isregistered w.dc.toread ≠ 0) :
    (datacopier_check_state w hook_rc).callbacks = w.callbacks ∧
    (datacopier_check_state w hook_rc).sink = w.sink ∧
    (datacopier_check_state w hook_rc).source = w.source ∧
    (datacopier_check_state w hook_rc).dc.bufs = w.dc.bufs ∧
    (datacopier_check_state w hook_rc).dc.used = w.dc.used ∧
    (datacopier_check_state w hook_rc).dc.maxsz = w.dc.maxsz ∧
    (datacopier_check_state w hook_rc).dc.writefd = w.dc.writefd ∧
    (datacopier_check_state w hook_rc).dc.toread = w.dc.toread ∧
    libxl__ev_fd_isregistered (datacopier_check_state w hook_rc).dc.towrite = 0 := by
  unfold datacopier_check_state
  simp only [hb, ne_eq, not_true_eq_false, if_false, hr]
  simpa using libxl__ev_fd_deregister_idle _ _

/-- With nothing buffered and the read side at EOF, the state check reports
success. -/
theorem datacopier_check_state_eof (w : datacopier_world) (hook_rc : Int)
    (hb : datacopier_buffered w.dc.bufs = [])
    (hr : libxl__ev_fd_isregistered w.dc.toread = 0) :
    datacopier_check_state w hook_rc = datacopier_callback w 0 0 := by
  unfold datacopier_check_state
  simp [hb, hr]

/-- After the end of a copy no event has an effect. -/
theorem datacopier_step_of_idle (w : datacopier_world) (e : datacopier_event)
    (hr : libxl__ev_fd_isregistered w.dc.toread = 0)
    (hw : libxl__ev_fd_isregistered w.dc.towrite = 0) : datacopier_step w e = w := by
  cases e with
  | readable n errnoval hook_rc => simp [datacopier_step, datacopier_readable, hr]
  | writable n errnoval hook_rc => simp [datacopier_step, datacopier_writable, hw]

/-- The state check after a system call brings the copy back under way,
with as much left to do as before, or ends it. -/
theorem datacopier_check_state_settles (v : datacopier_world) (data : List Nat) (maxsz : Int)
    (h : datacopier_settling v data maxsz) :
    (datacopier_running (datacopier_check_state v 0) data maxsz ∧
      datacopier_todo (datacopier_check_state v 0) = datacopier_todo v) ∨
    datacopier_done (datacopier_check_state v 0) data maxsz := by
  by_cases hb : datacopier_buffered v.dc.bufs = []
  · by_cases hr : libxl__ev_fd_isregistered v.dc.toread = 0
    · right
      rw [datacopier_check_state_eof v 0 hb hr]
      obtain ⟨hc, hir, hiw, _, hsink, _, _⟩ := datacopier_callback_spec v 0 0
      have hdata : v.sink = data := by
        have := h.conserve
        rw [hb, h.eof hr] at this
        simpa using this
      refine ⟨hir, hiw, Or.inl ⟨?_, ?_, ?_⟩⟩
      · rw [hc, h.nocall]
        rfl
      · rw [hsink]
        exact hdata
      · have h1 := h.used_eq
        have h2 := h.used_le
        rw [hb, hdata] at h1
        simp only [List.length_nil, Nat.add_zero] at h1
        omega
    · left
      obtain ⟨hc, hsink, hsrc, hbufs, hused, hmax, hwfd, htoread, hidle⟩ :=
        datacopier_check_state_reading v 0 hb hr
      refine ⟨⟨?_, ?_, ?_, ?_, ?_, ?_, ?_, ?_, ?_, ?_⟩, ?_⟩
      · rw [hc]; exact h.nocall
      · rw [hsink, hsrc, hbufs]; exact h.conserve
      · rw [hbufs]; exact h.nonempty
      · rw [hmax]; exact h.maxsz_eq
      · rw [hused, hsink, hbufs]; exact h.used_eq
      · rw [hused]; exact h.used_le
      · rw [hwfd]; exact h.wfd
      · rw [hbufs]
        constructor
        · intro hne; exact absurd hb hne
        · intro hne; exact absurd hidle hne
      · rw [htoread]; intro _; exact hr
      · rw [htoread, hsrc]; exact h.eof
      · unfold datacopier_todo
        rw [hsrc, hbufs, htoread]
  · left
    obtain ⟨hc, hsink, hsrc, hbufs, hused, hmax, hwfd, htoread, hreg⟩ :=
      datacopier_check_state_buffered v hb h.wfd
    refine ⟨⟨?_, ?_, ?_, ?_, ?_, ?_, ?_, ?_, ?_, ?_⟩, ?_⟩
    · rw [hc]; exact h.nocall
    · rw [hsink, hsrc, hbufs]; exact h.conserve
    · rw [hbufs]; exact h.nonempty
    · rw [hmax]; exact h.maxsz_eq
    · rw [hused, hsink, hbufs]; exact h.used_eq
    · rw [hused]; exact h.used_le
    · rw [hwfd]; exact h.wfd
    · rw [hbufs]
      exact ⟨fun _ => hreg, fun _ => hb⟩
    · rw [hbufs]; intro hne; exact absurd hne hb
    · rw [htoread, hsrc]; exact h.eof
    · unfold datacopier_todo
      rw [hsrc, hbufs, htoread]

theorem datacopier_running.settling {w : datacopier_world} {data : List Nat} {maxsz : Int}
    (h : datacopier_running w data maxsz) : datacopier_settling w data maxsz :=
  ⟨h.nocall, h.conserve, h.nonempty, h.maxsz_eq, h.used_eq, h.used_le, h.wfd, h.eof⟩

/-- A readable event without failure, on a copy under way whose read
registration is Active, leaves less to do or ends the copy. -/
theorem datacopier_readable_progress (w : datacopier_world) (data : List Nat) (maxsz : Int)
    (n : Nat) (h : datacopier_running w data maxsz)
    (hreg : libxl__ev_fd_isregistered w.dc.toread ≠ 0) :
    (datacopier_running (datacopier_readable w n 0 0) data maxsz ∧
      datacopier_todo (datacopier_readable w n 0 0) < datacopier_todo w) ∨
    datacopier_done (datacopier_readable w n 0 0) data maxsz := by
  unfold datacopier_readable
  rw [if_neg hreg, if_neg (by simp)]
  by_cases hsrc : w.source = []
  · rw [if_pos hsrc]
    have hidle := libxl__ev_fd_deregister_idle w.ctx w.dc.toread
    have hset : datacopier_settling
        { w with ctx := (libxl__ev_fd_deregister w.ctx w.dc.toread).1,
                 dc := { w.dc with toread := (libxl__ev_fd_deregister w.ctx w.dc.toread).2 } }
        data maxsz :=
      ⟨h.nocall, h.conserve, h.nonempty, h.maxsz_eq, h.used_eq, h.used_le, h.wfd,
        fun _ => hsrc⟩
    rcases datacopier_check_state_settles _ data maxsz hset with ⟨hrun, htodo⟩ | hdone
    · left
      refine ⟨hrun, ?_⟩
      rw [htodo]
      unfold datacopier_todo
      simp only [hidle, if_true, hreg, if_false]
      omega
    · exact Or.inr hdone
  · rw [if_neg hsrc]
    simp only
    have hlen : 1 ≤ w.source.length := by
      cases hs : w.source with
      | nil => exact absurd hs hsrc
      | cons x xs => simp
    have hroom := datacopier_room_pos w.dc.bufs
    have hk1 : 1 ≤ min (min (n + 1) w.source.length) (datacopier_room w.dc.bufs) := by omega
    have hk2 : min (min (n + 1) w.source.length) (datacopier_room w.dc.bufs) ≤
        w.source.length := by omega
    generalize min (min (n + 1) w.source.length) (datacopier_room w.dc.bufs) = k at hk1 hk2 ⊢
    have hdata : data.length =
        w.sink.length + (datacopier_buffered w.dc.bufs).length + w.source.length := by
      rw [← h.conserve]
      simp only [List.length_append]
    by_cases hbig : w.dc.maxsz < w.dc.used + (k : Int)
    · right
      simp only [hbig, if_true]
      obtain ⟨hc, hir, hiw, _, hsink, _, _⟩ := datacopier_callback_spec w (-1) 0
      refine ⟨hir, hiw, Or.inr ⟨?_, ?_, ?_, ?_⟩⟩
      · rw [hc, h.nocall]
        rfl
      · have h1 := h.used_eq
        have h2 := h.maxsz_eq
        omega
      · rw [hsink, ← h.conserve, List.append_assoc, List.take_left']
        rfl
      · rw [hsink]
        have h1 := h.used_eq
        have h2 := h.used_le
        omega
    · simp only [hbig, if_false]
      have htake : (w.source.take k).length = k := by
        rw [List.length_take]
        omega
      have htake_ne : w.source.take k ≠ [] := by
        intro hnil
        rw [hnil] at htake
        simp at htake
        omega
      have hset : datacopier_settling
          { w with source := w.source.drop k,
                   dc := { w.dc with bufs := datacopier_store w.dc.bufs (w.source.take k),
                                     used := w.dc.used + (k : Int) } } data maxsz := by
        refine ⟨h.nocall, ?_, ?_, h.maxsz_eq, ?_, ?_, h.wfd, ?_⟩
        · simp only [datacopier_buffered_store]
          rw [← h.conserve]
          simp only [List.append_assoc, List.take_append_drop]
        · exact datacopier_store_nonempty _ _ htake_ne h.nonempty
        · simp only [datacopier_buffered_store, List.length_append, htake]
          have h1 := h.used_eq
          omega
        · have h2 := h.maxsz_eq
          simp only
          omega
        · intro hidle
          exact absurd hidle hreg
      rcases datacopier_check_state_settles _ data maxsz hset with ⟨hrun, htodo⟩ | hdone
      · left
        refine ⟨hrun, ?_⟩
        rw [htodo]
        unfold datacopier_todo
        simp only [datacopier_buffered_store, List.length_append, htake, List.length_drop]
        omega
      · exact Or.inr hdone

/-- A writable event without failure, on a copy under way whose write
registration is Active, leaves less to do or ends the copy. -/
theorem datacopier_writable_progress (w : datacopier_world) (data : List Nat) (maxsz : Int)
    (n : Nat) (h : datacopier_running w data maxsz)
    (hreg : libxl__ev_fd_isregistered w.dc.towrite ≠ 0) :
    (datacopier_running (datacopier_writable w n 0 0) data maxsz ∧
      datacopier_todo (datacopier_writable w n 0 0) < datacopier_todo w) ∨
    datacopier_done (datacopier_writable w n 0 0) data maxsz := by
  have hb : datacopier_buffered w.dc.bufs ≠ [] := h.towrite.mpr hreg
  unfold datacopier_writable
  rw [if_neg hreg, if_neg (by simp)]
  split
  · next hnil =>
    rw [hnil] at hb
    exact absurd rfl hb
  · next b rest hcons =>
    simp only
    have hbne : b.buf ≠ [] := h.nonempty b (by rw [hcons]; exact List.mem_cons_self _ _)
    have hblen : 1 ≤ b.buf.length := by
      cases hbb : b.buf with
      | nil => exact absurd hbb hbne
      | cons x xs => simp
    have hk1 : 1 ≤ min (n + 1) b.buf.length := by omega
    have hk2 : min (n + 1) b.buf.length ≤ b.buf.length := by omega
    generalize min (n + 1) b.buf.length = k at hk1 hk2 ⊢
    have hbuf' : datacopier_buffered
        (if b.buf.drop k = [] then rest else { buf := b.buf.drop k } :: rest) =
        b.buf.drop k ++ datacopier_buffered rest := by
      split_ifs with hd
      · rw [hd]
        rfl
      · rfl
    have hbufw : datacopier_buffered w.dc.bufs = b.buf ++ datacopier_buffered rest := by
      rw [hcons]
      rfl
    have htake : (b.buf.take k).length = k := by
      rw [List.length_take]
      omega
    have hset : datacopier_settling
        { w with sink := w.sink ++ b.buf.take k,
                 dc := { w.dc with
                   bufs := if b.buf.drop k = [] then rest else { buf := b.buf.drop k } :: rest } }
        data maxsz := by
      refine ⟨h.nocall, ?_, ?_, h.maxsz_eq, ?_, h.used_le, h.wfd, h.eof⟩
      · simp only [hbuf']
        rw [← h.conserve, hbufw]
        simp only [List.append_assoc]
        rw [← List.append_assoc (b.buf.take k), List.take_append_drop]
      · intro x hx
        simp only at hx
        split_ifs at hx with hd
        · exact h.nonempty x (by rw [hcons]; exact List.mem_cons_of_mem _ hx)
        · rcases List.mem_cons.mp hx with rfl | hx
          · exact hd
          · exact h.nonempty x (by rw [hcons]; exact List.mem_cons_of_mem _ hx)
      · simp only [hbuf', List.length_append, htake, List.length_drop]
        have h1 := h.used_eq
        rw [hbufw] at h1
        simp only [List.length_append] at h1
        omega
    rcases datacopier_check_state_settles _ data maxsz hset with ⟨hrun, htodo⟩ | hdone
    · left
      refine ⟨hrun, ?_⟩
      rw [htodo]
      unfold datacopier_todo
      simp only [hbuf', hbufw, List.length_append, List.length_drop]
      omega
    · exact Or.inr hdone

/-- The event the event loop delivers next to a copy under way belongs to a
registration that is Active, and it leaves less to do or ends the copy. -/
theorem datacopier_next_progress (w : datacopier_world) (data : List Nat) (maxsz : Int)
    (s : Bool × Nat) (h : datacopier_running w data maxsz) :
    (datacopier_running (datacopier_step w (datacopier_next w s.1 s.2)) data maxsz ∧
      datacopier_todo (datacopier_step w (datacopier_next w s.1 s.2)) < datacopier_todo w) ∨
    datacopier_done (datacopier_step w (datacopier_next w s.1 s.2)) data maxsz := by
  unfold datacopier_next
  split_ifs with hc
  · exact datacopier_readable_progress w data maxsz s.2 h hc.1
  · apply datacopier_writable_progress w data maxsz s.2 h
    intro hidle
    apply hc
    have hbuf : datacopier_buffered w.dc.bufs = [] := by
      by_contra hne
      exact (h.towrite.mp hne) hidle
    exact ⟨h.toread hbuf, Or.inr hidle⟩

theorem datacopier_drive_of_done (sched : List (Bool × Nat)) :
    ∀ (w : datacopier_world) (data : List Nat) (maxsz : Int),
      datacopier_done w data maxsz → datacopier_drive w sched = w := by
  induction sched with
  | nil => intro w data maxsz _; rfl
  | cons s rest ih =>
    intro w data maxsz h
    have hstep : datacopier_step w (datacopier_next w s.1 s.2) = w :=
      datacopier_step_of_idle w _ h.idle_r h.idle_w
    simp only [datacopier_drive, List.foldl_cons] at ih ⊢
    rw [hstep]
    exact ih w data maxsz h

/-- A schedule with at least as many events as there is left to do ends the
copy. -/
theorem datacopier_drive_done (sched : List (Bool × Nat)) :
    ∀ (w : datacopier_world) (data : List Nat) (maxsz : Int),
      datacopier_running w data maxsz → datacopier_todo w ≤ sched.length →
      datacopier_done (datacopier_drive w sched) data maxsz := by
  induction sched with
  | nil =>
    intro w data maxsz h hlen
    exfalso
    simp only [List.length_nil, Nat.le_zero] at hlen
    unfold datacopier_todo at hlen
    have hsrc : w.source = [] := by
      apply List.eq_nil_of_length_eq_zero
      omega
    have hbuf : datacopier_buffered w.dc.bufs = [] := by
      apply List.eq_nil_of_length_eq_zero
      omega
    have hreg := h.toread hbuf
    simp only [hreg, if_false] at hlen
    omega
  | cons s rest ih =>
    intro w data maxsz h hlen
    simp only [datacopier_drive, List.foldl_cons]
    rcases datacopier_next_progress w data maxsz s h with ⟨hrun, hlt⟩ | hdone
    · apply ih _ data maxsz hrun
      simp only [List.length_cons] at hlen
      omega
    · have := datacopier_drive_of_done rest _ data maxsz hdone
      simp only [datacopier_drive] at this
      rw [this]
      exact hdone

/-- A successful start puts the copy of `data` under way, with every byte and
the EOF still to do. -/
theorem libxl__datacopier_start_running (ctx : libxl__ctx) (dc : libxl__datacopier_state)
    (data : List Nat) (hrfd : 0 ≤ dc.readfd) (hwfd : 0 ≤ dc.writefd) (hmax : 0 ≤ dc.maxsz) :
    (libxl__datacopier_start (datacopier_world_of ctx dc data) 0).1 = 0 ∧
    datacopier_running (libxl__datacopier_start (datacopier_world_of ctx dc data) 0).2
      data dc.maxsz ∧
    datacopier_todo (libxl__datacopier_start (datacopier_world_of ctx dc data) 0).2 =
      2 * data.length + 1 := by
  have hstart : libxl__datacopier_start (datacopier_world_of ctx dc data) 0 =
      (0, { datacopier_world_of ctx dc data with
        ctx := (libxl__ev_fd_register ctx (libxl__ev_fd_init dc.toread) 1 dc.readfd POLLIN 0).2.1,
        dc := { libxl__datacopier_init dc with
          used := 0,
          toread :=
            (libxl__ev_fd_register ctx (libxl__ev_fd_init dc.toread) 1 dc.readfd POLLIN 0).2.2 } })
      := by
    simp [libxl__datacopier_start, datacopier_world_of, libxl__datacopier_init,
      libxl__ev_fd_register]
  have hreg : libxl__ev_fd_isregistered
      (libxl__ev_fd_register ctx (libxl__ev_fd_init dc.toread) 1 dc.readfd POLLIN 0).2.2 ≠ 0 := by
    simp [libxl__ev_fd_register, libxl__ev_fd_isregistered, hrfd]
  rw [hstart]
  refine ⟨rfl, ⟨rfl, ?_, ?_, rfl, ?_, hmax, hwfd, ?_, ?_, ?_⟩, ?_⟩
  · simp [datacopier_world_of, libxl__datacopier_init, datacopier_buffered]
  · intro b hb
    simp [libxl__datacopier_init] at hb
  · simp [datacopier_world_of, libxl__datacopier_init, datacopier_buffered]
  · simp [libxl__datacopier_init, datacopier_buffered, libxl__ev_fd_init,
      libxl__ev_fd_isregistered]
  · intro _
    exact hreg
  · intro hidle
    exact absurd hidle hreg
  · unfold datacopier_todo
    simp only [hreg, if_false]
    simp [datacopier_world_of, libxl__datacopier_init, datacopier_buffered]

/-- The state check makes no callback or one callback, with the copier killed. -/
theorem datacopier_check_state_callbacks (v : datacopier_world) (hook_rc : Int) :
    (datacopier_check_state v hook_rc).callbacks = v.callbacks ∨
    ∃ onwrite errnoval,
      (datacopier_check_state v hook_rc).callbacks =
        v.callbacks ++ [{ onwrite := onwrite, errnoval := errnoval, killed := true }] ∧
      libxl__ev_fd_isregistered (datacopier_check_state v hook_rc).dc.toread = 0 ∧
      libxl__ev_fd_isregistered (datacopier_check_state v hook_rc).dc.towrite = 0 := by
  unfold datacopier_check_state
  by_cases hb : datacopier_buffered v.dc.bufs ≠ []
  · rw [if_pos hb]
    by_cases hreg : libxl__ev_fd_isregistered v.dc.towrite = 0
    · rw [if_pos hreg]
      dsimp only
      by_cases hr : (libxl__ev_fd_register v.ctx v.dc.towrite 2 v.dc.writefd POLLOUT hook_rc).1 ≠ 0
      · rw [if_pos hr]
        right
        obtain ⟨hc, hir, hiw, _⟩ := datacopier_callback_spec
          { v with
            ctx := (libxl__ev_fd_register v.ctx v.dc.towrite 2 v.dc.writefd POLLOUT hook_rc).2.1,
            dc := { v.dc with towrite :=
              (libxl__ev_fd_register v.ctx v.dc.towrite 2 v.dc.writefd POLLOUT hook_rc).2.2 } }
          (-1) 0
        exact ⟨-1, 0, hc, hir, hiw⟩
      · rw [if_neg hr]
        exact Or.inl rfl
    · rw [if_neg hreg]
      exact Or.inl rfl
  · rw [if_neg hb]
    by_cases hr : libxl__ev_fd_isregistered v.dc.toread = 0
    · rw [if_pos hr]
      right
      obtain ⟨hc, hir, hiw, _⟩ := datacopier_callback_spec v 0 0
      exact ⟨0, 0, hc, hir, hiw⟩
    · rw [if_neg hr]
      exact Or.inl rfl

/-- An event makes no callback or one callback, with the copier killed. -/
theorem datacopier_step_callbacks (w : datacopier_world) (e : datacopier_event) :
    (datacopier_step w e).callbacks = w.callbacks ∨
    ∃ onwrite errnoval,
      (datacopier_step w e).callbacks =
        w.callbacks ++ [{ onwrite := onwrite, errnoval := errnoval, killed := true }] ∧
      libxl__ev_fd_isregistered (datacopier_step w e).dc.toread = 0 ∧
      libxl__ev_fd_isregistered (datacopier_step w e).dc.towrite = 0 := by
  cases e with
  | readable n errnoval hook_rc =>
    simp only [datacopier_step]
    unfold datacopier_readable
    by_cases hreg : libxl__ev_fd_isregistered w.dc.toread = 0
    · rw [if_pos hreg]
      exact Or.inl rfl
    · rw [if_neg hreg]
      by_cases herr : errnoval ≠ 0
      · rw [if_pos herr]
        right
        obtain ⟨hc, hir, hiw, _⟩ := datacopier_callback_spec w 0 errnoval
        exact ⟨0, errnoval, hc, hir, hiw⟩
      · rw [if_neg herr]
        by_cases hsrc : w.source = []
        · rw [if_pos hsrc]
          exact datacopier_check_state_callbacks _ hook_rc
        · rw [if_neg hsrc]
          dsimp only
          split_ifs
          · right
            obtain ⟨hc, hir, hiw, _⟩ := datacopier_callback_spec w (-1) 0
            exact ⟨-1, 0, hc, hir, hiw⟩
          · exact datacopier_check_state_callbacks _ hook_rc
  | writable n errnoval hook_rc =>
    simp only [datacopier_step]
    unfold datacopier_writable
    by_cases hreg : libxl__ev_fd_isregistered w.dc.towrite = 0
    · rw [if_pos hreg]
      exact Or.inl rfl
    · rw [if_neg hreg]
      by_cases herr : errnoval ≠ 0
      · rw [if_pos herr]
        right
        obtain ⟨hc, hir, hiw, _⟩ := datacopier_callback_spec w 1 errnoval
        exact ⟨1, errnoval, hc, hir, hiw⟩
      · rw [if_neg herr]
        split
        · exact datacopier_check_state_callbacks _ hook_rc
        · exact datacopier_check_state_callbacks _ hook_rc

/-- Whatever the events and their failures, a copy that has made no callback
makes at most one, with the copier killed, and is Idle after it. -/
theorem datacopier_run_callbacks (evs : List datacopier_event) :
    ∀ w : datacopier_world, w.callbacks = [] →
      (datacopier_run w evs).callbacks = [] ∨
      ∃ onwrite errnoval,
        (datacopier_run w evs).callbacks =
          [{ onwrite := onwrite, errnoval := errnoval, killed := true }] ∧
        libxl__ev_fd_isregistered (datacopier_run w evs).dc.toread = 0 ∧
        libxl__ev_fd_isregistered (datacopier_run w evs).dc.towrite = 0 := by
  induction evs with
  | nil => intro w h; exact Or.inl h
  | cons e rest ih =>
    intro w h
    simp only [datacopier_run, List.foldl_cons] at ih ⊢
    rcases datacopier_step_callbacks w e with hsame | ⟨a, b, hc, hir, hiw⟩
    · exact ih _ (hsame.trans h)
    · right
      have hfix : ∀ (l : List datacopier_event) (v : datacopier_world),
          libxl__ev_fd_isregistered v.dc.toread = 0 →
          libxl__ev_fd_isregistered v.dc.towrite = 0 →
          List.foldl datacopier_step v l = v := by
        intro l
        induction l with
        | nil => intro v _ _; rfl
        | cons x xs ihx =>
          intro v h1 h2
          rw [List.foldl_cons, datacopier_step_of_idle v x h1 h2]
          exact ihx v h1 h2
      rw [hfix rest _ hir hiw]
      refine ⟨a, b, ?_, hir, hiw⟩
      rw [hc, h]
      rfl

/-- An event without failure keeps a copy under way or ends it. -/
theorem datacopier_step_keeps (w : datacopier_world) (data : List Nat) (maxsz : Int)
    (e : datacopier_event) (hnf : e.no_failure) (h : datacopier_running w data maxsz) :
    datacopier_running (datacopier_step w e) data maxsz ∨
    datacopier_done (datacopier_step w e) data maxsz := by
  cases e with
  | readable n errnoval hook_rc =>
    obtain ⟨rfl, rfl⟩ := hnf
    by_cases hreg : libxl__ev_fd_isregistered w.dc.toread = 0
    · left
      have : datacopier_step w (.readable n 0 0) = w := by
        simp [datacopier_step, datacopier_readable, hreg]
      rw [this]
      exact h
    · rcases datacopier_readable_progress w data maxsz n h hreg with ⟨hrun, _⟩ | hdone
      · exact Or.inl hrun
      · exact Or.inr hdone
  | writable n errnoval hook_rc =>
    obtain ⟨rfl, rfl⟩ := hnf
    by_cases hreg : libxl__ev_fd_isregistered w.dc.towrite = 0
    · left
      have : datacopier_step w (.writable n 0 0) = w := by
        simp [datacopier_step, datacopier_writable, hreg]
      rw [this]
      exact h
    · rcases datacopier_writable_progress w data maxsz n h hreg with ⟨hrun, _⟩ | hdone
      · exact Or.inl hrun
      · exact Or.inr hdone

theorem datacopier_run_keeps (evs : List datacopier_event) :
    ∀ (w : datacopier_world) (data : List Nat) (maxsz : Int),
      (∀ e ∈ evs, e.no_failure) →
      datacopier_running w data maxsz ∨ datacopier_done w data maxsz →
      datacopier_running (datacopier_run w evs) data maxsz ∨
      datacopier_done (datacopier_run w evs) data maxsz := by
  induction evs with
  | nil => intro w data maxsz _ h; exact h
  | cons e rest ih =>
    intro w data maxsz hnf h
    simp only [datacopier_run, List.foldl_cons] at ih ⊢
    apply ih _ data maxsz (fun x hx => hnf x (List.mem_cons_of_mem _ hx))
    rcases h with hrun | hdone
    · exact datacopier_step_keeps w data maxsz e (hnf e (List.mem_cons_self _ _)) hrun
    · rw [datacopier_step_of_idle w e hdone.idle_r hdone.idle_w]
      exact Or.inr hdone

/-- What a copy has written is the start of the data and within the limit. -/
theorem datacopier_sink_truncated (w : datacopier_world) (data : List Nat) (maxsz : Int)
    (h : datacopier_running w data maxsz ∨ datacopier_done w data maxsz) :
    w.sink = data.take w.sink.length ∧ (w.sink.length : Int) ≤ maxsz := by
  rcases h with hrun | hdone
  · constructor
    · rw [← hrun.conserve, List.append_assoc, List.take_left']
      rfl
    · have h1 := hrun.used_eq
      have h2 := hrun.used_le
      omega
  · rcases hdone.outcome with ⟨_, hs, hle⟩ | ⟨_, _, hs, hle⟩
    · constructor
      · rw [hs, List.take_length]
      · rw [hs]
        exact hle
    · exact ⟨hs, hle⟩

/-- C11: a copier started on valid descriptors with a size limit `maxsz >= 0`
copies a finite source of N bytes as follows, for every schedule of at least
2N+1 events delivered without failure, whatever the sizes of the reads and
writes. When N is within the limit, all N bytes reach the sink in order and
the callback is called exactly once, with `onwrite == 0` and `errnoval == 0`.
When the limit is smaller than N, the sink holds a start of the data no
longer than the limit and the callback is called exactly once with the
failure `onwrite == -1`. Under any events without failure what has been
written is a start of the data within the limit, and a callback with
`onwrite == 0`, `errnoval == 0` means all data was written. Under any events
at all, failures included, at most one callback is made and the copier has
been killed when it is made. -/
theorem C11_datacopier_copies_all_or_truncates (ctx : libxl__ctx)
    (dc : libxl__datacopier_state) (data : List Nat) (sched : List (Bool × Nat))
    (hrfd : 0 ≤ dc.readfd) (hwfd : 0 ≤ dc.writefd) (hmax : 0 ≤ dc.maxsz)
    (hsched : 2 * data.length + 1 ≤ sched.length) :
    (libxl__datacopier_start (datacopier_world_of ctx dc data) 0).1 = 0 ∧
    ((data.length : Int) ≤ dc.maxsz →
      (datacopier_drive (libxl__datacopier_start (datacopier_world_of ctx dc data) 0).2
        sched).sink = data ∧
      (datacopier_drive (libxl__datacopier_start (datacopier_world_of ctx dc data) 0).2
        sched).callbacks = [{ onwrite := 0, errnoval := 0, killed := true }]) ∧
    (dc.maxsz < (data.length : Int) →
      (datacopier_drive (libxl__datacopier_start (datacopier_world_of ctx dc data) 0).2
        sched).callbacks = [{ onwrite := -1, errnoval := 0, killed := true }] ∧
      (datacopier_drive (libxl__datacopier_start (datacopier_world_of ctx dc data) 0).2
        sched).sink =
        data.take (datacopier_drive
          (libxl__datacopier_start (datacopier_world_of ctx dc data) 0).2 sched).sink.length ∧
      ((datacopier_drive (libxl__datacopier_start (datacopier_world_of ctx dc data) 0).2
        sched).sink.length : Int) ≤ dc.maxsz) ∧
    (∀ evs : List datacopier_event, (∀ e ∈ evs, e.no_failure) →
      (datacopier_run (libxl__datacopier_start (datacopier_world_of ctx dc data) 0).2
        evs).sink =
        data.take (datacopier_run
          (libxl__datacopier_start (datacopier_world_of ctx dc data) 0).2 evs).sink.length ∧
      ((datacopier_run (libxl__datacopier_start (datacopier_world_of ctx dc data) 0).2
        evs).sink.length : Int) ≤ dc.maxsz ∧
      ((datacopier_run (libxl__datacopier_start (datacopier_world_of ctx dc data) 0).2
          evs).callbacks = [{ onwrite := 0, errnoval := 0, killed := true }] →
        (datacopier_run (libxl__datacopier_start (datacopier_world_of ctx dc data) 0).2
          evs).sink = data)) ∧
    (∀ evs : List datacopier_event,
      (datacopier_run (libxl__datacopier_start (datacopier_world_of ctx dc data) 0).2
        evs).callbacks.length ≤ 1 ∧
      ∀ c ∈ (datacopier_run (libxl__datacopier_start (datacopier_world_of ctx dc data) 0).2
        evs).callbacks, c.killed = true) := by
  obtain ⟨hrc, hrun, htodo⟩ := libxl__datacopier_start_running ctx dc data hrfd hwfd hmax
  have hdone := datacopier_drive_done sched _ data dc.maxsz hrun (by rw [htodo]; exact hsched)
  refine ⟨hrc, ?_, ?_, ?_, ?_⟩
  · intro hle
    rcases hdone.outcome with ⟨hc, hs, _⟩ | ⟨_, hlt, _, _⟩
    · exact ⟨hs, hc⟩
    · omega
  · intro hlt
    rcases hdone.outcome with ⟨_, _, hle⟩ | ⟨hc, _, hs, hle⟩
    · omega
    · exact ⟨hc, hs, hle⟩
  · intro evs hnf
    have hkeep := datacopier_run_keeps evs _ data dc.maxsz hnf (Or.inl hrun)
    obtain ⟨h1, h2⟩ := datacopier_sink_truncated _ data dc.maxsz hkeep
    refine ⟨h1, h2, ?_⟩
    intro hc
    rcases hkeep with hr | hd
    · rw [hr.nocall] at hc
      cases hc
    · rcases hd.outcome with ⟨_, hs, _⟩ | ⟨hc2, _, _, _⟩
      · exact hs
      · rw [hc2] at hc
        simp at hc
  · intro evs
    rcases datacopier_run_callbacks evs _ hrun.nocall with h0 | ⟨a, b, hc, _, _⟩
    · rw [h0]
      simp
    · rw [hc]
      simp

/-- Witness of C11: three bytes are copied in full under the limit 100, and
cut short with the failure callback under the limit 2. -/
theorem C11_datacopier_copies_all_or_truncates_witness :
    (0 ≤ (dc_sample 100).readfd ∧ 0 ≤ (dc_sample 100).writefd ∧ 0 ≤ (dc_sample 100).maxsz ∧
      2 * [1, 2, 3].length + 1 ≤ sched_sample.length ∧
      (([1, 2, 3] : List Nat).length : Int) ≤ (dc_sample 100).maxsz) ∧
    ((datacopier_drive
        (libxl__datacopier_start (datacopier_world_of ctx_empty (dc_sample 100) [1, 2, 3]) 0).2
        sched_sample).sink = [1, 2, 3] ∧
      (datacopier_drive
        (libxl__datacopier_start (datacopier_world_of ctx_empty (dc_sample 100) [1, 2, 3]) 0).2
        sched_sample).callbacks = [{ onwrite := 0, errnoval := 0, killed := true }]) ∧
    (datacopier_drive
        (libxl__datacopier_start (datacopier_world_of ctx_empty (dc_sample 2) [1, 2, 3]) 0).2
        sched_sample).callbacks = [{ onwrite := -1, errnoval := 0, killed := true }] :=
  ⟨by decide,
   (C11_datacopier_copies_all_or_truncates ctx_empty (dc_sample 100) [1, 2, 3] sched_sample
      (by decide) (by decide) (by decide) (by decide)).2.1 (by decide),
   ((C11_datacopier_copies_all_or_truncates ctx_empty (dc_sample 2) [1, 2, 3] sched_sample
      (by decide) (by decide) (by decide) (by decide)).2.2.1 (by decide)).1⟩

/-- C21: for deregister functions that keep the documented contract (the
struct is Idle on return, and an Idle struct is left alone together with the
context), `libxl__ev_devstate_cancel` leaves both the timeout and the watch
Idle, whichever of them was Active before, touches no other field, and a
second cancel changes neither the context nor the struct. -/
theorem C21_devstate_cancel_idle_and_idempotent {γ : Type}
    (ev_time_deregister : γ → libxl__ev_time → γ × libxl__ev_time)
    (ev_xswatch_deregister : γ → libxl__ev_xswatch → γ × libxl__ev_xswatch)
    (htime_idle : ∀ g ev, libxl__ev_time_isregistered (ev_time_deregister g ev).2 = 0)
    (htime_noop : ∀ g ev, libxl__ev_time_isregistered ev = 0 →
      ev_time_deregister g ev = (g, ev))
    (hwatch_idle : ∀ g w, libxl__ev_xswatch_isregistered (ev_xswatch_deregister g w).2 = 0)
    (hwatch_noop : ∀ g w, libxl__ev_xswatch_isregistered w = 0 →
      ev_xswatch_deregister g w = (g, w))
    (gc : γ) (ds : libxl__ev_devstate) :
    libxl__ev_time_isregistered
      (libxl__ev_devstate_cancel ev_time_deregister ev_xswatch_deregister gc ds).2.timeout = 0 ∧
    libxl__ev_xswatch_isregistered
      (libxl__ev_devstate_cancel ev_time_deregister ev_xswatch_deregister gc ds).2.watch = 0 ∧
    (libxl__ev_devstate_cancel ev_time_deregister ev_xswatch_deregister gc ds).2.wanted =
      ds.wanted ∧
    (libxl__ev_devstate_cancel ev_time_deregister ev_xswatch_deregister gc ds).2.callback =
      ds.callback ∧
    (libxl__ev_devstate_cancel ev_time_deregister ev_xswatch_deregister gc ds).2.timeout =
      (ev_time_deregister gc ds.timeout).2 ∧
    (libxl__ev_devstate_cancel ev_time_deregister ev_xswatch_deregister gc ds).2.watch =
      (ev_xswatch_deregister (ev_time_deregister gc ds.timeout).1 ds.watch).2 ∧
    libxl__ev_devstate_cancel ev_time_deregister ev_xswatch_deregister
        (libxl__ev_devstate_cancel ev_time_deregister ev_xswatch_deregister gc ds).1
        (libxl__ev_devstate_cancel ev_time_deregister ev_xswatch_deregister gc ds).2 =
      libxl__ev_devstate_cancel ev_time_deregister ev_xswatch_deregister gc ds := by
  have h1 := htime_idle gc ds.timeout
  have h2 := hwatch_idle (ev_time_deregister gc ds.timeout).1 ds.watch
  refine ⟨h1, h2, rfl, rfl, rfl, rfl, ?_⟩
  simp only [libxl__ev_devstate_cancel]
  rw [htime_noop _ _ h1]
  simp only
  rw [hwatch_noop _ _ h2]

/-- Witness of C21: with the modelled deregister functions on the context, a
waiter whose timeout and watch are both Active is Idle after cancel, and a
second cancel changes nothing. -/
theorem C21_devstate_cancel_idle_and_idempotent_witness :
    libxl__ev_time_isregistered ds_sample.timeout = 1 ∧
    libxl__ev_xswatch_isregistered ds_sample.watch = 1 ∧
    (libxl__ev_time_isregistered
        (libxl__ev_devstate_cancel libxl__ev_time_deregister libxl__ev_xswatch_deregister
          ctx_waiting ds_sample).2.timeout = 0 ∧
      libxl__ev_xswatch_isregistered
        (libxl__ev_devstate_cancel libxl__ev_time_deregister libxl__ev_xswatch_deregister
          ctx_waiting ds_sample).2.watch = 0 ∧
      (libxl__ev_devstate_cancel libxl__ev_time_deregister libxl__ev_xswatch_deregister
          ctx_waiting ds_sample).2.wanted = ds_sample.wanted ∧
      (libxl__ev_devstate_cancel libxl__ev_time_deregister libxl__ev_xswatch_deregister
          ctx_waiting ds_sample).2.callback = ds_sample.callback ∧
      (libxl__ev_devstate_cancel libxl__ev_time_deregister libxl__ev_xswatch_deregister
          ctx_waiting ds_sample).2.timeout =
        (libxl__ev_time_deregister ctx_waiting ds_sample.timeout).2 ∧
      (libxl__ev_devstate_cancel libxl__ev_time_deregister libxl__ev_xswatch_deregister
          ctx_waiting ds_sample).2.watch =
        (libxl__ev_xswatch_deregister
          (libxl__ev_time_deregister ctx_waiting ds_sample.timeout).1 ds_sample.watch).2 ∧
      libxl__ev_devstate_cancel libxl__ev_time_deregister libxl__ev_xswatch_deregister
          (libxl__ev_devstate_cancel libxl__ev_time_deregister libxl__ev_xswatch_deregister
            ctx_waiting ds_sample).1
          (libxl__ev_devstate_cancel libxl__ev_time_deregister libxl__ev_xswatch_deregister
            ctx_waiting ds_sample).2 =
        libxl__ev_devstate_cancel libxl__ev_time_deregister libxl__ev_xswatch_deregister
          ctx_waiting ds_sample) ∧
    (libxl__ev_devstate_cancel libxl__ev_time_deregister libxl__ev_xswatch_deregister
        ctx_waiting ds_sample).1 =
      { ctx_empty with watch_slots := [none], watch_freeslots := [0], watch_counter := 1 } :=
  ⟨by decide, by decide,
   C21_devstate_cancel_idle_and_idempotent libxl__ev_time_deregister
     libxl__ev_xswatch_deregister libxl__ev_time_deregister_idle
     libxl__ev_time_deregister_of_idle libxl__ev_xswatch_deregister_idle
     libxl__ev_xswatch_deregister_of_idle ctx_waiting ds_sample,
   by decide⟩

theorem eraseIdx_append_cons_length {α : Type} (a b : List α) (x : α) :
    (a ++ x :: b).eraseIdx a.length = a ++ b := by
  induction a with
  | nil => rfl
  | cons y ys ih => simp [List.eraseIdx, ih]

/-- C22: for every list and every test, `LIBXL_TAILQ_INSERT_SORTED` yields the
longest run of leading elements for which `new_after_search_p` is true, then
`elm_new`, then the rest of the list. So `elm_new` stands immediately before
the first element for which the test is false, and at the tail when the test
is true for every element, in particular in the empty list; taking `elm_new`
out again gives the old list, and the length grows by exactly one. -/
theorem C22_insert_sorted_position {α : Type} (l : List α) (elm_new : α) (p : α → α → Bool) :
    LIBXL_TAILQ_INSERT_SORTED l elm_new p =
      l.takeWhile (p elm_new) ++ elm_new :: l.dropWhile (p elm_new) ∧
    (∀ x ∈ l.takeWhile (p elm_new), p elm_new x = true) ∧
    (∀ y ys, l.dropWhile (p elm_new) = y :: ys → p elm_new y = false) ∧
    l.takeWhile (p elm_new) ++ l.dropWhile (p elm_new) = l ∧
    ((∀ x ∈ l, p elm_new x = true) → LIBXL_TAILQ_INSERT_SORTED l elm_new p = l ++ [elm_new]) ∧
    LIBXL_TAILQ_INSERT_SORTED [] elm_new p = [elm_new] ∧
    (LIBXL_TAILQ_INSERT_SORTED l elm_new p).eraseIdx (l.takeWhile (p elm_new)).length = l ∧
    (LIBXL_TAILQ_INSERT_SORTED l elm_new p).length = l.length + 1 := by
  have heq := LIBXL_TAILQ_INSERT_SORTED_eq l elm_new p
  have hsplit : l.takeWhile (p elm_new) ++ l.dropWhile (p elm_new) = l :=
    List.takeWhile_append_dropWhile _ _
  refine ⟨heq, ?_, ?_, hsplit, ?_, rfl, ?_, ?_⟩
  · intro x hx
    exact List.mem_takeWhile_imp hx
  · intro y ys hd
    have := List.head_dropWhile_not (p elm_new) l (by simp [hd])
    simpa [hd] using this
  · intro hall
    rw [heq, List.takeWhile_eq_self_iff.mpr hall]
    have : l.dropWhile (p elm_new) = [] := List.dropWhile_eq_nil_iff.mpr hall
    rw [this]
  · rw [heq, eraseIdx_append_cons_length]
    exact hsplit
  · rw [heq]
    have := congrArg List.length hsplit
    simp only [List.length_append, List.length_cons] at this ⊢
    omega

/-- Witness of C22: 3 goes before 5, the first element it does not sort after,
and behind 1 and 2 when it sorts after every element. -/
theorem C22_insert_sorted_position_witness :
    LIBXL_TAILQ_INSERT_SORTED [1, 2, 5, 4] 3 (fun n s => decide (n > s)) = [1, 2, 3, 5, 4] ∧
    (∀ x ∈ [1, 2], (fun (n s : Nat) => decide (n > s)) 3 x = true) ∧
    LIBXL_TAILQ_INSERT_SORTED [1, 2] 3 (fun n s => decide (n > s)) = [1, 2] ++ [3] :=
  ⟨by decide, by decide,
   (C22_insert_sorted_position [1, 2] 3 (fun n s => decide (n > s))).2.2.2.2.1 (by decide)⟩

/-- An element that sorts after no element of the list is put at the head. -/
theorem LIBXL_TAILQ_INSERT_SORTED_head {α : Type} (l : List α) (n : α) (p : α → α → Bool)
    (h : ∀ x ∈ l, p n x = false) : LIBXL_TAILQ_INSERT_SORTED l n p = n :: l := by
  rw [LIBXL_TAILQ_INSERT_SORTED_eq]
  cases l with
  | nil => rfl
  | cons x xs =>
    have hx : p n x = false := h x (List.mem_cons_self _ _)
    simp [List.takeWhile_cons, List.dropWhile_cons, hx]

/-- Elements none of which sorts after another end up in the reverse of the
order in which they were inserted. -/
theorem LIBXL_TAILQ_INSERT_SORTED_foldl_reverse {α : Type} (p : α → α → Bool)
    (regs : List α) :
    ∀ acc : List α, (∀ a ∈ regs, ∀ b ∈ acc ++ regs, p a b = false) →
      regs.foldl (fun l e => LIBXL_TAILQ_INSERT_SORTED l e p) acc = regs.reverse ++ acc := by
  induction regs with
  | nil => intro acc _; simp
  | cons r rs ih =>
    intro acc h
    rw [List.foldl_cons]
    have hr : LIBXL_TAILQ_INSERT_SORTED acc r p = r :: acc :=
      LIBXL_TAILQ_INSERT_SORTED_head acc r p
        (fun x hx => h r (List.mem_cons_self _ _) x (List.mem_append_left _ hx))
    rw [hr, ih (r :: acc)]
    · simp
    · intro a ha b hb
      apply h a (List.mem_cons_of_mem _ ha) b
      simp only [List.mem_append, List.mem_cons] at hb ⊢
      tauto

/-- C23: with a strict "sorts after" test on a key, `LIBXL_TAILQ_INSERT_SORTED`
puts the new element after elements with a smaller key only: no element
before it has its key, so every element of the list with an equal key stands
behind it. Elements that all share one key therefore end up in the reverse
of their insertion order, and so do timers that share a deadline on the
timer list. -/
theorem C23_equal_keys_reverse_insertion_order :
    (∀ (α κ : Type) [LinearOrder κ] (key : α → κ) (l : List α) (elm_new : α),
      ∃ before after : List α,
        LIBXL_TAILQ_INSERT_SORTED l elm_new (key_new_after_search_p key) =
          before ++ elm_new :: after ∧
        l = before ++ after ∧
        (∀ x ∈ before, key x < key elm_new) ∧
        (∀ x ∈ l, key x = key elm_new → x ∈ after)) ∧
    (∀ (α κ : Type) [LinearOrder κ] (key : α → κ) (regs : List α),
      (∀ a ∈ regs, ∀ b ∈ regs, key a = key b) →
      regs.foldl (fun l e => LIBXL_TAILQ_INSERT_SORTED l e (key_new_after_search_p key)) [] =
        regs.reverse) ∧
    (∀ regs : List libxl__ev_time, (∀ a ∈ regs, ∀ b ∈ regs, a.abs = b.abs) →
      etimes_built regs = regs.reverse) := by
  refine ⟨?_, ?_, ?_⟩
  · intro α κ _ key l n
    refine ⟨l.takeWhile (key_new_after_search_p key n),
      l.dropWhile (key_new_after_search_p key n),
      LIBXL_TAILQ_INSERT_SORTED_eq l n _, (List.takeWhile_append_dropWhile _ _).symm, ?_, ?_⟩
    · intro x hx
      have := List.mem_takeWhile_imp hx
      simpa [key_new_after_search_p] using this
    · intro x hx hkey
      have hsplit : l.takeWhile (key_new_after_search_p key n) ++
          l.dropWhile (key_new_after_search_p key n) = l := List.takeWhile_append_dropWhile _ _
      rw [← hsplit] at hx
      rcases List.mem_append.mp hx with hb | ha
      · exfalso
        have := List.mem_takeWhile_imp hb
        simp only [key_new_after_search_p, gt_iff_lt, decide_eq_true_eq] at this
        rw [hkey] at this
        exact lt_irrefl _ this
      · exact ha
  · intro α κ _ key regs h
    have := LIBXL_TAILQ_INSERT_SORTED_foldl_reverse (key_new_after_search_p key) regs []
      (by
        intro a ha b hb
        simp only [List.nil_append] at hb
        simp [key_new_after_search_p, h a ha b hb])
    simpa using this
  · intro regs h
    have := LIBXL_TAILQ_INSERT_SORTED_foldl_reverse etime_new_after_search_p regs []
      (by
        intro a ha b hb
        simp only [List.nil_append] at hb
        unfold etime_new_after_search_p
        rw [h a ha b hb]
        exact timercmp_gt_irrefl _)
    simpa [etimes_built] using this

/-- Witness of C23: three timers due at 5s, registered one after the other,
stand on the timer list in the reverse order. -/
theorem C23_equal_keys_reverse_insertion_order_witness :
    (∀ a ∈ [timer_at 1 5 0, timer_at 2 5 0, timer_at 3 5 0],
      ∀ b ∈ [timer_at 1 5 0, timer_at 2 5 0, timer_at 3 5 0], a.abs = b.abs) ∧
    etimes_built [timer_at 1 5 0, timer_at 2 5 0, timer_at 3 5 0] =
      [timer_at 3 5 0, timer_at 2 5 0, timer_at 1 5 0] :=
  ⟨by decide,
   C23_equal_keys_reverse_insertion_order.2.2
     [timer_at 1 5 0, timer_at 2 5 0, timer_at 3 5 0] (by decide)⟩

end Libxl
